import Mathlib

/-!
The class `mymatrix`: a growable, possibly jagged matrix (src/mymatrix.h).

A shallow embedding of the class template `mymatrix<T>` and a verification of
its specification.

Modelling conventions.

* A heap array `T*` together with its allocation is a `List T`; the length of the
  list is the size of the allocation.  The fields `NumCols`, `NumRows` and
  `NumElements` are kept as explicit fields, exactly as in the source, so that
  the bookkeeping the code does on them is part of what is verified.
* Every array access `a[i]` is bounds checked by `subscript` / `assign`; an
  access outside the allocation (undefined behaviour in C++) is the error
  `Error.out_of_bounds`.
* An `int` is an `Int`.  The row and column counts are only assigned and compared; the
  three computations the class does on `int`s, all of them on `NumElements`
  (lines 76, 99 and 174), are reduced to 32 bits by `wrapInt`, so that a size that
  does not fit an `int` is modelled as the machine computes it.
* `T{}` is `default : T`, the literal `0` converted to `T` is `(0 : T)`.  The element
  type `int` is the structure `int`: 32-bit integers whose sum and product are reduced
  to 32 bits in the same way.
* Every row owns its array: the code never lets two live rows share an array
  (`IncreaseRowElements` moves the pointers into the new row table and drops the
  old table, the copy constructor and both products allocate fresh arrays, and
  there is no destructor), so value semantics is adequate for these functions.  The
  implicitly defined copy assignment, which would make two objects share one row
  table, is not modelled.
* What value semantics cannot express, that two objects share no storage and that a
  call writes to none of the storage of its operands, is verified on a second
  embedding with addresses into a free store (namespace `Ptr`).
* A member function that may write to the object returns an `Outcome`: what the
  call returned or threw, and the state of the object(s) when the call ended.
-/

namespace MyMatrix

/-- Exceptions thrown by the class, and the undefined behaviour we track. -/
inductive Error where
  | invalid_argument (what : String)
  | runtime_error (what : String)
  | out_of_bounds
  deriving DecidableEq

/-- The exception is a `std::invalid_argument`. -/
def Error.isInvalidArgument : Error → Bool
  | .invalid_argument _ => true
  | _ => false

/-- The exception is a `std::runtime_error`. -/
def Error.isRuntimeError : Error → Bool
  | .runtime_error _ => true
  | _ => false

/-- The struct `ROW` of the source: an array of column elements and its length field. -/
structure ROW (T : Type) where
  Cols : List T
  NumCols : Int
  deriving DecidableEq

end MyMatrix

/-- The private data of `mymatrix<T>`. -/
structure mymatrix (T : Type) where
  Rows : List (MyMatrix.ROW T)
  NumRows : Int
  NumElements : Int
  deriving DecidableEq

namespace MyMatrix

deriving instance DecidableEq for Except

/-- What a call did: the value returned or the exception thrown, and the state of
the object(s) the call worked on when it ended. -/
structure Outcome (σ α : Type) where
  result : Except Error α
  state : σ

/-- Read `xs[i]`. -/
def subscript {α : Type} (xs : List α) (i : Int) : Except Error α :=
  if i < 0 then .error .out_of_bounds
  else
    match xs[i.toNat]? with
    | some x => .ok x
    | none => .error .out_of_bounds

/-- Write `xs[i] = v`. -/
def assign {α : Type} (xs : List α) (i : Int) (v : α) : Except Error (List α) :=
  if i < 0 then .error .out_of_bounds
  else if i.toNat < xs.length then .ok (xs.set i.toNat v)
  else .error .out_of_bounds

/-- The value an `int` computation leaves in its variable: the mathematical result
reduced to 32 bits, two's complement. -/
def wrapInt (x : Int) : Int := (x + 2147483648) % 4294967296 - 2147483648

/-- The element type `int`: a 32-bit two's complement integer, with the arithmetic of the
machine (a result that does not fit is reduced to 32 bits). -/
structure int where
  val : Int
  fits : wrapInt val = val
  deriving DecidableEq

/-- The `int` that a mathematical integer is converted to. -/
def int.ofInt (x : Int) : int := ⟨wrapInt x, by unfold wrapInt; omega⟩

instance : Zero int := ⟨int.ofInt 0⟩

instance : Inhabited int := ⟨int.ofInt 0⟩

instance : Add int := ⟨fun a b => int.ofInt (a.val + b.val)⟩

instance : Mul int := ⟨fun a b => int.ofInt (a.val * b.val)⟩

end MyMatrix

namespace mymatrix

open MyMatrix

variable {T : Type}

/-- `IncreaseColumnElements(index, newSize)`, lines 67-78. -/
def IncreaseColumnElements [Inhabited T] (M : mymatrix T) (index newSize : Int) :
    Except Error (mymatrix T) := do
  let row ← subscript M.Rows index
  let newArray ← (List.range newSize.toNat).mapM fun (i : Nat) =>
    if (i : Int) < row.NumCols then subscript row.Cols (i : Int) else pure default
  let newRows ← assign M.Rows index { Cols := newArray, NumCols := newSize }
  pure { M with Rows := newRows
                NumElements := wrapInt (M.NumElements + wrapInt (newSize - row.NumCols)) }

/-- `IncreaseRowElements(newSize, colSize)`, lines 83-102. -/
def IncreaseRowElements [Inhabited T] (M : mymatrix T) (newSize colSize : Int) :
    Except Error (mymatrix T) := do
  let newRows ← (List.range newSize.toNat).mapM fun (row : Nat) =>
    if (row : Int) < M.NumRows then do
      let old ← subscript M.Rows (row : Int)
      pure { Cols := old.Cols, NumCols := old.NumCols }
    else
      pure { Cols := (List.range colSize.toNat).map fun (_ : Nat) => default, NumCols := colSize }
  pure { Rows := newRows
         NumRows := newSize
         NumElements :=
           wrapInt (M.NumElements + wrapInt (wrapInt (newSize - M.NumRows) * colSize)) }

/-- `CalcMatrixElement(M1Row, M2Rows, pos)`, lines 109-117. -/
def CalcMatrixElement [Zero T] [Add T] [Mul T] (M1Row : ROW T) (M2Rows : List (ROW T))
    (pos : Int) : Except Error T :=
  let numPos := M1Row.NumCols
  (List.range numPos.toNat).foldlM
    (fun (result : T) (i : Nat) => do
      let a ← subscript M1Row.Cols (i : Int)
      let row2 ← subscript M2Rows (i : Int)
      let b ← subscript row2.Cols pos
      pure (result + a * b))
    (0 : T)

/-- The loop of `IsRectangular` over the row indices still to be visited; it returns
as soon as a row differs from the first one. -/
def IsRectangular.loop (M : mymatrix T) (firstColElements : Int) :
    List Nat → Except Error Bool
  | [] => pure true
  | i :: rest => do
    let row ← subscript M.Rows (i : Int)
    if row.NumCols ≠ firstColElements then pure false
    else IsRectangular.loop M firstColElements rest

/-- `IsRectangular()`, lines 121-129. -/
def IsRectangular (M : mymatrix T) : Except Error Bool := do
  let first ← subscript M.Rows 0
  let firstColElements := first.NumCols
  IsRectangular.loop M firstColElements (List.range' 1 (M.NumRows.toNat - 1))

/-- The default constructor `mymatrix()`, lines 138-156. -/
def ctor_default [Inhabited T] : mymatrix T :=
  { Rows := (List.range 4).map fun (_ : Nat) =>
      { Cols := (List.range 4).map fun (_ : Nat) => default, NumCols := 4 }
    NumRows := 4
    NumElements := 16 }

/-- The parameterized constructor `mymatrix(int R, int C)`, lines 165-184. -/
def ctor [Inhabited T] (R C : Int) : Except Error (mymatrix T) :=
  if R < 1 then
    throw (.invalid_argument "mymatrix::constructor: # of rows")
  else if C < 1 then
    throw (.invalid_argument "mymatrix::constructor: # of cols")
  else
    pure { NumRows := R
           Rows := (List.range R.toNat).map fun (_ : Nat) =>
             { Cols := (List.range C.toNat).map fun (_ : Nat) => default, NumCols := C }
           NumElements := wrapInt (R * C) }

/-- The copy constructor `mymatrix(const mymatrix<T>& other)`, lines 197-213. -/
def ctor_copy (other : mymatrix T) : Except Error (mymatrix T) := do
  let newRows ← (List.range other.NumRows.toNat).mapM fun (r : Nat) => do
    let orow ← subscript other.Rows (r : Int)
    let otherNumCols := orow.NumCols
    let cols ← (List.range otherNumCols.toNat).mapM fun (col : Nat) =>
      subscript orow.Cols (col : Int)
    pure ({ Cols := cols, NumCols := otherNumCols } : ROW T)
  pure { NumRows := other.NumRows, Rows := newRows, NumElements := other.NumElements }

/-- `numrows()`, lines 222-225. -/
def numrows (M : mymatrix T) : Int := M.NumRows

/-- `numcols(r)`, lines 236-242. -/
def numcols (M : mymatrix T) (r : Int) : Except Error Int :=
  if r < 0 ∨ r ≥ M.NumRows then
    throw (.invalid_argument "mymatrix::numcols: row")
  else do
    let row ← subscript M.Rows r
    pure row.NumCols

/-- `size()`, lines 308-311. -/
def size (M : mymatrix T) : Int := M.NumElements

/-- `growcols(r, C)`, lines 257-266. -/
def growcols [Inhabited T] (M : mymatrix T) (r C : Int) : Outcome (mymatrix T) Unit :=
  if r < 0 ∨ r ≥ M.NumRows then
    ⟨throw (.invalid_argument "mymatrix::growcols: row"), M⟩
  else if C < 1 then
    ⟨throw (.invalid_argument "mymatrix::growcols: columns"), M⟩
  else
    match subscript M.Rows r with
    | .error e => ⟨.error e, M⟩
    | .ok row =>
      if row.NumCols < C then
        match IncreaseColumnElements M r C with
        | .error e => ⟨.error e, M⟩
        | .ok M' => ⟨pure (), M'⟩
      else ⟨pure (), M⟩

/-- One iteration of the loop of `grow`, lines 297-298. -/
def grow.body [Inhabited T] (C : Int) (M : mymatrix T) (row : Nat) : Except Error (mymatrix T) := do
  let cur ← subscript M.Rows (row : Int)
  if cur.NumCols < C then IncreaseColumnElements M (row : Int) C else pure M

/-- `grow(R, C)`, lines 286-300.  The loop bound `NumRows` is read once: the loop body
does not assign it. -/
def grow [Inhabited T] (M : mymatrix T) (R C : Int) : Outcome (mymatrix T) Unit :=
  if R < 1 then
    ⟨throw (.invalid_argument "mymatrix::grow: # of rows"), M⟩
  else if C < 1 then
    ⟨throw (.invalid_argument "mymatrix::grow: # of cols"), M⟩
  else
    match (if M.NumRows < R then IncreaseRowElements M R C else pure M) with
    | .error e => ⟨.error e, M⟩
    | .ok M1 =>
      match (List.range M1.NumRows.toNat).foldlM (grow.body C) M1 with
      | .error e => ⟨.error e, M1⟩
      | .ok M2 => ⟨pure (), M2⟩

/-- A reference `T&` returned by the accessors: the array element `Rows[row].Cols[col]`. -/
structure Ref where
  row : Int
  col : Int
  deriving DecidableEq

/-- Read through a reference. -/
def Ref.read (p : Ref) (M : mymatrix T) : Except Error T := do
  let row ← subscript M.Rows p.row
  subscript row.Cols p.col

/-- Write through a reference. -/
def Ref.write (p : Ref) (M : mymatrix T) (v : T) : Except Error (mymatrix T) := do
  let row ← subscript M.Rows p.row
  let cols ← assign row.Cols p.col v
  let rows ← assign M.Rows p.row { row with Cols := cols }
  pure { M with Rows := rows }

/-- `at(r, c)`, lines 323-331. -/
def at_ (M : mymatrix T) (r c : Int) : Outcome (mymatrix T) Ref :=
  if r < 0 ∨ r ≥ M.NumRows then
    ⟨throw (.invalid_argument "mymatrix::at: row"), M⟩
  else
    match subscript M.Rows r with
    | .error e => ⟨.error e, M⟩
    | .ok row =>
      if c < 0 ∨ c ≥ row.NumCols then
        ⟨throw (.invalid_argument "mymatrix::at: col"), M⟩
      else ⟨pure ⟨r, c⟩, M⟩

/-- `operator()(r, c)`, lines 343-352. -/
def operator_call (M : mymatrix T) (r c : Int) : Outcome (mymatrix T) Ref :=
  if r < 0 ∨ r ≥ M.NumRows then
    ⟨throw (.invalid_argument "mymatrix::(): row"), M⟩
  else
    match subscript M.Rows r with
    | .error e => ⟨.error e, M⟩
    | .ok row =>
      if c < 0 ∨ c ≥ row.NumCols then
        ⟨throw (.invalid_argument "mymatrix::(): col"), M⟩
      else ⟨pure ⟨r, c⟩, M⟩

/-- The expression `M.at(r, c)` used as a value. -/
def at_value (M : mymatrix T) (r c : Int) : Except Error T := do
  let p ← (at_ M r c).result
  p.read (at_ M r c).state

/-- The expression `M(r, c)` used as a value. -/
def call_value (M : mymatrix T) (r c : Int) : Except Error T := do
  let p ← (operator_call M r c).result
  p.read (operator_call M r c).state

/-- The statement `M.at(r, c) = v`. -/
def at_assign (M : mymatrix T) (r c : Int) (v : T) : Outcome (mymatrix T) Unit :=
  match (at_ M r c).result with
  | .error e => ⟨.error e, (at_ M r c).state⟩
  | .ok p =>
    match p.write (at_ M r c).state v with
    | .error e => ⟨.error e, (at_ M r c).state⟩
    | .ok M' => ⟨pure (), M'⟩

/-- The statement `M(r, c) = v`. -/
def call_assign (M : mymatrix T) (r c : Int) (v : T) : Outcome (mymatrix T) Unit :=
  match (operator_call M r c).result with
  | .error e => ⟨.error e, (operator_call M r c).state⟩
  | .ok p =>
    match p.write (operator_call M r c).state v with
    | .error e => ⟨.error e, (operator_call M r c).state⟩
    | .ok M' => ⟨pure (), M'⟩

/-- The body of the outer loop of scalar multiplication, lines 370-376. -/
def operator_mul_scalar.body [Mul T] (M : mymatrix T) (scalar : T) (result : mymatrix T)
    (row : Nat) : Except Error (mymatrix T) := do
  let src ← subscript M.Rows (row : Int)
  let colSize := src.NumCols
  let cols ← (List.range colSize.toNat).mapM fun (col : Nat) => do
    let x ← subscript src.Cols (col : Int)
    pure (x * scalar)
  let rows ← assign result.Rows (row : Int) { Cols := cols, NumCols := colSize }
  pure { result with Rows := rows }

/-- Scalar multiplication `operator*(T scalar)`, lines 362-380.  The state of the
outcome is the receiver. -/
def operator_mul_scalar [Inhabited T] [Mul T] (M : mymatrix T) (scalar : T) :
    Outcome (mymatrix T) (mymatrix T) :=
  ⟨do
    let result ← (ctor M.NumRows 1 : Except Error (mymatrix T))
    let result := { result with NumRows := M.NumRows, NumElements := M.NumElements }
    (List.range result.NumRows.toNat).foldlM (operator_mul_scalar.body M scalar) result,
   M⟩

/-- The body of the inner loop of matrix multiplication, line 411. -/
def operator_mul.inner [Zero T] [Add T] [Mul T] (M other : mymatrix T) (i : Nat)
    (result : mymatrix T) (j : Nat) : Except Error (mymatrix T) := do
  let row ← subscript M.Rows (i : Int)
  let v ← CalcMatrixElement row other.Rows (j : Int)
  match at_assign result (i : Int) (j : Int) v with
  | ⟨.error e, _⟩ => throw e
  | ⟨.ok _, result'⟩ => pure result'

/-- The body of the outer loop of matrix multiplication, lines 410-412.  The bound
`result.numcols(0)` is read once per row: the inner loop does not change it. -/
def operator_mul.outer [Zero T] [Add T] [Mul T] (M other : mymatrix T)
    (result : mymatrix T) (i : Nat) : Except Error (mymatrix T) := do
  let width ← numcols result 0
  (List.range width.toNat).foldlM (operator_mul.inner M other i) result

/-- Matrix multiplication `operator*(const mymatrix<T>& other)`, lines 397-416.  The
state of the outcome is the pair (receiver, other). -/
def operator_mul [Inhabited T] [Zero T] [Add T] [Mul T] (M other : mymatrix T) :
    Outcome (mymatrix T × mymatrix T) (mymatrix T) :=
  ⟨do
    let thisRect ← IsRectangular M
    if !thisRect then
      throw (.runtime_error "mymatrix::*: this not rectangular")
    let otherRect ← IsRectangular other
    if !otherRect then
      throw (.runtime_error "mymatrix::*: other not rectangular")
    let n ← numcols M 0
    if n ≠ other.NumRows then
      throw (.runtime_error "mymatrix::*: size mismatch")
    let first ← subscript other.Rows 0
    let result ← (ctor M.NumRows first.NumCols : Except Error (mymatrix T))
    (List.range result.NumRows.toNat).foldlM (operator_mul.outer M other) result,
   (M, other)⟩

/-! Specification vocabulary -/

/-- Representation invariant of a row: the length field is the size of the array, and
the row has at least one column. -/
def RowWellFormed (row : ROW T) : Prop :=
  row.NumCols = row.Cols.length ∧ 1 ≤ row.NumCols

/-- Representation invariant of a matrix: the row count is the size of the row table,
there is at least one row, and every row is well formed. -/
def WellFormed (M : mymatrix T) : Prop :=
  M.NumRows = M.Rows.length ∧ 1 ≤ M.NumRows ∧ ∀ row ∈ M.Rows, RowWellFormed row

instance (row : ROW T) : Decidable (RowWellFormed row) := by
  unfold RowWellFormed; infer_instance

instance (M : mymatrix T) : Decidable (WellFormed M) := by
  unfold WellFormed; infer_instance

/-- Every row has the same number of columns as row 0 (glossary: rectangular). -/
def rectangular (M : mymatrix T) : Prop :=
  ∀ r ∈ List.range M.numrows.toNat, M.numcols (r : Int) = M.numcols 0

instance (M : mymatrix T) : Decidable (rectangular M) := by
  unfold rectangular; infer_instance

/-- The sum of the column counts of all rows, read through the public interface
(`numcols` of a row that cannot be read counts as 0). -/
def sumNumcols (M : mymatrix T) : Int :=
  ((List.range M.numrows.toNat).map fun (r : Nat) =>
    match M.numcols (r : Int) with
    | .ok n => n
    | .error _ => 0).sum

/-- The row that `IncreaseColumnElements` installs in place of `row`: the first
`newSize` positions of `row`, padded with default values. -/
def grownRow [Inhabited T] (row : ROW T) (newSize : Int) : ROW T :=
  { Cols := (List.range newSize.toNat).map fun (i : Nat) => row.Cols.getD i default
    NumCols := newSize }

/-- The row that `IncreaseRowElements` creates for a new row index. -/
def freshRow [Inhabited T] (colSize : Int) : ROW T :=
  { Cols := (List.range colSize.toNat).map fun (_ : Nat) => default
    NumCols := colSize }

/-- What one iteration of the loop of `grow` does to a row. -/
def growRow [Inhabited T] (C : Int) (row : ROW T) : ROW T :=
  if row.NumCols < C then grownRow row C else row

/-- The running total `NumElements` is the sum of the length fields of the rows, as an
`int`: reduced to 32 bits. -/
def SizeInvariant (M : mymatrix T) : Prop :=
  M.NumElements = wrapInt (M.Rows.map fun row => row.NumCols).sum

instance (M : mymatrix T) : Decidable (SizeInvariant M) := by
  unfold SizeInvariant; infer_instance

/-- The row that scalar multiplication builds from `row`. -/
def scaledRow [Mul T] (scalar : T) (row : ROW T) : ROW T :=
  { Cols := row.Cols.map fun x => x * scalar
    NumCols := row.NumCols }

/-- The element stored at row `i`, column `j` (`default` outside the matrix). -/
def cell [Inhabited T] (M : mymatrix T) (i j : Nat) : T :=
  match M.Rows[i]? with
  | some row => row.Cols.getD j default
  | none => default

/-- The accumulator of `CalcMatrixElement` after `n` iterations, for row `i` of `M` and
column `j` of `other`. -/
def dot [Inhabited T] [Zero T] [Add T] [Mul T] (M other : mymatrix T) (i j n : Nat) : T :=
  (List.range n).foldl (fun acc k => acc + cell M i k * cell other k j) 0

/-- The shape of the result of matrix multiplication while it is being filled: `R` rows
of `p` columns each, and the running total `E`. -/
def ProductShape (R p E : Int) (s : mymatrix T) : Prop :=
  s.NumRows = R ∧ s.NumRows = s.Rows.length ∧
  (∀ row ∈ s.Rows, row.NumCols = p ∧ row.NumCols = row.Cols.length) ∧ s.NumElements = E

/-- Position `(a, b)` of `s` holds the dot product of row `a` of `M` and column `b` of
`other` (over `n` terms). -/
def HasDot [Inhabited T] [Zero T] [Add T] [Mul T] (M other : mymatrix T) (n : Nat)
    (s : mymatrix T) (a b : Nat) : Prop :=
  ∃ row, s.Rows[a]? = some row ∧ row.Cols[b]? = some (dot M other a b n)

/-- The matrix that matrix multiplication builds from `M` and `other` when the result has
`p` columns: entry `(a, b)` is the accumulator of `CalcMatrixElement` after
`other.NumRows` iterations. -/
def product [Inhabited T] [Zero T] [Add T] [Mul T] (M other : mymatrix T) (p : Int) :
    mymatrix T :=
  { Rows := (List.range M.NumRows.toNat).map fun (a : Nat) =>
      { Cols := (List.range p.toNat).map fun (b : Nat) => dot M other a b other.NumRows.toNat
        NumCols := p }
    NumRows := M.NumRows
    NumElements := wrapInt (M.NumRows * p) }

/-- The matrices a program can build: results of the three constructors and of the two
products, and the state a matrix is left in by `growcols`, `grow` and a write through
`at` or `operator()` (whether the call returned or threw). -/
inductive Reachable [Inhabited T] [Zero T] [Add T] [Mul T] : mymatrix T → Prop
  | ctor_default : Reachable ctor_default
  | ctor (R C : Int) (M : mymatrix T) : mymatrix.ctor R C = .ok M → Reachable M
  | ctor_copy (M N : mymatrix T) : Reachable M → mymatrix.ctor_copy M = .ok N → Reachable N
  | growcols (M : mymatrix T) (r C : Int) : Reachable M → Reachable (M.growcols r C).state
  | grow (M : mymatrix T) (R C : Int) : Reachable M → Reachable (M.grow R C).state
  | at_assign (M : mymatrix T) (r c : Int) (v : T) :
      Reachable M → Reachable (M.at_assign r c v).state
  | call_assign (M : mymatrix T) (r c : Int) (v : T) :
      Reachable M → Reachable (M.call_assign r c v).state
  | mul_scalar (M N : mymatrix T) (s : T) :
      Reachable M → (M.operator_mul_scalar s).result = .ok N → Reachable N
  | mul (M1 M2 N : mymatrix T) :
      Reachable M1 → Reachable M2 → (M1.operator_mul M2).result = .ok N → Reachable N

/-! Example matrices -/

/-- The matrix that `mymatrix<int>(1, 1)` builds. -/
def example_1x1 : mymatrix int :=
  { Rows := [⟨[0], 1⟩], NumRows := 1, NumElements := 1 }

/-- The matrix that `mymatrix<int>(2, 1)` builds. -/
def example_2x1 : mymatrix int :=
  { Rows := [⟨[0], 1⟩, ⟨[0], 1⟩], NumRows := 2, NumElements := 2 }

/-- The matrix [[1,2],[3,4]]. -/
def example_M1 : mymatrix Int :=
  { Rows := [⟨[1, 2], 2⟩, ⟨[3, 4], 2⟩], NumRows := 2, NumElements := 4 }

/-- The matrix [[5,6],[7,8]]. -/
def example_M2 : mymatrix Int :=
  { Rows := [⟨[5, 6], 2⟩, ⟨[7, 8], 2⟩], NumRows := 2, NumElements := 4 }

/-- A jagged matrix: row 0 has 2 columns and row 1 has 3. -/
def example_jagged : mymatrix Int :=
  { Rows := [⟨[1, 2], 2⟩, ⟨[3, 4, 5], 3⟩], NumRows := 2, NumElements := 5 }

/-- A 2x3 matrix. -/
def example_2x3 : mymatrix Int :=
  { Rows := [⟨[1, 2, 3], 3⟩, ⟨[4, 5, 6], 3⟩], NumRows := 2, NumElements := 6 }

/-- The 1x2 matrix [[65536, 1]] of `int`s. -/
def example_wide : mymatrix int :=
  { Rows := [⟨[int.ofInt 65536, int.ofInt 1], 2⟩], NumRows := 1, NumElements := 2 }

/-- The 2x1 matrix [[65536], [7]] of `int`s. -/
def example_tall : mymatrix int :=
  { Rows := [⟨[int.ofInt 65536], 1⟩, ⟨[int.ofInt 7], 1⟩], NumRows := 2, NumElements := 2 }

end mymatrix

/-! The same member functions on a free store with addresses

The copy constructor promises that the copy shares no storage with its source, and the
two products promise that they write to none of the storage of their operands.  These are
statements about pointers, so here the functions they involve are embedded once more with
`Rows` and `Cols` as addresses into a free store.  Address `a` of `elems` is the array
the `a`-th `new T[...]` returned, address `a` of `tables` the array the `a`-th
`new ROW[...]` returned; nothing is ever deleted (the class has no destructor).  An
array is entered into the store when the loop that initialises it has run. -/

namespace Ptr

open MyMatrix

/-- The struct `ROW` with its pointer: `Cols` is the address of the element array. -/
structure ROW where
  Cols : Nat
  NumCols : Int
  deriving DecidableEq

/-- The free store. -/
structure Heap (T : Type) where
  elems : List (List T)
  tables : List (List ROW)
  deriving DecidableEq

/-- The fields of a `mymatrix` object: `Rows` is the address of the row table. -/
structure Obj where
  Rows : Nat
  NumRows : Int
  NumElements : Int
  deriving DecidableEq

variable {T : Type}

/-- `IncreaseColumnElements(index, newSize)`, lines 67-78, on the free store. -/
def IncreaseColumnElements [Inhabited T] (h : Heap T) (M : Obj) (index newSize : Int) :
    Except Error (Obj × Heap T) := do
  let table ← subscript h.tables (M.Rows : Int)
  let row ← subscript table index
  let newArray ← (List.range newSize.toNat).mapM fun (i : Nat) =>
    if (i : Int) < row.NumCols then do
      let old ← subscript h.elems (row.Cols : Int)
      subscript old (i : Int)
    else pure default
  let table' ← assign table index { Cols := h.elems.length, NumCols := newSize }
  let tables' ← assign h.tables (M.Rows : Int) table'
  pure ({ M with NumElements := wrapInt (M.NumElements + wrapInt (newSize - row.NumCols)) },
        { elems := h.elems ++ [newArray], tables := tables' })

/-- One iteration of the loop of `IncreaseRowElements`, lines 87-97: `acc` holds the
entries of `newRows` written so far and the element arrays of the store. -/
def IncreaseRowElements.body [Inhabited T] (h : Heap T) (M : Obj) (colSize : Int)
    (acc : List ROW × List (List T)) (row : Nat) :
    Except Error (List ROW × List (List T)) :=
  if (row : Int) < M.NumRows then do
    let table ← subscript h.tables (M.Rows : Int)
    let old ← subscript table (row : Int)
    pure (acc.1 ++ [{ Cols := old.Cols, NumCols := old.NumCols }], acc.2)
  else
    pure (acc.1 ++ [{ Cols := acc.2.length, NumCols := colSize }],
          acc.2 ++ [(List.range colSize.toNat).map fun (_ : Nat) => default])

/-- `IncreaseRowElements(newSize, colSize)`, lines 83-102, on the free store. -/
def IncreaseRowElements [Inhabited T] (h : Heap T) (M : Obj) (newSize colSize : Int) :
    Except Error (Obj × Heap T) := do
  let acc ← (List.range newSize.toNat).foldlM (IncreaseRowElements.body h M colSize)
    ([], h.elems)
  pure ({ Rows := h.tables.length
          NumRows := newSize
          NumElements :=
            wrapInt (M.NumElements + wrapInt (wrapInt (newSize - M.NumRows) * colSize)) },
        { elems := acc.2, tables := h.tables ++ [acc.1] })

/-- One iteration of the copy constructor's loop, lines 205-211. -/
def ctor_copy.body (h : Heap T) (other : Obj) (acc : List ROW × List (List T)) (r : Nat) :
    Except Error (List ROW × List (List T)) := do
  let otable ← subscript h.tables (other.Rows : Int)
  let orow ← subscript otable (r : Int)
  let otherNumCols := orow.NumCols
  let cols ← (List.range otherNumCols.toNat).mapM fun (col : Nat) => do
    let src ← subscript acc.2 (orow.Cols : Int)
    subscript src (col : Int)
  pure (acc.1 ++ [{ Cols := acc.2.length, NumCols := otherNumCols }], acc.2 ++ [cols])

/-- The copy constructor, lines 197-213, on the free store: it returns the new object and
the store after the call. -/
def ctor_copy (h : Heap T) (other : Obj) : Except Error (Obj × Heap T) := do
  let acc ← (List.range other.NumRows.toNat).foldlM (ctor_copy.body h other) ([], h.elems)
  pure ({ Rows := h.tables.length
          NumRows := other.NumRows
          NumElements := other.NumElements },
        { elems := acc.2, tables := h.tables ++ [acc.1] })

/-- `growcols(r, C)`, lines 257-266, on the free store. -/
def growcols [Inhabited T] (h : Heap T) (M : Obj) (r C : Int) : Except Error (Obj × Heap T) :=
  if r < 0 ∨ r ≥ M.NumRows then
    throw (.invalid_argument "mymatrix::growcols: row")
  else if C < 1 then
    throw (.invalid_argument "mymatrix::growcols: columns")
  else do
    let table ← subscript h.tables (M.Rows : Int)
    let row ← subscript table r
    if row.NumCols < C then IncreaseColumnElements h M r C else pure (M, h)

/-- One iteration of the loop of `grow`, lines 297-298, on the free store. -/
def grow.body [Inhabited T] (C : Int) (s : Obj × Heap T) (row : Nat) :
    Except Error (Obj × Heap T) := do
  let table ← subscript s.2.tables (s.1.Rows : Int)
  let cur ← subscript table (row : Int)
  if cur.NumCols < C then IncreaseColumnElements s.2 s.1 (row : Int) C else pure s

/-- `grow(R, C)`, lines 286-300, on the free store. -/
def grow [Inhabited T] (h : Heap T) (M : Obj) (R C : Int) : Except Error (Obj × Heap T) :=
  if R < 1 then
    throw (.invalid_argument "mymatrix::grow: # of rows")
  else if C < 1 then
    throw (.invalid_argument "mymatrix::grow: # of cols")
  else do
    let s ← if M.NumRows < R then IncreaseRowElements h M R C else pure (M, h)
    (List.range s.1.NumRows.toNat).foldlM (grow.body C) s

/-- The statement `M.at(r, c) = v`, lines 323-331, on the free store. -/
def at_assign (h : Heap T) (M : Obj) (r c : Int) (v : T) : Except Error (Heap T) :=
  if r < 0 ∨ r ≥ M.NumRows then
    throw (.invalid_argument "mymatrix::at: row")
  else do
    let table ← subscript h.tables (M.Rows : Int)
    let row ← subscript table r
    if c < 0 ∨ c ≥ row.NumCols then
      throw (.invalid_argument "mymatrix::at: col")
    else do
      let arr ← subscript h.elems (row.Cols : Int)
      let arr' ← assign arr c v
      let elems' ← assign h.elems (row.Cols : Int) arr'
      pure { h with elems := elems' }

/-- One iteration of the loop of the parameterized constructor, lines 177-182. -/
def ctor.body [Inhabited T] (C : Int) (acc : List ROW × List (List T)) (_ : Nat) :
    List ROW × List (List T) :=
  (acc.1 ++ [{ Cols := acc.2.length, NumCols := C }],
   acc.2 ++ [(List.range C.toNat).map fun (_ : Nat) => default])

/-- The parameterized constructor `mymatrix(int R, int C)`, lines 165-184, on the free
store. -/
def ctor [Inhabited T] (h : Heap T) (R C : Int) : Except Error (Obj × Heap T) :=
  if R < 1 then
    throw (.invalid_argument "mymatrix::constructor: # of rows")
  else if C < 1 then
    throw (.invalid_argument "mymatrix::constructor: # of cols")
  else
    let acc := (List.range R.toNat).foldl (ctor.body C) ([], h.elems)
    pure ({ Rows := h.tables.length, NumRows := R, NumElements := wrapInt (R * C) },
          { elems := acc.2, tables := h.tables ++ [acc.1] })

/-- `numcols(r)`, lines 236-242, on the free store. -/
def numcols (h : Heap T) (M : Obj) (r : Int) : Except Error Int :=
  if r < 0 ∨ r ≥ M.NumRows then
    throw (.invalid_argument "mymatrix::numcols: row")
  else do
    let table ← subscript h.tables (M.Rows : Int)
    let row ← subscript table r
    pure row.NumCols

/-- The loop of `IsRectangular` on the free store. -/
def IsRectangular.loop (h : Heap T) (M : Obj) (firstColElements : Int) :
    List Nat → Except Error Bool
  | [] => pure true
  | i :: rest => do
    let table ← subscript h.tables (M.Rows : Int)
    let row ← subscript table (i : Int)
    if row.NumCols ≠ firstColElements then pure false
    else IsRectangular.loop h M firstColElements rest

/-- `IsRectangular()`, lines 121-129, on the free store. -/
def IsRectangular (h : Heap T) (M : Obj) : Except Error Bool := do
  let table ← subscript h.tables (M.Rows : Int)
  let first ← subscript table 0
  let firstColElements := first.NumCols
  IsRectangular.loop h M firstColElements (List.range' 1 (M.NumRows.toNat - 1))

/-- `CalcMatrixElement(M1Row, M2Rows, pos)`, lines 109-117, on the free store: `M1Row` is
a `ROW` passed by value, `M2Rows` the address of a row table. -/
def CalcMatrixElement [Zero T] [Add T] [Mul T] (h : Heap T) (M1Row : ROW) (M2Rows : Nat)
    (pos : Int) : Except Error T :=
  let numPos := M1Row.NumCols
  (List.range numPos.toNat).foldlM
    (fun (result : T) (i : Nat) => do
      let cols1 ← subscript h.elems (M1Row.Cols : Int)
      let a ← subscript cols1 (i : Int)
      let table2 ← subscript h.tables (M2Rows : Int)
      let row2 ← subscript table2 (i : Int)
      let cols2 ← subscript h.elems (row2.Cols : Int)
      let b ← subscript cols2 pos
      pure (result + a * b))
    (0 : T)

/-- The body of the outer loop of scalar multiplication, lines 370-376, on the free store;
`result` is the object under construction. -/
def operator_mul_scalar.body [Mul T] (M : Obj) (scalar : T) (result : Obj) (h : Heap T)
    (row : Nat) : Except Error (Heap T) := do
  let table ← subscript h.tables (M.Rows : Int)
  let src ← subscript table (row : Int)
  let colSize := src.NumCols
  let cols ← (List.range colSize.toNat).mapM fun (col : Nat) => do
    let arr ← subscript h.elems (src.Cols : Int)
    let x ← subscript arr (col : Int)
    pure (x * scalar)
  let rtable ← subscript h.tables (result.Rows : Int)
  let rtable' ← assign rtable (row : Int) { Cols := h.elems.length, NumCols := colSize }
  let tables' ← assign h.tables (result.Rows : Int) rtable'
  pure { elems := h.elems ++ [cols], tables := tables' }

/-- What scalar multiplication does after its argument-free start, lines 364-379. -/
def operator_mul_scalar.run [Inhabited T] [Mul T] (h : Heap T) (M : Obj) (scalar : T) :
    Except Error (Obj × Heap T) := do
  let s ← ctor h M.NumRows 1
  let result : Obj := { s.1 with NumRows := M.NumRows, NumElements := M.NumElements }
  let h' ← (List.range result.NumRows.toNat).foldlM
    (operator_mul_scalar.body M scalar result) s.2
  pure (result, h')

/-- Scalar multiplication `operator*(T scalar)`, lines 362-380, on the free store: the
result is the object returned or the exception thrown, the state is the store when the
call ends. -/
def operator_mul_scalar [Inhabited T] [Mul T] (h : Heap T) (M : Obj) (scalar : T) :
    Outcome (Heap T) Obj :=
  match operator_mul_scalar.run h M scalar with
  | .ok s => ⟨.ok s.1, s.2⟩
  | .error e => ⟨.error e, h⟩

/-- The body of the inner loop of matrix multiplication, line 411, on the free store. -/
def operator_mul.inner [Zero T] [Add T] [Mul T] (M other result : Obj) (i : Nat)
    (h : Heap T) (j : Nat) : Except Error (Heap T) := do
  let table ← subscript h.tables (M.Rows : Int)
  let row ← subscript table (i : Int)
  let v ← CalcMatrixElement h row other.Rows (j : Int)
  at_assign h result (i : Int) (j : Int) v

/-- The body of the outer loop of matrix multiplication, lines 410-412, on the free
store. -/
def operator_mul.outer [Zero T] [Add T] [Mul T] (M other result : Obj) (h : Heap T)
    (i : Nat) : Except Error (Heap T) := do
  let width ← numcols h result 0
  (List.range width.toNat).foldlM (operator_mul.inner M other result i) h

/-- What matrix multiplication does once its three checks have passed, lines 408-415. -/
def operator_mul.run [Inhabited T] [Zero T] [Add T] [Mul T] (h : Heap T) (M other : Obj) :
    Except Error (Obj × Heap T) := do
  let otable ← subscript h.tables (other.Rows : Int)
  let first ← subscript otable 0
  let s ← ctor h M.NumRows first.NumCols
  let h' ← (List.range s.1.NumRows.toNat).foldlM (operator_mul.outer M other s.1) s.2
  pure (s.1, h')

/-- Matrix multiplication `operator*(const mymatrix<T>& other)`, lines 397-416, on the
free store: the result is the object returned or the exception thrown, the state is the
store when the call ends (the three checks only read, so a `runtime_error` leaves the
store as it was). -/
def operator_mul [Inhabited T] [Zero T] [Add T] [Mul T] (h : Heap T) (M other : Obj) :
    Outcome (Heap T) Obj :=
  match IsRectangular h M with
  | .error e => ⟨.error e, h⟩
  | .ok thisRect =>
    if !thisRect then
      ⟨throw (.runtime_error "mymatrix::*: this not rectangular"), h⟩
    else
      match IsRectangular h other with
      | .error e => ⟨.error e, h⟩
      | .ok otherRect =>
        if !otherRect then
          ⟨throw (.runtime_error "mymatrix::*: other not rectangular"), h⟩
        else
          match numcols h M 0 with
          | .error e => ⟨.error e, h⟩
          | .ok n =>
            if n ≠ other.NumRows then
              ⟨throw (.runtime_error "mymatrix::*: size mismatch"), h⟩
            else
              match operator_mul.run h M other with
              | .ok s => ⟨.ok s.1, s.2⟩
              | .error e => ⟨.error e, h⟩

/-- The matrix an object denotes: the rows its table points to, read from the store (an
address outside the store reads as an empty array). -/
def view (h : Heap T) (M : Obj) : mymatrix T :=
  { Rows := (h.tables.getD M.Rows []).map fun (pr : ROW) =>
      { Cols := h.elems.getD pr.Cols [], NumCols := pr.NumCols }
    NumRows := M.NumRows
    NumElements := M.NumElements }

/-- The object's row table and every element array it points to are in the store. -/
def Allocated (h : Heap T) (M : Obj) : Prop :=
  M.Rows < h.tables.length ∧ ∀ pr ∈ h.tables.getD M.Rows [], pr.Cols < h.elems.length

instance (h : Heap T) (M : Obj) : Decidable (Allocated h M) := by
  unfold Allocated; infer_instance

/-- Two objects share no storage: both are in the store, their row tables are different
arrays, and no element array is pointed to by both. -/
def Separate (h : Heap T) (X Y : Obj) : Prop :=
  Allocated h X ∧ Allocated h Y ∧ X.Rows ≠ Y.Rows ∧
  ∀ px ∈ h.tables.getD X.Rows [], ∀ py ∈ h.tables.getD Y.Rows [], px.Cols ≠ py.Cols

/-- The object is in the store and the matrix it denotes is well formed. -/
def Good (h : Heap T) (M : Obj) : Prop :=
  Allocated h M ∧ (view h M).WellFormed

instance (h : Heap T) (M : Obj) : Decidable (Good h M) := by
  unfold Good; infer_instance

/-- A store holding the jagged matrix [[1,2],[3,4,5]] and the square matrix
[[1,2],[3,4]]. -/
def example_heap2 : Heap Int :=
  { elems := [[1, 2], [3, 4, 5], [1, 2], [3, 4]]
    tables := [[⟨0, 2⟩, ⟨1, 3⟩], [⟨2, 2⟩, ⟨3, 2⟩]] }

/-- The object whose rows are the square matrix of `example_heap2`. -/
def example_square : Obj := { Rows := 1, NumRows := 2, NumElements := 4 }

/-- A store holding the jagged matrix [[1,2],[3,4,5]]. -/
def example_heap : Heap Int :=
  { elems := [[1, 2], [3, 4, 5]], tables := [[⟨0, 2⟩, ⟨1, 3⟩]] }

/-- The object whose rows are in `example_heap`. -/
def example_obj : Obj := { Rows := 0, NumRows := 2, NumElements := 5 }

end Ptr

/-! Arithmetic of `int` -/

namespace MyMatrix

theorem wrapInt_of_fits (x : Int) (h0 : -2147483648 ≤ x) (h1 : x ≤ 2147483647) :
    wrapInt x = x := by
  unfold wrapInt
  omega

theorem wrapInt_range (x : Int) : -2147483648 ≤ wrapInt x ∧ wrapInt x ≤ 2147483647 := by
  unfold wrapInt
  omega

theorem wrapInt_modEq (x : Int) : wrapInt x ≡ x [ZMOD 4294967296] := by
  unfold wrapInt Int.ModEq
  omega

theorem wrapInt_eq_of_modEq (x y : Int) (h : x ≡ y [ZMOD 4294967296]) :
    wrapInt x = wrapInt y := by
  unfold Int.ModEq at h
  unfold wrapInt
  omega

theorem wrapInt_wrapInt (x : Int) : wrapInt (wrapInt x) = wrapInt x :=
  wrapInt_eq_of_modEq _ _ (wrapInt_modEq x)

theorem wrapInt_add_wrapInt (a b : Int) : wrapInt (a + wrapInt b) = wrapInt (a + b) :=
  wrapInt_eq_of_modEq _ _ (Int.ModEq.add_left a (wrapInt_modEq b))

theorem wrapInt_wrapInt_add (a b : Int) : wrapInt (wrapInt a + b) = wrapInt (a + b) :=
  wrapInt_eq_of_modEq _ _ (Int.ModEq.add_right b (wrapInt_modEq a))

theorem wrapInt_wrapInt_mul (a b : Int) : wrapInt (wrapInt a * b) = wrapInt (a * b) :=
  wrapInt_eq_of_modEq _ _ (Int.ModEq.mul_right b (wrapInt_modEq a))

theorem wrapInt_mul_wrapInt (a b : Int) : wrapInt (a * wrapInt b) = wrapInt (a * b) :=
  wrapInt_eq_of_modEq _ _ (Int.ModEq.mul_left a (wrapInt_modEq b))

theorem wrapInt_add_mul (a b c : Int) :
    wrapInt (a + wrapInt (wrapInt b * c)) = wrapInt (a + b * c) := by
  rw [wrapInt_add_wrapInt]
  exact wrapInt_eq_of_modEq _ _ (Int.ModEq.add_left a ((wrapInt_modEq b).mul_right c))

end MyMatrix

/-! Array accesses and loops that succeed -/

namespace MyMatrix

theorem subscript_natCast {α : Type} (xs : List α) (i : Nat) (h : i < xs.length) :
    subscript xs (i : Int) = .ok xs[i] := by
  have h0 : ¬ ((i : Int) < 0) := by omega
  simp [subscript, h0, List.getElem?_eq_getElem h]

theorem subscript_getElem_some {α : Type} (xs : List α) (i : Nat) (x : α)
    (h : xs[i]? = some x) : subscript xs (i : Int) = .ok x := by
  have h0 : ¬ ((i : Int) < 0) := by omega
  simp [subscript, h0, h]

theorem lt_length_of_getElem_some {α : Type} (xs : List α) (i : Nat) (x : α)
    (h : xs[i]? = some x) : i < xs.length := by
  rcases Nat.lt_or_ge i xs.length with h' | h'
  · exact h'
  · simp [List.getElem?_eq_none h'] at h

theorem assign_natCast {α : Type} (xs : List α) (i : Nat) (v : α) (h : i < xs.length) :
    assign xs (i : Int) v = .ok (xs.set i v) := by
  have h0 : ¬ ((i : Int) < 0) := by omega
  simp [assign, h0, h]

theorem mapM_ok {α β : Type} (f : α → Except Error β) (g : α → β) (l : List α)
    (h : ∀ x ∈ l, f x = .ok (g x)) : l.mapM f = .ok (l.map g) := by
  induction l with
  | nil => rfl
  | cons a l ih =>
    have ha := h a (List.mem_cons_self a l)
    have hl := ih (fun x hx => h x (List.mem_cons_of_mem a hx))
    simp only [List.mapM_cons, ha, hl, List.map_cons]
    rfl

theorem foldlM_range_inv {σ : Type} (f : σ → Nat → Except Error σ) (P : Nat → σ → Prop)
    (n : Nat) (s0 : σ) (h0 : P 0 s0)
    (hstep : ∀ k s, k < n → P k s → ∃ s', f s k = .ok s' ∧ P (k + 1) s') :
    ∃ s', (List.range n).foldlM f s0 = .ok s' ∧ P n s' := by
  induction n with
  | zero => exact ⟨s0, rfl, h0⟩
  | succ n ih =>
    obtain ⟨s1, h1, hP1⟩ := ih (fun k s hk hP => hstep k s (Nat.lt_succ_of_lt hk) hP)
    obtain ⟨s2, h2, hP2⟩ := hstep n s1 (Nat.lt_succ_self n) hP1
    refine ⟨s2, ?_, hP2⟩
    rw [List.range_succ, List.foldlM_append, h1]
    simp only [List.foldlM_cons, List.foldlM_nil]
    show (f s1 n >>= fun s => pure s) = _
    rw [h2]; rfl

end MyMatrix

namespace mymatrix

open MyMatrix

variable {T : Type}

/-! What each helper computes on a well-formed matrix -/

theorem IncreaseColumnElements_ok [Inhabited T] (M : mymatrix T) (k : Nat) (row : ROW T)
    (hk : M.Rows[k]? = some row) (hrow : row.NumCols = row.Cols.length) (newSize : Int) :
    IncreaseColumnElements M k newSize =
      .ok { M with Rows := M.Rows.set k (grownRow row newSize)
                   NumElements := wrapInt (M.NumElements + (newSize - row.NumCols)) } := by
  have hlen : k < M.Rows.length := lt_length_of_getElem_some _ _ _ hk
  have hmap : (List.range newSize.toNat).mapM
      (fun i : Nat => if (i : Int) < row.NumCols then subscript row.Cols i else pure default)
      = .ok ((List.range newSize.toNat).map fun i => row.Cols.getD i default) := by
    apply mapM_ok
    intro i _
    by_cases hi : (i : Int) < row.NumCols
    · have hi' : i < row.Cols.length := by omega
      rw [if_pos hi, subscript_natCast _ _ hi']
      simp [List.getD_eq_getElem?_getD, List.getElem?_eq_getElem hi']
    · have hi' : row.Cols.length ≤ i := by omega
      rw [if_neg hi]
      simp [List.getD_eq_getElem?_getD, List.getElem?_eq_none hi']
      rfl
  unfold IncreaseColumnElements
  rw [subscript_getElem_some _ _ _ hk]
  simp only [bind, Except.bind]
  rw [hmap]
  simp only [assign_natCast _ _ _ hlen]
  rw [wrapInt_add_wrapInt]
  rfl

/-! Reading a well-formed matrix -/

theorem numcols_of_getElem_some (M : mymatrix T) (hn : M.NumRows = M.Rows.length) (k : Nat)
    (row : ROW T) (hk : M.Rows[k]? = some row) : M.numcols (k : Int) = .ok row.NumCols := by
  have hlen := lt_length_of_getElem_some _ _ _ hk
  have h : ¬ ((k : Int) < 0 ∨ (k : Int) ≥ M.NumRows) := by omega
  unfold numcols
  rw [if_neg h, subscript_getElem_some _ _ _ hk]
  rfl

theorem at_of_getElem_some (M : mymatrix T) (hn : M.NumRows = M.Rows.length) (k j : Nat)
    (row : ROW T) (hk : M.Rows[k]? = some row) (hj : (j : Int) < row.NumCols) :
    M.at_ (k : Int) (j : Int) = ⟨.ok ⟨k, j⟩, M⟩ := by
  have hlen := lt_length_of_getElem_some _ _ _ hk
  have h : ¬ ((k : Int) < 0 ∨ (k : Int) ≥ M.NumRows) := by omega
  have h' : ¬ ((j : Int) < 0 ∨ (j : Int) ≥ row.NumCols) := by omega
  unfold at_
  rw [if_neg h, subscript_getElem_some _ _ _ hk]
  simp only [if_neg h']
  rfl

theorem operator_call_of_getElem_some (M : mymatrix T) (hn : M.NumRows = M.Rows.length)
    (k j : Nat) (row : ROW T) (hk : M.Rows[k]? = some row) (hj : (j : Int) < row.NumCols) :
    M.operator_call (k : Int) (j : Int) = ⟨.ok ⟨k, j⟩, M⟩ := by
  have hlen := lt_length_of_getElem_some _ _ _ hk
  have h : ¬ ((k : Int) < 0 ∨ (k : Int) ≥ M.NumRows) := by omega
  have h' : ¬ ((j : Int) < 0 ∨ (j : Int) ≥ row.NumCols) := by omega
  unfold operator_call
  rw [if_neg h, subscript_getElem_some _ _ _ hk]
  simp only [if_neg h']
  rfl

theorem read_of_getElem_some (M : mymatrix T) (k j : Nat) (row : ROW T) (v : T)
    (hk : M.Rows[k]? = some row) (hj : row.Cols[j]? = some v) :
    Ref.read ⟨k, j⟩ M = .ok v := by
  unfold Ref.read
  simp only [subscript_getElem_some _ _ _ hk, bind, Except.bind, subscript_getElem_some _ _ _ hj]

theorem at_value_of_getElem_some (M : mymatrix T) (hn : M.NumRows = M.Rows.length) (k j : Nat)
    (row : ROW T) (v : T) (hk : M.Rows[k]? = some row)
    (hc : row.NumCols = row.Cols.length) (hj : row.Cols[j]? = some v) :
    M.at_value (k : Int) (j : Int) = .ok v := by
  have hj' : (j : Int) < row.NumCols := by
    have := lt_length_of_getElem_some _ _ _ hj
    omega
  unfold at_value
  rw [at_of_getElem_some M hn k j row hk hj']
  simp only [bind, Except.bind]
  exact read_of_getElem_some M k j row v hk hj

theorem call_value_of_getElem_some (M : mymatrix T) (hn : M.NumRows = M.Rows.length) (k j : Nat)
    (row : ROW T) (v : T) (hk : M.Rows[k]? = some row)
    (hc : row.NumCols = row.Cols.length) (hj : row.Cols[j]? = some v) :
    M.call_value (k : Int) (j : Int) = .ok v := by
  have hj' : (j : Int) < row.NumCols := by
    have := lt_length_of_getElem_some _ _ _ hj
    omega
  unfold call_value
  rw [operator_call_of_getElem_some M hn k j row hk hj']
  simp only [bind, Except.bind]
  exact read_of_getElem_some M k j row v hk hj

theorem grownRow_getElem_some [Inhabited T] (row : ROW T) (n : Int) (j : Nat) (hj : (j : Int) < n) :
    (grownRow row n).Cols[j]? = some (row.Cols.getD j default) := by
  have : j < n.toNat := by omega
  simp [grownRow, List.getElem?_map, List.getElem?_range this]

theorem grownRow_length [Inhabited T] (row : ROW T) (n : Int) :
    (grownRow row n).Cols.length = n.toNat := by
  simp [grownRow]

theorem growcols_ok [Inhabited T] (M : mymatrix T) (hn : M.NumRows = M.Rows.length) (k : Nat)
    (row : ROW T) (hk : M.Rows[k]? = some row) (hrow : row.NumCols = row.Cols.length)
    (C : Int) (hC : 1 ≤ C) :
    M.growcols k C = ⟨.ok (),
      if row.NumCols < C then
        { M with Rows := M.Rows.set k (grownRow row C)
                 NumElements := wrapInt (M.NumElements + (C - row.NumCols)) }
      else M⟩ := by
  have hlen := lt_length_of_getElem_some _ _ _ hk
  have h : ¬ ((k : Int) < 0 ∨ (k : Int) ≥ M.NumRows) := by omega
  have h' : ¬ (C < 1) := by omega
  unfold growcols
  rw [if_neg h, if_neg h', subscript_getElem_some _ _ _ hk]
  by_cases hlt : row.NumCols < C
  · simp only [if_pos hlt, IncreaseColumnElements_ok M k row hk hrow C]
    rfl
  · simp only [if_neg hlt]
    rfl

/-- Claim C4: for a row index `r` in range and `C ≥ 1`, `growcols(r, C)` returns normally;
afterwards `numcols(r)` is the maximum of the old column count and `C`, the elements of row
`r` at the old positions are unchanged, the elements at the new positions are `T`'s default
value.  `size()` is unchanged when the row already had `C` columns, and otherwise it is
the old `size()` plus `C - old numcols(r)` as an `int`; so `size()` has grown by exactly
`max(0, C - old numcols(r))` whenever that total fits an `int`. -/
theorem growcols_spec [Inhabited T] (M : mymatrix T) (hM : M.WellFormed) (r C : Int)
    (hr0 : 0 ≤ r) (hr1 : r < M.numrows) (hC : 1 ≤ C) :
    ∃ old : Int, M.numcols r = .ok old ∧
      (M.growcols r C).result = .ok () ∧
      (M.growcols r C).state.numcols r = .ok (max old C) ∧
      (∀ c : Int, 0 ≤ c → c < old →
        ∃ v, M.at_value r c = .ok v ∧ (M.growcols r C).state.at_value r c = .ok v) ∧
      (∀ c : Int, old ≤ c → c < C → (M.growcols r C).state.at_value r c = .ok default) ∧
      (M.growcols r C).state.size =
        (if old < C then wrapInt (M.size + (C - old)) else M.size) ∧
      (-2147483648 ≤ M.size + max 0 (C - old) → M.size + max 0 (C - old) ≤ 2147483647 →
        (M.growcols r C).state.size = M.size + max 0 (C - old)) := by
  obtain ⟨hn, _, hrows⟩ := hM
  obtain ⟨k, rfl⟩ := Int.eq_ofNat_of_zero_le hr0
  have hklen : k < M.Rows.length := by unfold numrows at hr1; omega
  have hk : M.Rows[k]? = some M.Rows[k] := List.getElem?_eq_getElem hklen
  obtain ⟨hrow, hrow1⟩ := hrows _ (List.getElem_mem hklen)
  refine ⟨M.Rows[k].NumCols, numcols_of_getElem_some M hn k _ hk, ?_⟩
  rw [growcols_ok M hn k _ hk hrow C hC]
  refine ⟨rfl, ?_⟩
  by_cases hlt : M.Rows[k].NumCols < C
  · simp only [if_pos hlt]
    generalize hM' : ({ M with Rows := M.Rows.set k (grownRow M.Rows[k] C)
                               NumElements :=
                                 wrapInt (M.NumElements + (C - M.Rows[k].NumCols)) }
                      : mymatrix T) = M'
    have hk' : M'.Rows[k]? = some (grownRow M.Rows[k] C) := by
      subst hM'; simp [List.getElem?_set, hklen]
    have hn' : M'.NumRows = (M'.Rows.length : Int) := by
      subst hM'; simp [hn]
    have hg : (grownRow M.Rows[k] C).NumCols = ((grownRow M.Rows[k] C).Cols.length : Int) := by
      rw [grownRow_length]; show C = _; omega
    have hsize : M'.size = wrapInt (M.size + (C - M.Rows[k].NumCols)) := by
      subst hM'; rfl
    refine ⟨?_, ?_, ?_, hsize, ?_⟩
    · rw [numcols_of_getElem_some M' hn' k _ hk']
      show Except.ok C = _
      rw [max_eq_right (le_of_lt hlt)]
    · intro c hc0 hc1
      obtain ⟨j, rfl⟩ := Int.eq_ofNat_of_zero_le hc0
      have hj : j < M.Rows[k].Cols.length := by omega
      refine ⟨M.Rows[k].Cols[j], ?_, ?_⟩
      · exact at_value_of_getElem_some M hn k j _ _ hk hrow (List.getElem?_eq_getElem hj)
      · apply at_value_of_getElem_some M' hn' k j _ _ hk' hg
        rw [grownRow_getElem_some _ _ _ (by omega)]
        simp [List.getD_eq_getElem?_getD, List.getElem?_eq_getElem hj]
    · intro c hc0 hc1
      have hc0' : 0 ≤ c := by omega
      obtain ⟨j, rfl⟩ := Int.eq_ofNat_of_zero_le hc0'
      have hj : M.Rows[k].Cols.length ≤ j := by omega
      apply at_value_of_getElem_some M' hn' k j _ _ hk' hg
      rw [grownRow_getElem_some _ _ _ (by omega)]
      simp [List.getD_eq_getElem?_getD, List.getElem?_eq_none hj]
    · intro h0 h1
      rw [max_eq_right (by omega)] at h0 h1 ⊢
      rw [hsize, wrapInt_of_fits _ h0 h1]
  · rw [if_neg hlt, if_neg hlt]
    refine ⟨?_, ?_, ?_, rfl, ?_⟩
    · rw [numcols_of_getElem_some M hn k _ hk, max_eq_left (by omega)]
    · intro c hc0 hc1
      obtain ⟨j, rfl⟩ := Int.eq_ofNat_of_zero_le hc0
      have hj : j < M.Rows[k].Cols.length := by omega
      have := at_value_of_getElem_some M hn k j _ _ hk hrow (List.getElem?_eq_getElem hj)
      exact ⟨_, this, this⟩
    · intro c hc0 hc1
      omega
    · intro _ _
      show M.NumElements = M.NumElements + max 0 (C - M.Rows[k].NumCols)
      rw [max_eq_left (by omega)]; simp


theorem growcols_spec_witness : ∃ old : Int, example_M1.numcols 1 = .ok old ∧
      (example_M1.growcols 1 4).result = .ok () ∧
      (example_M1.growcols 1 4).state.numcols 1 = .ok (max old 4) ∧
      (∀ c : Int, 0 ≤ c → c < old →
        ∃ v, example_M1.at_value 1 c = .ok v ∧ (example_M1.growcols 1 4).state.at_value 1 c = .ok v) ∧
      (∀ c : Int, old ≤ c → c < 4 → (example_M1.growcols 1 4).state.at_value 1 c = .ok default) ∧
      (example_M1.growcols 1 4).state.size =
        (if old < 4 then wrapInt (example_M1.size + (4 - old)) else example_M1.size) ∧
      (-2147483648 ≤ example_M1.size + max 0 (4 - old) →
        example_M1.size + max 0 (4 - old) ≤ 2147483647 →
        (example_M1.growcols 1 4).state.size = example_M1.size + max 0 (4 - old)) :=
  growcols_spec example_M1 (by decide) 1 4 (by decide) (by decide) (by decide)

/-- The claim as it was written, `size()` grown by exactly `max(0, C - old numcols(r))`,
fails for the 2x1 matrix and `growcols(0, 2147483647)`: the new total `2147483648` does
not fit an `int`, and `size()` returns `-2147483648`. -/
theorem growcols_spec_counterexample :
    (ctor 2 1 : Except Error (mymatrix int)) = .ok example_2x1 ∧
    example_2x1.numcols 0 = .ok 1 ∧
    (example_2x1.growcols 0 2147483647).result = .ok () ∧
    (example_2x1.growcols 0 2147483647).state.size = -2147483648 ∧
    (example_2x1.growcols 0 2147483647).state.size
      ≠ example_2x1.size + max 0 (2147483647 - 1) := by
  have h := growcols_ok example_2x1 rfl 0 ⟨[0], 1⟩ rfl rfl 2147483647 (by decide)
  rw [Nat.cast_zero, if_pos (by decide)] at h
  rw [h]
  refine ⟨by decide, by decide, rfl, ?_, ?_⟩
  · show wrapInt (2 + (2147483647 - 1)) = -2147483648
    decide
  · show wrapInt (2 + (2147483647 - 1)) ≠ 2 + max 0 (2147483647 - 1)
    decide

/-! Growing -/

theorem IncreaseRowElements_ok [Inhabited T] (M : mymatrix T)
    (hn : M.NumRows = M.Rows.length) (newSize colSize : Int) (h : M.NumRows ≤ newSize) :
    IncreaseRowElements M newSize colSize =
      .ok { Rows := M.Rows ++ List.replicate (newSize.toNat - M.Rows.length) (freshRow colSize)
            NumRows := newSize
            NumElements := wrapInt (M.NumElements + (newSize - M.NumRows) * colSize) } := by
  have hmap : (List.range newSize.toNat).mapM
      (fun row : Nat =>
        if (row : Int) < M.NumRows then do
          let old ← subscript M.Rows (row : Int)
          pure ({ Cols := old.Cols, NumCols := old.NumCols } : ROW T)
        else
          pure { Cols := (List.range colSize.toNat).map fun (_ : Nat) => default,
                 NumCols := colSize })
      = .ok ((List.range newSize.toNat).map fun i => M.Rows.getD i (freshRow colSize)) := by
    apply mapM_ok
    intro i _
    by_cases hi : (i : Int) < M.NumRows
    · have hi' : i < M.Rows.length := by omega
      rw [if_pos hi, subscript_natCast _ _ hi']
      simp [List.getD_eq_getElem?_getD, List.getElem?_eq_getElem hi', bind, Except.bind]
      rfl
    · have hi' : M.Rows.length ≤ i := by omega
      have hd : M.Rows.getD i (freshRow colSize) = freshRow colSize := by
        simp [List.getD_eq_getElem?_getD, List.getElem?_eq_none hi']
      rw [if_neg hi, hd]
      rfl
  have hlist : ((List.range newSize.toNat).map fun i => M.Rows.getD i (freshRow colSize))
      = M.Rows ++ List.replicate (newSize.toNat - M.Rows.length) (freshRow colSize) := by
    apply List.ext_getElem?
    intro i
    by_cases hi : i < M.Rows.length
    · have hi2 : i < newSize.toNat := by omega
      simp [List.getElem?_map, List.getElem?_range hi2, List.getElem?_append_left hi,
        List.getD_eq_getElem?_getD, List.getElem?_eq_getElem hi]
    · have hi' : M.Rows.length ≤ i := by omega
      rw [List.getElem?_append_right hi', List.getElem?_replicate]
      by_cases hi2 : i < newSize.toNat
      · have : i - M.Rows.length < newSize.toNat - M.Rows.length := by omega
        simp [List.getElem?_map, List.getElem?_range hi2, this,
          List.getD_eq_getElem?_getD, List.getElem?_eq_none hi']
      · have : ¬ (i - M.Rows.length < newSize.toNat - M.Rows.length) := by omega
        have h3 : (List.range newSize.toNat).length ≤ i := by simp; omega
        simp [List.getElem?_map, List.getElem?_eq_none h3, this]
  unfold IncreaseRowElements
  simp only [bind, Except.bind] at hmap ⊢
  rw [hmap, hlist, wrapInt_add_mul]
  rfl


theorem grow_body_ok [Inhabited T] (s : mymatrix T) (k : Nat) (row : ROW T)
    (hk : s.Rows[k]? = some row) (hrow : row.NumCols = row.Cols.length) (C : Int) :
    grow.body C s k = .ok
      (if row.NumCols < C then
        { s with Rows := s.Rows.set k (grownRow row C)
                 NumElements := wrapInt (s.NumElements + (C - row.NumCols)) }
      else s) := by
  unfold grow.body
  rw [subscript_getElem_some _ _ _ hk]
  simp only [bind, Except.bind]
  by_cases hlt : row.NumCols < C
  · simp only [if_pos hlt, IncreaseColumnElements_ok s k row hk hrow C]
  · simp only [if_neg hlt]
    rfl

/-- The difference between the running total and the true number of elements. -/
theorem sum_set_NumCols (rows : List (ROW T)) (k : Nat) (row x : ROW T)
    (hk : rows[k]? = some row) :
    ((rows.set k x).map fun r => r.NumCols).sum
      = (rows.map fun r => r.NumCols).sum + (x.NumCols - row.NumCols) := by
  have hlen := lt_length_of_getElem_some _ _ _ hk
  have hlen' : k < (rows.map fun r => r.NumCols).length := by simpa using hlen
  have hrow : rows[k] = row := by
    rw [List.getElem?_eq_getElem hlen] at hk
    exact Option.some.inj hk
  rw [List.map_set, List.sum_set', dif_pos hlen']
  simp only [List.getElem_map, hrow]
  ring

theorem grow_loop_ok [Inhabited T] (M1 : mymatrix T) (hn : M1.NumRows = M1.Rows.length)
    (hrows : ∀ row ∈ M1.Rows, row.NumCols = row.Cols.length) (C : Int) :
    ∃ M2, (List.range M1.NumRows.toNat).foldlM (grow.body C) M1 = .ok M2 ∧
      M2.NumRows = M1.NumRows ∧ M2.Rows = M1.Rows.map (growRow C) ∧
      (∀ S : Int, M1.NumElements = wrapInt S →
        M2.NumElements = wrapInt (S + ((M2.Rows.map fun r => r.NumCols).sum
          - (M1.Rows.map fun r => r.NumCols).sum))) ∧
      ((∀ row ∈ M1.Rows, C ≤ row.NumCols) → M2.NumElements = M1.NumElements) := by
  have hloop := foldlM_range_inv (grow.body C)
    (fun k s => s.NumRows = M1.NumRows ∧
      (∀ i, s.Rows[i]? = if i < k then (M1.Rows[i]?).map (growRow C) else M1.Rows[i]?) ∧
      (∀ S : Int, M1.NumElements = wrapInt S →
        s.NumElements = wrapInt (S + ((s.Rows.map fun r => r.NumCols).sum
          - (M1.Rows.map fun r => r.NumCols).sum))) ∧
      ((∀ row ∈ M1.Rows, C ≤ row.NumCols) → s.NumElements = M1.NumElements))
    M1.NumRows.toNat M1 (by
      refine ⟨rfl, fun i => by simp, fun S hS => ?_, fun _ => rfl⟩
      rw [sub_self, add_zero]
      exact hS) ?_
  · obtain ⟨M2, h2, hN, hR, hS⟩ := hloop
    refine ⟨M2, h2, hN, ?_, hS⟩
    apply List.ext_getElem?
    intro i
    rw [hR i, List.getElem?_map]
    by_cases hi : i < M1.NumRows.toNat
    · rw [if_pos hi]
    · rw [if_neg hi]
      have : M1.Rows.length ≤ i := by omega
      simp [List.getElem?_eq_none this]
  · intro k s hk ⟨hN, hR, hS, hE⟩
    have hklen : k < M1.Rows.length := by omega
    have hsk : s.Rows[k]? = some M1.Rows[k] := by
      rw [hR k, if_neg (lt_irrefl k), List.getElem?_eq_getElem hklen]
    have hrow := hrows _ (List.getElem_mem hklen)
    refine ⟨_, grow_body_ok s k _ hsk hrow C, ?_⟩
    by_cases hlt : M1.Rows[k].NumCols < C
    · simp only [if_pos hlt]
      refine ⟨hN, ?_, ?_, fun hall => ?_⟩
      rotate_left
      · intro S hS1
        rw [sum_set_NumCols _ _ _ _ hsk]
        show wrapInt (s.NumElements + (C - M1.Rows[k].NumCols)) = _
        rw [hS S hS1, wrapInt_wrapInt_add]
        simp only [grownRow]
        congr 1
        ring
      · have := hall _ (List.getElem_mem hklen)
        omega
      · intro i
        rw [List.getElem?_set]
        by_cases hik : k = i
        · subst hik
          have : k < s.Rows.length := lt_length_of_getElem_some _ _ _ hsk
          simp [this, List.getElem?_eq_getElem hklen, growRow, hlt]
        · rw [if_neg hik, hR i]
          by_cases hi : i < k
          · rw [if_pos hi, if_pos (by omega)]
          · rw [if_neg hi, if_neg (by omega)]
    · simp only [if_neg hlt]
      refine ⟨hN, ?_, hS, hE⟩
      intro i
      rw [hR i]
      by_cases hik : i = k
      · subst hik
        simp [List.getElem?_eq_getElem hklen, growRow, hlt]
      · by_cases hi : i < k
        · rw [if_pos hi, if_pos (by omega)]
        · rw [if_neg hi, if_neg (by omega)]

theorem growRow_NumCols [Inhabited T] (C : Int) (row : ROW T) :
    (growRow C row).NumCols = max row.NumCols C := by
  unfold growRow
  by_cases hlt : row.NumCols < C
  · rw [if_pos hlt, max_eq_right (le_of_lt hlt)]; rfl
  · rw [if_neg hlt, max_eq_left (by omega)]

theorem growRow_length [Inhabited T] (C : Int) (row : ROW T)
    (hrow : row.NumCols = row.Cols.length) :
    (growRow C row).NumCols = (growRow C row).Cols.length := by
  unfold growRow
  by_cases hlt : row.NumCols < C
  · rw [if_pos hlt, grownRow_length]; show C = _; omega
  · rw [if_neg hlt]; exact hrow

theorem growRow_getElem_old [Inhabited T] (C : Int) (row : ROW T)
    (hrow : row.NumCols = row.Cols.length) (j : Nat) (hj : j < row.Cols.length) :
    (growRow C row).Cols[j]? = some row.Cols[j] := by
  unfold growRow
  by_cases hlt : row.NumCols < C
  · rw [if_pos hlt, grownRow_getElem_some _ _ _ (by omega)]
    simp [List.getD_eq_getElem?_getD, List.getElem?_eq_getElem hj]
  · rw [if_neg hlt, List.getElem?_eq_getElem hj]

theorem growRow_getElem_new [Inhabited T] (C : Int) (row : ROW T)
    (hrow : row.NumCols = row.Cols.length) (j : Nat) (hj : row.Cols.length ≤ j)
    (hjC : (j : Int) < C) : (growRow C row).Cols[j]? = some default := by
  unfold growRow
  have hlt : row.NumCols < C := by omega
  rw [if_pos hlt, grownRow_getElem_some _ _ _ hjC]
  simp [List.getD_eq_getElem?_getD, List.getElem?_eq_none hj]

theorem freshRow_length [Inhabited T] (C : Int) (hC : 0 ≤ C) :
    (freshRow C : ROW T).NumCols = ((freshRow C : ROW T).Cols.length : Int) := by
  simp [freshRow, Int.toNat_of_nonneg hC]

theorem freshRow_getElem [Inhabited T] (C : Int) (j : Nat) (hj : (j : Int) < C) :
    (freshRow C : ROW T).Cols[j]? = some default := by
  have : j < C.toNat := by omega
  simp [freshRow, List.getElem?_replicate, this]

theorem growRow_freshRow [Inhabited T] (C : Int) :
    growRow C (freshRow C : ROW T) = freshRow C := by
  unfold growRow
  rw [if_neg]
  show ¬ (C < C)
  omega

theorem grow_ok [Inhabited T] (M : mymatrix T) (hn : M.NumRows = M.Rows.length)
    (hrows : ∀ row ∈ M.Rows, row.NumCols = row.Cols.length) (R C : Int)
    (hR : 1 ≤ R) (hC : 1 ≤ C) :
    ∃ M', M.grow R C = ⟨.ok (), M'⟩ ∧ M'.NumRows = max M.NumRows R ∧
      M'.Rows = M.Rows.map (growRow C)
        ++ List.replicate (R.toNat - M.Rows.length) (freshRow C) ∧
      (∀ S : Int, M.NumElements = wrapInt S →
        M'.NumElements = wrapInt (S + ((M'.Rows.map fun r => r.NumCols).sum
          - (M.Rows.map fun r => r.NumCols).sum))) ∧
      (R ≤ M.NumRows → (∀ row ∈ M.Rows, C ≤ row.NumCols) →
        M'.NumElements = M.NumElements) := by
  have hR' : ¬ (R < 1) := by omega
  have hC' : ¬ (C < 1) := by omega
  unfold grow
  rw [if_neg hR', if_neg hC']
  by_cases hlt : M.NumRows < R
  · rw [if_pos hlt, IncreaseRowElements_ok M hn R C (le_of_lt hlt)]
    generalize hM1 : ({ Rows := M.Rows ++ List.replicate (R.toNat - M.Rows.length) (freshRow C)
                        NumRows := R
                        NumElements := wrapInt (M.NumElements + (R - M.NumRows) * C) }
                      : mymatrix T) = M1
    have h1n : M1.NumRows = M1.Rows.length := by
      subst hM1; simp; omega
    have h1rows : ∀ row ∈ M1.Rows, row.NumCols = row.Cols.length := by
      subst hM1
      intro row hrow
      rcases List.mem_append.mp hrow with h | h
      · exact hrows row h
      · rw [List.eq_of_mem_replicate h]
        exact freshRow_length C (by omega)
    obtain ⟨M2, h2, hN, hRows, hS, -⟩ := grow_loop_ok M1 h1n h1rows C
    refine ⟨M2, ?_, ?_, ?_, ?_, fun hle => absurd hle (by omega)⟩
    · simp only [h2]; rfl
    · rw [hN]; subst hM1; show R = _; rw [max_eq_right (le_of_lt hlt)]
    · rw [hRows]; subst hM1
      simp [List.map_append, List.map_replicate, growRow_freshRow]
    · intro S hS0
      have h1S : M1.NumElements = wrapInt (S + (R - M.NumRows) * C) := by
        subst hM1
        show wrapInt (M.NumElements + (R - M.NumRows) * C) = _
        rw [hS0, wrapInt_wrapInt_add]
      rw [hS _ h1S]; subst hM1
      simp only [List.map_append, List.sum_append, List.map_replicate, List.sum_replicate]
      have hcast : ((R.toNat - M.Rows.length : Nat) : Int) = R - M.NumRows := by omega
      simp only [freshRow, nsmul_eq_mul, hcast]
      congr 1
      ring
  · rw [if_neg hlt]
    obtain ⟨M2, h2, hN, hRows, hS, hE⟩ := grow_loop_ok M hn hrows C
    refine ⟨M2, ?_, ?_, ?_, hS, fun _ => hE⟩
    · show (match (pure M : Except Error (mymatrix T)) with
        | .error e => (⟨.error e, M⟩ : Outcome (mymatrix T) Unit)
        | .ok M1 =>
          match (List.range M1.NumRows.toNat).foldlM (grow.body C) M1 with
          | .error e => ⟨.error e, M1⟩
          | .ok M2 => ⟨pure (), M2⟩) = _
      show (match (List.range M.NumRows.toNat).foldlM (grow.body C) M with
          | .error e => (⟨.error e, M⟩ : Outcome (mymatrix T) Unit)
          | .ok M2 => ⟨pure (), M2⟩) = _
      rw [h2]; rfl
    · rw [hN, max_eq_left (by omega)]
    · rw [hRows]
      have : R.toNat - M.Rows.length = 0 := by omega
      simp [this]

/-- Claim C5: for `R ≥ 1` and `C ≥ 1`, `grow(R, C)` returns normally; afterwards the row
count is `max(old numrows(), R)`, every old row `r` has `max(old numcols(r), C)` columns,
every appended row has exactly `C` columns, every element at an old position is unchanged
(also in rows wider than `C`), and every element at a new position (a new column of an old
row, or any column of an appended row) is `T`'s default value. -/
theorem grow_spec [Inhabited T] (M : mymatrix T) (hM : M.WellFormed) (R C : Int)
    (hR : 1 ≤ R) (hC : 1 ≤ C) :
    (M.grow R C).result = .ok () ∧
    (M.grow R C).state.numrows = max M.numrows R ∧
    (∀ r : Int, 0 ≤ r → r < M.numrows →
      ∃ old : Int, M.numcols r = .ok old ∧
        (M.grow R C).state.numcols r = .ok (max old C) ∧
        (∀ c : Int, 0 ≤ c → c < old →
          ∃ v, M.at_value r c = .ok v ∧ (M.grow R C).state.at_value r c = .ok v) ∧
        (∀ c : Int, old ≤ c → c < C → (M.grow R C).state.at_value r c = .ok default)) ∧
    (∀ r : Int, M.numrows ≤ r → r < R →
      (M.grow R C).state.numcols r = .ok C ∧
      (∀ c : Int, 0 ≤ c → c < C → (M.grow R C).state.at_value r c = .ok default)) := by
  obtain ⟨hn, hn1, hrows⟩ := hM
  obtain ⟨M', hgrow, hN, hRows, -⟩ := grow_ok M hn (fun row h => (hrows row h).1) R C hR hC
  rw [hgrow]
  have hn' : M'.NumRows = M'.Rows.length := by
    rw [hN, hRows]; simp; omega
  refine ⟨rfl, hN, ?_, ?_⟩
  · intro r hr0 hr1
    obtain ⟨k, rfl⟩ := Int.eq_ofNat_of_zero_le hr0
    have hklen : k < M.Rows.length := by unfold numrows at hr1; omega
    have hk : M.Rows[k]? = some M.Rows[k] := List.getElem?_eq_getElem hklen
    obtain ⟨hrow, -⟩ := hrows _ (List.getElem_mem hklen)
    have hk' : M'.Rows[k]? = some (growRow C M.Rows[k]) := by
      rw [hRows, List.getElem?_append_left (by simpa using hklen), List.getElem?_map, hk]
      rfl
    have hg := growRow_length C _ hrow
    refine ⟨M.Rows[k].NumCols, numcols_of_getElem_some M hn k _ hk, ?_, ?_, ?_⟩
    · show M'.numcols k = _
      rw [numcols_of_getElem_some M' hn' k _ hk', growRow_NumCols]
    · intro c hc0 hc1
      obtain ⟨j, rfl⟩ := Int.eq_ofNat_of_zero_le hc0
      have hj : j < M.Rows[k].Cols.length := by omega
      exact ⟨M.Rows[k].Cols[j],
        at_value_of_getElem_some M hn k j _ _ hk hrow (List.getElem?_eq_getElem hj),
        at_value_of_getElem_some M' hn' k j _ _ hk' hg (growRow_getElem_old C _ hrow j hj)⟩
    · intro c hc0 hc1
      have hc0' : 0 ≤ c := by omega
      obtain ⟨j, rfl⟩ := Int.eq_ofNat_of_zero_le hc0'
      exact at_value_of_getElem_some M' hn' k j _ _ hk' hg
        (growRow_getElem_new C _ hrow j (by omega) hc1)
  · intro r hr0 hr1
    unfold numrows at hr0
    have hr0' : 0 ≤ r := by omega
    obtain ⟨k, rfl⟩ := Int.eq_ofNat_of_zero_le hr0'
    have hklen : M.Rows.length ≤ k := by omega
    have hk' : M'.Rows[k]? = some (freshRow C) := by
      rw [hRows, List.getElem?_append_right (by simpa using hklen), List.getElem?_replicate]
      rw [if_pos]
      simp only [List.length_map]
      omega
    refine ⟨?_, ?_⟩
    · show M'.numcols k = _
      rw [numcols_of_getElem_some M' hn' k _ hk']
      rfl
    · intro c hc0 hc1
      obtain ⟨j, rfl⟩ := Int.eq_ofNat_of_zero_le hc0
      exact at_value_of_getElem_some M' hn' k j _ _ hk' (freshRow_length C (by omega))
        (freshRow_getElem C j hc1)

theorem grow_spec_witness :
    example_jagged.WellFormed ∧ (1 : Int) ≤ 3 ∧ (1 : Int) ≤ 3 ∧
    (example_jagged.grow 3 3).result = .ok () ∧
    (example_jagged.grow 3 3).state.numrows = max example_jagged.numrows 3 :=
  ⟨by decide, by decide, by decide,
    (grow_spec example_jagged (by decide) 3 3 (by decide) (by decide)).1,
    (grow_spec example_jagged (by decide) 3 3 (by decide) (by decide)).2.1⟩

/-! Element access -/

theorem at_row_error (M : mymatrix T) (r c : Int) (h : r < 0 ∨ r ≥ M.NumRows) :
    M.at_ r c = ⟨.error (.invalid_argument "mymatrix::at: row"), M⟩ := by
  unfold at_; rw [if_pos h]; rfl

theorem at_col_error (M : mymatrix T) (hn : M.NumRows = M.Rows.length) (k : Nat) (c : Int)
    (row : ROW T) (hk : M.Rows[k]? = some row) (h : c < 0 ∨ c ≥ row.NumCols) :
    M.at_ (k : Int) c = ⟨.error (.invalid_argument "mymatrix::at: col"), M⟩ := by
  have hlen := lt_length_of_getElem_some _ _ _ hk
  have h' : ¬ ((k : Int) < 0 ∨ (k : Int) ≥ M.NumRows) := by omega
  unfold at_
  rw [if_neg h', subscript_getElem_some _ _ _ hk]
  simp only [if_pos h]
  rfl

theorem operator_call_row_error (M : mymatrix T) (r c : Int) (h : r < 0 ∨ r ≥ M.NumRows) :
    M.operator_call r c = ⟨.error (.invalid_argument "mymatrix::(): row"), M⟩ := by
  unfold operator_call; rw [if_pos h]; rfl

theorem operator_call_col_error (M : mymatrix T) (hn : M.NumRows = M.Rows.length) (k : Nat)
    (c : Int) (row : ROW T) (hk : M.Rows[k]? = some row) (h : c < 0 ∨ c ≥ row.NumCols) :
    M.operator_call (k : Int) c = ⟨.error (.invalid_argument "mymatrix::(): col"), M⟩ := by
  have hlen := lt_length_of_getElem_some _ _ _ hk
  have h' : ¬ ((k : Int) < 0 ∨ (k : Int) ≥ M.NumRows) := by omega
  unfold operator_call
  rw [if_neg h', subscript_getElem_some _ _ _ hk]
  simp only [if_pos h]
  rfl

/-- Claim C7: on a well-formed matrix, `at(r, c)` and `operator()(r, c)` throw
`invalid_argument` exactly when `r < 0`, `r >= numrows()`, `c < 0` or `c >= numcols(r)`;
otherwise both return a reference to `Rows[r].Cols[c]`, and reading it gives the element
stored there; in every case the matrix is left as it was. -/
theorem at_spec (M : mymatrix T) (hM : M.WellFormed) (r c : Int) :
    ((∃ e, (M.at_ r c).result = .error e ∧ e.isInvalidArgument = true) ↔
      (r < 0 ∨ r ≥ M.numrows ∨ c < 0 ∨ ∃ n, M.numcols r = .ok n ∧ c ≥ n)) ∧
    ((∃ e, (M.operator_call r c).result = .error e ∧ e.isInvalidArgument = true) ↔
      (r < 0 ∨ r ≥ M.numrows ∨ c < 0 ∨ ∃ n, M.numcols r = .ok n ∧ c ≥ n)) ∧
    (¬ (r < 0 ∨ r ≥ M.numrows ∨ c < 0 ∨ ∃ n, M.numcols r = .ok n ∧ c ≥ n) →
      (M.at_ r c).result = .ok ⟨r, c⟩ ∧ (M.operator_call r c).result = .ok ⟨r, c⟩ ∧
      ∃ row v, M.Rows[r.toNat]? = some row ∧ row.Cols[c.toNat]? = some v ∧
        M.at_value r c = .ok v ∧ M.call_value r c = .ok v) ∧
    (M.at_ r c).state = M ∧ (M.operator_call r c).state = M := by
  obtain ⟨hn, hn1, hrows⟩ := hM
  by_cases hr : r < 0 ∨ r ≥ M.NumRows
  · have hcond : r < 0 ∨ r ≥ M.numrows ∨ c < 0 ∨ ∃ n, M.numcols r = .ok n ∧ c ≥ n := by
      rcases hr with h | h
      · exact Or.inl h
      · exact Or.inr (Or.inl h)
    rw [at_row_error M r c hr, operator_call_row_error M r c hr]
    exact ⟨⟨fun _ => hcond, fun _ => ⟨_, rfl, rfl⟩⟩, ⟨fun _ => hcond, fun _ => ⟨_, rfl, rfl⟩⟩,
      fun h => absurd hcond h, rfl, rfl⟩
  · have hr0 : 0 ≤ r := by omega
    obtain ⟨k, rfl⟩ := Int.eq_ofNat_of_zero_le hr0
    have hklen : k < M.Rows.length := by omega
    have hk : M.Rows[k]? = some M.Rows[k] := List.getElem?_eq_getElem hklen
    obtain ⟨hrow, -⟩ := hrows _ (List.getElem_mem hklen)
    have hnc := numcols_of_getElem_some M hn k _ hk
    by_cases hc : c < 0 ∨ c ≥ M.Rows[k].NumCols
    · have hcond : (k : Int) < 0 ∨ (k : Int) ≥ M.numrows ∨ c < 0 ∨
          ∃ n, M.numcols (k : Int) = .ok n ∧ c ≥ n := by
        rcases hc with h | h
        · exact Or.inr (Or.inr (Or.inl h))
        · exact Or.inr (Or.inr (Or.inr ⟨_, hnc, h⟩))
      rw [at_col_error M hn k c _ hk hc, operator_call_col_error M hn k c _ hk hc]
      exact ⟨⟨fun _ => hcond, fun _ => ⟨_, rfl, rfl⟩⟩,
        ⟨fun _ => hcond, fun _ => ⟨_, rfl, rfl⟩⟩, fun h => absurd hcond h, rfl, rfl⟩
    · have hc0 : 0 ≤ c := by omega
      obtain ⟨j, rfl⟩ := Int.eq_ofNat_of_zero_le hc0
      have hj : (j : Int) < M.Rows[k].NumCols := by omega
      have hjlen : j < M.Rows[k].Cols.length := by omega
      have hncond : ¬ ((k : Int) < 0 ∨ (k : Int) ≥ M.numrows ∨ (j : Int) < 0 ∨
          ∃ n, M.numcols (k : Int) = .ok n ∧ (j : Int) ≥ n) := by
        rintro (h | h | h | ⟨n, h1, h2⟩)
        · omega
        · unfold numrows at h; omega
        · omega
        · rw [hnc] at h1
          have := Except.ok.inj h1
          omega
      rw [at_of_getElem_some M hn k j _ hk hj, operator_call_of_getElem_some M hn k j _ hk hj]
      refine ⟨⟨?_, fun h => absurd h hncond⟩, ⟨?_, fun h => absurd h hncond⟩, ?_, rfl, rfl⟩
      · rintro ⟨e, he, -⟩; cases he
      · rintro ⟨e, he, -⟩; cases he
      · intro _
        refine ⟨rfl, rfl, M.Rows[k], M.Rows[k].Cols[j], ?_, ?_, ?_, ?_⟩
        · simp
        · simp [List.getElem?_eq_getElem hjlen]
        · exact at_value_of_getElem_some M hn k j _ _ hk hrow (List.getElem?_eq_getElem hjlen)
        · exact call_value_of_getElem_some M hn k j _ _ hk hrow (List.getElem?_eq_getElem hjlen)

theorem at_spec_witness :
    example_M1.WellFormed ∧
    ((∃ e, (example_M1.at_ (-1) 0).result = .error e ∧ e.isInvalidArgument = true) ↔
      ((-1 : Int) < 0 ∨ (-1 : Int) ≥ example_M1.numrows ∨ (0 : Int) < 0 ∨
        ∃ n, example_M1.numcols (-1) = .ok n ∧ (0 : Int) ≥ n)) :=
  ⟨by decide, (at_spec example_M1 (by decide) (-1) 0).1⟩

/-! Constructors -/

namespace Loops

open MyMatrix

theorem mapM_ok_of_map_some {α β : Type} (f : α → Except Error β) (g : α → Option β)
    (hfg : ∀ x y, g x = some y → f x = .ok y) :
    ∀ (l : List α) (ys : List β), l.map g = ys.map some → l.mapM f = .ok ys := by
  intro l
  induction l with
  | nil =>
    intro ys h
    cases ys with
    | nil => rfl
    | cons y ys => simp at h
  | cons a l ih =>
    intro ys h
    cases ys with
    | nil => simp at h
    | cons y ys =>
      simp only [List.map_cons, List.cons.injEq] at h
      simp only [List.mapM_cons, hfg a y h.1, ih ys h.2]
      rfl

theorem map_getElem_opt_range {α : Type} (xs : List α) :
    (List.range xs.length).map (fun j => xs[j]?) = xs.map some := by
  apply List.ext_getElem?
  intro i
  by_cases hi : i < xs.length
  · simp [List.getElem?_map, List.getElem?_range hi, List.getElem?_eq_getElem hi]
  · have h1 : (List.range xs.length).length ≤ i := by simp; omega
    have h2 : xs.length ≤ i := by omega
    simp [List.getElem?_map, List.getElem?_eq_none h1, List.getElem?_eq_none h2]

theorem mapM_subscript_range {α : Type} (xs : List α) :
    (List.range xs.length).mapM (fun j : Nat => subscript xs (j : Int)) = .ok xs :=
  mapM_ok_of_map_some _ (fun j => xs[j]?) (fun j y h => subscript_getElem_some xs j y h) _ _
    (map_getElem_opt_range xs)

end Loops

open Loops

theorem ctor_copy_ok (M : mymatrix T) (hn : M.NumRows = M.Rows.length)
    (hrows : ∀ row ∈ M.Rows, row.NumCols = row.Cols.length) : ctor_copy M = .ok M := by
  have hmap : (List.range M.NumRows.toNat).mapM (fun (r : Nat) => do
      let orow ← subscript M.Rows (r : Int)
      let otherNumCols := orow.NumCols
      let cols ← (List.range otherNumCols.toNat).mapM fun (col : Nat) =>
        subscript orow.Cols (col : Int)
      pure ({ Cols := cols, NumCols := otherNumCols } : ROW T)) = .ok M.Rows := by
    have hlen : M.NumRows.toNat = M.Rows.length := by omega
    rw [hlen]
    refine mapM_ok_of_map_some _ (fun r => M.Rows[r]?) ?_ _ _ (map_getElem_opt_range M.Rows)
    intro r row hr
    have hmem : row ∈ M.Rows := List.getElem?_mem hr
    have hc : row.NumCols.toNat = row.Cols.length := by
      have := hrows row hmem
      omega
    simp only [subscript_getElem_some _ _ _ hr, bind, Except.bind, hc,
      mapM_subscript_range]
    rfl
  unfold ctor_copy
  simp only [bind, Except.bind] at hmap ⊢
  rw [hmap]
  rfl

theorem ctor_ok [Inhabited T] (R C : Int) (hR : 1 ≤ R) (hC : 1 ≤ C) :
    (ctor R C : Except Error (mymatrix T)) =
      .ok { NumRows := R
            Rows := (List.range R.toNat).map fun (_ : Nat) => freshRow C
            NumElements := wrapInt (R * C) } := by
  have hR' : ¬ (R < 1) := by omega
  have hC' : ¬ (C < 1) := by omega
  unfold ctor
  rw [if_neg hR', if_neg hC']
  rfl

theorem ctor_rows_error [Inhabited T] (R C : Int) (hR : R < 1) :
    (ctor R C : Except Error (mymatrix T)) =
      .error (.invalid_argument "mymatrix::constructor: # of rows") := by
  unfold ctor
  rw [if_pos hR]
  rfl

theorem ctor_cols_error [Inhabited T] (R C : Int) (hR : 1 ≤ R) (hC : C < 1) :
    (ctor R C : Except Error (mymatrix T)) =
      .error (.invalid_argument "mymatrix::constructor: # of cols") := by
  have hR' : ¬ (R < 1) := by omega
  unfold ctor
  rw [if_neg hR', if_pos hC]
  rfl

theorem ctor_ok_props [Inhabited T] (R C : Int) (hR : 1 ≤ R) (hC : 1 ≤ C) :
    ∃ M : mymatrix T, ctor R C = .ok M ∧ M.numrows = R ∧
      (∀ r : Int, 0 ≤ r → r < R → M.numcols r = .ok C) ∧
      M.size = wrapInt (R * C) ∧
      (∀ r c : Int, 0 ≤ r → r < R → 0 ≤ c → c < C → M.at_value r c = .ok default) := by
  rw [ctor_ok R C hR hC]
  have hlen : ∀ k : Nat, (k : Int) < R →
      ((List.range R.toNat).map fun (_ : Nat) => (freshRow C : ROW T))[k]?
        = some (freshRow C) := by
    intro k hk
    have hk' : k < R.toNat := by omega
    rw [List.getElem?_map, List.getElem?_range hk']
    rfl
  have hnr : R = (((List.range R.toNat).map fun (_ : Nat) => (freshRow C : ROW T)).length
      : Int) := by
    rw [List.length_map, List.length_range]
    omega
  refine ⟨_, rfl, rfl, ?_, rfl, ?_⟩
  · intro r hr0 hr1
    obtain ⟨k, rfl⟩ := Int.eq_ofNat_of_zero_le hr0
    exact numcols_of_getElem_some _ hnr k (freshRow C) (hlen k hr1)
  · intro r c hr0 hr1 hc0 hc1
    obtain ⟨k, rfl⟩ := Int.eq_ofNat_of_zero_le hr0
    obtain ⟨j, rfl⟩ := Int.eq_ofNat_of_zero_le hc0
    exact at_value_of_getElem_some _ hnr k j (freshRow C) _ (hlen k hr1)
      (freshRow_length C (by omega)) (freshRow_getElem C j hc1)

/-- Claim C8: `mymatrix(R, C)` throws `invalid_argument` exactly when `R < 1` or `C < 1`;
otherwise it builds a matrix with `R` rows of `C` columns each and every element equal to
`T`'s default value; `size()` is `R*C` as an `int`, so `size() == R*C` whenever `R*C` fits
an `int`. -/
theorem ctor_spec [Inhabited T] (R C : Int) :
    ((∃ e, (ctor R C : Except Error (mymatrix T)) = .error e ∧ e.isInvalidArgument = true)
      ↔ (R < 1 ∨ C < 1)) ∧
    (¬ (R < 1 ∨ C < 1) →
      ∃ M : mymatrix T, ctor R C = .ok M ∧ M.numrows = R ∧
        (∀ r : Int, 0 ≤ r → r < R → M.numcols r = .ok C) ∧
        M.size = wrapInt (R * C) ∧
        (R * C ≤ 2147483647 → M.size = R * C) ∧
        (∀ r c : Int, 0 ≤ r → r < R → 0 ≤ c → c < C → M.at_value r c = .ok default)) := by
  by_cases hR : R < 1
  · rw [ctor_rows_error R C hR]
    exact ⟨⟨fun _ => Or.inl hR, fun _ => ⟨_, rfl, rfl⟩⟩, fun h => absurd (Or.inl hR) h⟩
  by_cases hC : C < 1
  · rw [ctor_cols_error R C (by omega) hC]
    exact ⟨⟨fun _ => Or.inr hC, fun _ => ⟨_, rfl, rfl⟩⟩, fun h => absurd (Or.inr hC) h⟩
  have hR1 : 1 ≤ R := by omega
  have hC1 : 1 ≤ C := by omega
  refine ⟨⟨?_, fun h => by omega⟩, fun _ => ?_⟩
  · rw [ctor_ok R C hR1 hC1]
    rintro ⟨e, he, -⟩
    cases he
  · obtain ⟨M, hM, h1, h2, h3, h4⟩ := @ctor_ok_props T _ R C hR1 hC1
    refine ⟨M, hM, h1, h2, h3, fun hfit => ?_, h4⟩
    have hpos : 0 ≤ R * C := Int.mul_nonneg (by omega) (by omega)
    rw [h3, wrapInt_of_fits _ (by omega) hfit]

theorem ctor_spec_witness :
    ¬ ((2 : Int) < 1 ∨ (3 : Int) < 1) ∧
    ∃ M : mymatrix Int, ctor 2 3 = .ok M ∧ M.numrows = 2 ∧
        (∀ r : Int, 0 ≤ r → r < 2 → M.numcols r = .ok 3) ∧
        M.size = wrapInt (2 * 3) ∧
        ((2 : Int) * 3 ≤ 2147483647 → M.size = 2 * 3) ∧
        (∀ r c : Int, 0 ≤ r → r < 2 → 0 ≤ c → c < 3 → M.at_value r c = .ok default) :=
  ⟨by decide, (ctor_spec 2 3).2 (by decide)⟩

/-- The claim as it was written, `size() == R*C` for all `R >= 1` and `C >= 1`, fails at
`mymatrix(46341, 46341)`: the product `2147488281` does not fit an `int`, and `size()`
returns `-2147479015`. -/
theorem ctor_spec_counterexample :
    ∃ M : mymatrix int, ctor 46341 46341 = .ok M ∧ M.numrows = 46341 ∧
      M.size = -2147479015 ∧ M.size ≠ 46341 * 46341 := by
  obtain ⟨M, hM, h1, -, h3, -⟩ := @ctor_ok_props int _ 46341 46341 (by decide) (by decide)
  have hw : wrapInt (46341 * 46341) = -2147479015 := by decide
  rw [hw] at h3
  refine ⟨M, hM, h1, h3, ?_⟩
  rw [h3]
  decide

/-- Claim C9: the default constructor builds a 4x4 matrix: `numrows() == 4`, every row has
4 columns, `size() == 16`, every element is `T`'s default value, and it is the matrix
that `mymatrix(4, 4)` builds. -/
theorem ctor_default_spec [Inhabited T] :
    (ctor_default : mymatrix T).numrows = 4 ∧
    (∀ r : Int, 0 ≤ r → r < 4 → (ctor_default : mymatrix T).numcols r = .ok 4) ∧
    (ctor_default : mymatrix T).size = 16 ∧
    (∀ r c : Int, 0 ≤ r → r < 4 → 0 ≤ c → c < 4 →
      (ctor_default : mymatrix T).at_value r c = .ok default) ∧
    (ctor 4 4 : Except Error (mymatrix T)) = .ok ctor_default := by
  have h44 : (ctor 4 4 : Except Error (mymatrix T)) = .ok ctor_default := rfl
  obtain ⟨M, hM, h1, h2, h3, h4⟩ := @ctor_ok_props T _ 4 4 (by omega) (by omega)
  rw [h44] at hM
  cases hM
  have hw : wrapInt (4 * 4) = 16 := by decide
  rw [hw] at h3
  exact ⟨h1, h2, h3, h4, h44⟩

theorem ctor_default_spec_witness :
    (ctor_default : mymatrix Int).numrows = 4 ∧ (ctor_default : mymatrix Int).size = 16 :=
  ⟨ctor_default_spec.1, ctor_default_spec.2.2.1⟩

/-- Claim C10: the copy constructor applied to a well-formed (possibly jagged) matrix `M`
returns a matrix with the same row count, the same column count in every row, the same
`size()`, and the same element at every valid position. -/
theorem ctor_copy_spec (M : mymatrix T) (hM : M.WellFormed) :
    ∃ N, ctor_copy M = .ok N ∧ N.numrows = M.numrows ∧
      (∀ r : Int, 0 ≤ r → r < M.numrows →
        ∃ n, M.numcols r = .ok n ∧ N.numcols r = .ok n ∧
          ∀ c : Int, 0 ≤ c → c < n →
            ∃ v, M.call_value r c = .ok v ∧ N.call_value r c = .ok v) ∧
      N.size = M.size := by
  obtain ⟨hn, hn1, hrows⟩ := hM
  refine ⟨M, ctor_copy_ok M hn (fun row h => (hrows row h).1), rfl, ?_, rfl⟩
  intro r hr0 hr1
  obtain ⟨k, rfl⟩ := Int.eq_ofNat_of_zero_le hr0
  have hklen : k < M.Rows.length := by unfold numrows at hr1; omega
  have hk : M.Rows[k]? = some M.Rows[k] := List.getElem?_eq_getElem hklen
  obtain ⟨hrow, -⟩ := hrows _ (List.getElem_mem hklen)
  have hnc := numcols_of_getElem_some M hn k _ hk
  refine ⟨_, hnc, hnc, ?_⟩
  intro c hc0 hc1
  obtain ⟨j, rfl⟩ := Int.eq_ofNat_of_zero_le hc0
  have hj : j < M.Rows[k].Cols.length := by omega
  have := call_value_of_getElem_some M hn k j _ _ hk hrow (List.getElem?_eq_getElem hj)
  exact ⟨_, this, this⟩

theorem ctor_copy_spec_witness :
    example_jagged.WellFormed ∧
    ∃ N, ctor_copy example_jagged = .ok N ∧ N.numrows = example_jagged.numrows ∧
      (∀ r : Int, 0 ≤ r → r < example_jagged.numrows →
        ∃ n, example_jagged.numcols r = .ok n ∧ N.numcols r = .ok n ∧
          ∀ c : Int, 0 ≤ c → c < n →
            ∃ v, example_jagged.call_value r c = .ok v ∧ N.call_value r c = .ok v) ∧
      N.size = example_jagged.size :=
  ⟨by decide, ctor_copy_spec example_jagged (by decide)⟩

/-! Rectangularity -/

theorem IsRectangular_loop_ok (M : mymatrix T) (first : Int) (l : List Nat)
    (hl : ∀ i ∈ l, i < M.Rows.length) :
    ∃ b, IsRectangular.loop M first l = .ok b ∧
      (b = true ↔ ∀ i ∈ l, ∀ row, M.Rows[i]? = some row → row.NumCols = first) := by
  induction l with
  | nil => exact ⟨true, rfl, by simp⟩
  | cons i rest ih =>
    have hi : i < M.Rows.length := hl i (List.mem_cons_self i rest)
    have hk : M.Rows[i]? = some M.Rows[i] := List.getElem?_eq_getElem hi
    obtain ⟨b, hb, hiff⟩ := ih (fun j hj => hl j (List.mem_cons_of_mem i hj))
    unfold IsRectangular.loop
    rw [subscript_getElem_some _ _ _ hk]
    simp only [bind, Except.bind]
    by_cases hne : M.Rows[i].NumCols ≠ first
    · rw [if_pos hne]
      refine ⟨false, rfl, ?_⟩
      constructor
      · intro h; cases h
      · intro h
        exact absurd (h i (List.mem_cons_self i rest) _ hk) hne
    · rw [if_neg hne, hb]
      refine ⟨b, rfl, ?_⟩
      rw [hiff]
      constructor
      · intro h j hj row hrow
        rcases List.mem_cons.mp hj with rfl | hj'
        · rw [hk] at hrow
          cases hrow
          exact not_not.mp hne
        · exact h j hj' row hrow
      · intro h j hj row hrow
        exact h j (List.mem_cons_of_mem i hj) row hrow

theorem rectangular_iff (M : mymatrix T) (hM : M.WellFormed) :
    M.rectangular ↔
      ∀ i : Nat, ∀ row first, M.Rows[i]? = some row → M.Rows[0]? = some first →
        row.NumCols = first.NumCols := by
  obtain ⟨hn, hn1, hrows⟩ := hM
  have h0len : 0 < M.Rows.length := by omega
  have h0 : M.Rows[0]? = some M.Rows[0] := List.getElem?_eq_getElem h0len
  have hnc0 : M.numcols 0 = .ok M.Rows[0].NumCols := numcols_of_getElem_some M hn 0 _ h0
  unfold rectangular
  constructor
  · intro h i row first hi hf
    have hilen := lt_length_of_getElem_some _ _ _ hi
    have := h i (by rw [List.mem_range]; unfold numrows; omega)
    rw [numcols_of_getElem_some M hn i _ hi, hnc0] at this
    rw [h0] at hf; cases hf
    exact Except.ok.inj this
  · intro h r hr
    rw [List.mem_range] at hr
    have hrlen : r < M.Rows.length := by unfold numrows at hr; omega
    have hk : M.Rows[r]? = some M.Rows[r] := List.getElem?_eq_getElem hrlen
    rw [numcols_of_getElem_some M hn r _ hk, hnc0, h r _ _ hk h0]

theorem IsRectangular_ok (M : mymatrix T) (hM : M.WellFormed) :
    IsRectangular M = .ok (decide M.rectangular) := by
  have hiff := rectangular_iff M hM
  obtain ⟨hn, hn1, hrows⟩ := hM
  have h0len : 0 < M.Rows.length := by omega
  have h0 : M.Rows[0]? = some M.Rows[0] := List.getElem?_eq_getElem h0len
  obtain ⟨b, hb, hbiff⟩ := IsRectangular_loop_ok M M.Rows[0].NumCols
    (List.range' 1 (M.NumRows.toNat - 1)) (by
      intro i hi
      rw [List.mem_range'_1] at hi
      omega)
  unfold IsRectangular
  have h0' := subscript_getElem_some _ _ _ h0
  simp only [Nat.cast_zero] at h0'
  rw [h0']
  simp only [bind, Except.bind]
  rw [hb]
  congr 1
  rw [Bool.eq_iff_iff, hbiff, decide_eq_true_iff, hiff]
  constructor
  · intro h i row first hi hf
    rw [h0] at hf; cases hf
    rcases Nat.eq_zero_or_pos i with rfl | hpos
    · rw [h0] at hi; cases hi; rfl
    · have hilen := lt_length_of_getElem_some _ _ _ hi
      exact h i (by rw [List.mem_range'_1]; omega) row hi
  · intro h i _ row hi
    exact h i row _ hi h0

/-! Scalar multiplication -/

theorem mapM_subscript_map_range {α β : Type} (xs : List α) (f : α → β) :
    (List.range xs.length).mapM (fun j : Nat => do
      let x ← subscript xs (j : Int)
      pure (f x)) = .ok (xs.map f) := by
  refine mapM_ok_of_map_some _ (fun j => (xs[j]?).map f) ?_ _ _ ?_
  · intro j y h
    dsimp only at h
    rcases hx : xs[j]? with _ | x
    · rw [hx] at h; cases h
    · rw [hx] at h
      simp only [Option.map_some', Option.some.injEq] at h
      rw [subscript_getElem_some _ _ _ hx, ← h]
      rfl
  · have := congrArg (List.map (Option.map f)) (map_getElem_opt_range xs)
    simpa [List.map_map, Function.comp_def] using this

theorem operator_mul_scalar_body_ok [Mul T] (M : mymatrix T) (scalar : T) (s : mymatrix T)
    (k : Nat) (row : ROW T) (hk : M.Rows[k]? = some row)
    (hrow : row.NumCols = row.Cols.length) (hs : k < s.Rows.length) :
    operator_mul_scalar.body M scalar s k =
      .ok { s with Rows := s.Rows.set k (scaledRow scalar row) } := by
  have hc : row.NumCols.toNat = row.Cols.length := by omega
  unfold operator_mul_scalar.body
  simp only [subscript_getElem_some _ _ _ hk, bind, Except.bind, hc]
  have := mapM_subscript_map_range row.Cols (fun x => x * scalar)
  simp only [bind, Except.bind] at this
  rw [this]
  simp only [assign_natCast _ _ _ hs]
  rfl

theorem operator_mul_scalar_loop_ok [Mul T] (M : mymatrix T)
    (hn : M.NumRows = M.Rows.length)
    (hrows : ∀ row ∈ M.Rows, row.NumCols = row.Cols.length) (scalar : T) (s0 : mymatrix T)
    (hL0 : s0.Rows.length = M.Rows.length) :
    ∃ s', (List.range M.NumRows.toNat).foldlM (operator_mul_scalar.body M scalar) s0 = .ok s' ∧
      s'.NumRows = s0.NumRows ∧ s'.NumElements = s0.NumElements ∧
      s'.Rows = M.Rows.map (scaledRow scalar) := by
  have hloop := foldlM_range_inv (operator_mul_scalar.body M scalar)
    (fun k s => s.NumRows = s0.NumRows ∧ s.NumElements = s0.NumElements ∧
      s.Rows.length = M.Rows.length ∧
      ∀ i, i < k → s.Rows[i]? = (M.Rows[i]?).map (scaledRow scalar))
    M.NumRows.toNat s0 ⟨rfl, rfl, hL0, fun i hi => absurd hi (Nat.not_lt_zero i)⟩ ?_
  · obtain ⟨s', hs', hN, hE, hL, hR⟩ := hloop
    refine ⟨s', hs', hN, hE, ?_⟩
    apply List.ext_getElem?
    intro i
    by_cases hi : i < M.NumRows.toNat
    · rw [hR i hi, List.getElem?_map]
    · have h1 : s'.Rows.length ≤ i := by omega
      have h2 : (M.Rows.map (scaledRow scalar)).length ≤ i := by simp; omega
      rw [List.getElem?_eq_none h1, List.getElem?_eq_none h2]
  · intro k s hk ⟨hN, hE, hL, hR⟩
    have hklen : k < M.Rows.length := by omega
    have hMk : M.Rows[k]? = some M.Rows[k] := List.getElem?_eq_getElem hklen
    refine ⟨_, operator_mul_scalar_body_ok M scalar s k _ hMk
      (hrows _ (List.getElem_mem hklen)) (by omega), hN, hE, ?_, ?_⟩
    · simp [hL]
    · intro i hi
      show (s.Rows.set k _)[i]? = _
      rw [List.getElem?_set]
      by_cases hik : k = i
      · subst hik
        simp [hL, hklen, hMk]
      · rw [if_neg hik]
        exact hR i (by omega)

theorem operator_mul_scalar_ok [Inhabited T] [Mul T] (M : mymatrix T) (hM : M.WellFormed)
    (scalar : T) :
    M.operator_mul_scalar scalar =
      ⟨.ok { Rows := M.Rows.map (scaledRow scalar)
             NumRows := M.NumRows
             NumElements := M.NumElements }, M⟩ := by
  obtain ⟨hn, hn1, hrows⟩ := hM
  unfold operator_mul_scalar
  rw [ctor_ok M.NumRows 1 hn1 (le_refl 1)]
  simp only [bind, Except.bind]
  obtain ⟨s', hs', hN, hE, hR⟩ := operator_mul_scalar_loop_ok M hn
    (fun row h => (hrows row h).1) scalar
    ({ Rows := (List.range M.NumRows.toNat).map fun (_ : Nat) => freshRow 1
       NumRows := M.NumRows
       NumElements := M.NumElements } : mymatrix T) (by simp; omega)
  rw [hs']
  congr 2
  cases s'
  simp only at hN hE hR
  rw [hN, hE, hR]

/-- Claim C3: scalar multiplication of a well-formed (rectangular or jagged) matrix `M` by
`s` returns normally a matrix with the row count of `M`, the column count of `M` in every
row, the `size()` of `M`, and the element `M(r, c) * s` at every valid position. -/
theorem operator_mul_scalar_spec [Inhabited T] [Mul T] (M : mymatrix T) (hM : M.WellFormed)
    (s : T) :
    ∃ P, (M.operator_mul_scalar s).result = .ok P ∧ P.numrows = M.numrows ∧
      (∀ r : Int, 0 ≤ r → r < M.numrows →
        ∃ n, M.numcols r = .ok n ∧ P.numcols r = .ok n ∧
          ∀ c : Int, 0 ≤ c → c < n →
            ∃ v, M.call_value r c = .ok v ∧ P.call_value r c = .ok (v * s)) ∧
      P.size = M.size := by
  rw [operator_mul_scalar_ok M hM s]
  obtain ⟨hn, hn1, hrows⟩ := hM
  refine ⟨_, rfl, rfl, ?_, rfl⟩
  generalize hP : ({ Rows := M.Rows.map (scaledRow s), NumRows := M.NumRows,
                     NumElements := M.NumElements } : mymatrix T) = P
  have hPn : P.NumRows = P.Rows.length := by subst hP; simp [hn]
  intro r hr0 hr1
  obtain ⟨k, rfl⟩ := Int.eq_ofNat_of_zero_le hr0
  have hklen : k < M.Rows.length := by unfold numrows at hr1; omega
  have hk : M.Rows[k]? = some M.Rows[k] := List.getElem?_eq_getElem hklen
  obtain ⟨hrow, -⟩ := hrows _ (List.getElem_mem hklen)
  have hPk : P.Rows[k]? = some (scaledRow s M.Rows[k]) := by
    subst hP; simp [List.getElem?_map, hk]
  have hProw : (scaledRow s M.Rows[k]).NumCols = ((scaledRow s M.Rows[k]).Cols.length : Int) := by
    simp [scaledRow, hrow]
  refine ⟨_, numcols_of_getElem_some M hn k _ hk, numcols_of_getElem_some P hPn k (scaledRow s M.Rows[k]) hPk, ?_⟩
  intro c hc0 hc1
  obtain ⟨j, rfl⟩ := Int.eq_ofNat_of_zero_le hc0
  have hj : j < M.Rows[k].Cols.length := by omega
  refine ⟨M.Rows[k].Cols[j],
    call_value_of_getElem_some M hn k j _ _ hk hrow (List.getElem?_eq_getElem hj),
    call_value_of_getElem_some P hPn k j _ _ hPk hProw ?_⟩
  simp [scaledRow, List.getElem?_map, List.getElem?_eq_getElem hj]

theorem operator_mul_scalar_spec_witness :
    example_M1.WellFormed ∧
    (∃ P, (example_M1.operator_mul_scalar 2).result = .ok P ∧ P.numrows = example_M1.numrows ∧
      (∀ r : Int, 0 ≤ r → r < example_M1.numrows →
        ∃ n, example_M1.numcols r = .ok n ∧ P.numcols r = .ok n ∧
          ∀ c : Int, 0 ≤ c → c < n →
            ∃ v, example_M1.call_value r c = .ok v ∧ P.call_value r c = .ok (v * 2)) ∧
      P.size = example_M1.size) ∧
    (example_M1.operator_mul_scalar 2).result =
      .ok { Rows := [⟨[2, 4], 2⟩, ⟨[6, 8], 2⟩], NumRows := 2, NumElements := 4 } :=
  ⟨by decide, operator_mul_scalar_spec example_M1 (by decide) 2, by decide⟩

/-! Matrix multiplication -/

theorem cell_of_getElem_some [Inhabited T] (M : mymatrix T) (i j : Nat) (row : ROW T) (v : T)
    (hi : M.Rows[i]? = some row) (hj : row.Cols[j]? = some v) : cell M i j = v := by
  unfold cell
  rw [hi]
  simp [List.getD_eq_getElem?_getD, hj]

theorem dot_succ [Inhabited T] [Zero T] [Add T] [Mul T] (M other : mymatrix T) (i j n : Nat) :
    dot M other i j (n + 1) = dot M other i j n + cell M i n * cell other n j := by
  unfold dot
  rw [List.range_succ, List.foldl_append]
  rfl

theorem CalcMatrixElement_ok [Inhabited T] [Zero T] [Add T] [Mul T] (M other : mymatrix T)
    (i j : Nat) (row : ROW T) (hi : M.Rows[i]? = some row)
    (hrow : row.NumCols = row.Cols.length) (hlen : row.Cols.length ≤ other.Rows.length)
    (hj : ∀ r ∈ other.Rows, j < r.Cols.length) :
    CalcMatrixElement row other.Rows (j : Int) = .ok (dot M other i j row.Cols.length) := by
  have hc : row.NumCols.toNat = row.Cols.length := by omega
  unfold CalcMatrixElement
  simp only [hc]
  obtain ⟨acc, hacc, hP⟩ := foldlM_range_inv
    (fun (result : T) (k : Nat) => do
      let a ← subscript row.Cols (k : Int)
      let row2 ← subscript other.Rows (k : Int)
      let b ← subscript row2.Cols (j : Int)
      pure (result + a * b))
    (fun k acc => acc = dot M other i j k) row.Cols.length (0 : T) rfl (by
      intro k acc hk hacc
      have hk2 : k < other.Rows.length := by omega
      have hjk : j < other.Rows[k].Cols.length := hj _ (List.getElem_mem hk2)
      refine ⟨acc + row.Cols[k] * other.Rows[k].Cols[j], ?_, ?_⟩
      · simp only [subscript_natCast _ _ hk, subscript_natCast _ _ hk2,
          subscript_natCast _ _ hjk, bind, Except.bind]
        rfl
      · show acc + row.Cols[k] * other.Rows[k].Cols[j] = dot M other i j (k + 1)
        rw [dot_succ, hacc,
          cell_of_getElem_some M i k row _ hi (List.getElem?_eq_getElem hk),
          cell_of_getElem_some other k j _ _ (List.getElem?_eq_getElem hk2)
            (List.getElem?_eq_getElem hjk)])
  rw [hacc, hP]

theorem write_ok (s : mymatrix T) (i j : Nat) (row : ROW T) (v : T)
    (hi : s.Rows[i]? = some row) (hj : j < row.Cols.length) :
    Ref.write ⟨i, j⟩ s v =
      .ok { s with Rows := s.Rows.set i { row with Cols := row.Cols.set j v } } := by
  have hilen := lt_length_of_getElem_some _ _ _ hi
  unfold Ref.write
  simp only [subscript_getElem_some _ _ _ hi, bind, Except.bind, assign_natCast _ _ _ hj,
    assign_natCast _ _ _ hilen]
  rfl

theorem at_assign_ok (s : mymatrix T) (hn : s.NumRows = s.Rows.length) (i j : Nat)
    (row : ROW T) (v : T) (hi : s.Rows[i]? = some row) (hrow : row.NumCols = row.Cols.length)
    (hj : j < row.Cols.length) :
    s.at_assign i j v =
      ⟨.ok (), { s with Rows := s.Rows.set i { row with Cols := row.Cols.set j v } }⟩ := by
  unfold at_assign
  rw [at_of_getElem_some s hn i j row hi (by omega)]
  simp only [write_ok s i j row v hi hj]
  rfl

theorem call_assign_ok (s : mymatrix T) (hn : s.NumRows = s.Rows.length) (i j : Nat)
    (row : ROW T) (v : T) (hi : s.Rows[i]? = some row) (hrow : row.NumCols = row.Cols.length)
    (hj : j < row.Cols.length) :
    s.call_assign i j v =
      ⟨.ok (), { s with Rows := s.Rows.set i { row with Cols := row.Cols.set j v } }⟩ := by
  unfold call_assign
  rw [operator_call_of_getElem_some s hn i j row hi (by omega)]
  simp only [write_ok s i j row v hi hj]
  rfl

theorem operator_mul_inner_ok [Inhabited T] [Zero T] [Add T] [Mul T] (M other : mymatrix T)
    (n : Nat) (R p E : Int) (i j : Nat) (s : mymatrix T) (hQ : ProductShape R p E s)
    (hiR : (i : Int) < R) (hjp : (j : Int) < p) (rowM : ROW T) (hMi : M.Rows[i]? = some rowM)
    (hrowM : rowM.NumCols = rowM.Cols.length) (hn : rowM.Cols.length = n)
    (hlen : n ≤ other.Rows.length) (hoth : ∀ r ∈ other.Rows, p = (r.Cols.length : Int)) :
    ∃ s', operator_mul.inner M other i s j = .ok s' ∧ ProductShape R p E s' ∧
      (∀ a b : Nat, HasDot M other n s a b → HasDot M other n s' a b) ∧
      HasDot M other n s' i j := by
  obtain ⟨hN, hL, hrows, hE⟩ := hQ
  have hilen : i < s.Rows.length := by omega
  have hsi : s.Rows[i]? = some s.Rows[i] := List.getElem?_eq_getElem hilen
  obtain ⟨hrp, hrl⟩ := hrows _ (List.getElem_mem hilen)
  have hjlen : j < s.Rows[i].Cols.length := by omega
  have hcalc := CalcMatrixElement_ok M other i j rowM hMi hrowM (by omega)
    (fun r hr => by have := hoth r hr; omega)
  rw [hn] at hcalc
  refine ⟨{ s with
    Rows := s.Rows.set i ⟨s.Rows[i].Cols.set j (dot M other i j n), s.Rows[i].NumCols⟩ },
    ?_, ?_, ?_, ?_⟩
  · unfold operator_mul.inner
    simp only [subscript_getElem_some _ _ _ hMi, bind, Except.bind, hcalc,
      at_assign_ok s hL i j _ _ hsi hrl hjlen]
    rfl
  · refine ⟨hN, ?_, ?_, hE⟩
    · show s.NumRows = ((s.Rows.set i _).length : Int)
      rw [List.length_set]; exact hL
    · intro row hrow
      rcases List.mem_or_eq_of_mem_set hrow with h | h
      · exact hrows row h
      · subst h
        refine ⟨hrp, ?_⟩
        show s.Rows[i].NumCols = ((s.Rows[i].Cols.set j _).length : Int)
        rw [List.length_set]; exact hrl
  · rintro a b ⟨row, hrow, hcell⟩
    by_cases hai : i = a
    · subst hai
      rw [hsi] at hrow
      cases hrow
      refine ⟨⟨s.Rows[i].Cols.set j (dot M other i j n), s.Rows[i].NumCols⟩,
        by simp [List.getElem?_set, hilen], ?_⟩
      show (s.Rows[i].Cols.set j _)[b]? = _
      rw [List.getElem?_set]
      by_cases hjb : j = b
      · subst hjb; simp [hjlen]
      · rw [if_neg hjb]; exact hcell
    · refine ⟨row, ?_, hcell⟩
      show (s.Rows.set i _)[a]? = _
      rw [List.getElem?_set, if_neg hai]
      exact hrow
  · refine ⟨⟨s.Rows[i].Cols.set j (dot M other i j n), s.Rows[i].NumCols⟩,
      by simp [List.getElem?_set, hilen], ?_⟩
    show (s.Rows[i].Cols.set j _)[j]? = _
    simp [List.getElem?_set, hjlen]

theorem operator_mul_outer_ok [Inhabited T] [Zero T] [Add T] [Mul T] (M other : mymatrix T)
    (n : Nat) (R p E : Int) (i : Nat) (s : mymatrix T) (hQ : ProductShape R p E s)
    (hiR : (i : Int) < R) (rowM : ROW T) (hMi : M.Rows[i]? = some rowM)
    (hrowM : rowM.NumCols = rowM.Cols.length) (hn : rowM.Cols.length = n)
    (hlen : n ≤ other.Rows.length) (hoth : ∀ r ∈ other.Rows, p = (r.Cols.length : Int))
    (hdone : ∀ a b : Nat, a < i → (b : Int) < p → HasDot M other n s a b) :
    ∃ s', operator_mul.outer M other s i = .ok s' ∧ ProductShape R p E s' ∧
      ∀ a b : Nat, a < i + 1 → (b : Int) < p → HasDot M other n s' a b := by
  have h0len : 0 < s.Rows.length := by
    obtain ⟨hN, hL, -, -⟩ := hQ; omega
  have hs0 : s.Rows[0]? = some s.Rows[0] := List.getElem?_eq_getElem h0len
  have hwidth : s.numcols 0 = .ok p := by
    have := numcols_of_getElem_some s hQ.2.1 0 _ hs0
    rw [(hQ.2.2.1 _ (List.getElem_mem h0len)).1] at this
    exact this
  obtain ⟨s', hs', hQ', hdone', hrow'⟩ := foldlM_range_inv (operator_mul.inner M other i)
    (fun j s => ProductShape R p E s ∧
      (∀ a b : Nat, a < i → (b : Int) < p → HasDot M other n s a b) ∧
      (∀ b : Nat, b < j → HasDot M other n s i b))
    p.toNat s ⟨hQ, hdone, fun b hb => absurd hb (Nat.not_lt_zero b)⟩ (by
      intro j t hj ⟨htQ, htdone, htrow⟩
      obtain ⟨t', ht', hQ', hkeep, hnew⟩ := operator_mul_inner_ok M other n R p E i j t htQ hiR
        (by omega) rowM hMi hrowM hn hlen hoth
      refine ⟨t', ht', hQ', fun a b ha hb => hkeep a b (htdone a b ha hb), ?_⟩
      intro b hb
      rcases Nat.lt_succ_iff_lt_or_eq.mp hb with h | h
      · exact hkeep i b (htrow b h)
      · subst h; exact hnew)
  refine ⟨s', ?_, hQ', ?_⟩
  · unfold operator_mul.outer
    rw [hwidth]
    exact hs'
  · intro a b ha hb
    rcases Nat.lt_succ_iff_lt_or_eq.mp ha with h | h
    · exact hdone' a b h hb
    · subst h; exact hrow' b (by omega)

theorem operator_mul_this_error [Inhabited T] [Zero T] [Add T] [Mul T] (M other : mymatrix T)
    (hM : M.WellFormed) (h : ¬ M.rectangular) :
    (M.operator_mul other).result =
      .error (.runtime_error "mymatrix::*: this not rectangular") := by
  unfold operator_mul
  simp only [IsRectangular_ok M hM, bind, Except.bind, decide_eq_false h]
  rfl

theorem operator_mul_other_error [Inhabited T] [Zero T] [Add T] [Mul T]
    (M other : mymatrix T) (hM : M.WellFormed) (hO : other.WellFormed) (h1 : M.rectangular)
    (h2 : ¬ other.rectangular) :
    (M.operator_mul other).result =
      .error (.runtime_error "mymatrix::*: other not rectangular") := by
  unfold operator_mul
  simp only [IsRectangular_ok M hM, IsRectangular_ok other hO, bind, Except.bind,
    decide_eq_false h2, decide_eq_true h1]
  rfl

theorem operator_mul_size_error [Inhabited T] [Zero T] [Add T] [Mul T]
    (M other : mymatrix T) (hM : M.WellFormed) (hO : other.WellFormed) (h1 : M.rectangular)
    (h2 : other.rectangular) (n : Int) (hn : M.numcols 0 = .ok n) (hne : n ≠ other.numrows) :
    (M.operator_mul other).result = .error (.runtime_error "mymatrix::*: size mismatch") := by
  unfold operator_mul
  unfold numrows at hne
  simp only [IsRectangular_ok M hM, IsRectangular_ok other hO, bind, Except.bind,
    decide_eq_true h2, decide_eq_true h1, hn]
  simp only [Bool.not_true, Bool.false_eq_true, if_false, pure, Except.pure, if_pos hne]

theorem operator_mul_ok [Inhabited T] [Zero T] [Add T] [Mul T] (M other : mymatrix T)
    (hM : M.WellFormed) (hO : other.WellFormed) (h1 : M.rectangular) (h2 : other.rectangular)
    (hdim : M.numcols 0 = .ok other.numrows) :
    ∃ P p, (M.operator_mul other).result = .ok P ∧ other.numcols 0 = .ok p ∧ 1 ≤ p ∧
      ProductShape M.NumRows p (wrapInt (M.NumRows * p)) P ∧
      ∀ a b : Nat, (a : Int) < M.NumRows → (b : Int) < p →
        HasDot M other other.NumRows.toNat P a b := by
  have hr1 := (rectangular_iff M hM).mp h1
  have hr2 := (rectangular_iff other hO).mp h2
  have hM' := hM
  have hO' := hO
  obtain ⟨hn, hn1, hrows⟩ := hM
  obtain ⟨hon, hon1, horows⟩ := hO
  have hM0len : 0 < M.Rows.length := by omega
  have hM0 : M.Rows[0]? = some M.Rows[0] := List.getElem?_eq_getElem hM0len
  have hO0len : 0 < other.Rows.length := by omega
  have hO0 : other.Rows[0]? = some other.Rows[0] := List.getElem?_eq_getElem hO0len
  have hp1 : 1 ≤ other.Rows[0].NumCols := (horows _ (List.getElem_mem hO0len)).2
  have hdim' : M.Rows[0].NumCols = other.NumRows := by
    have := numcols_of_getElem_some M hn 0 _ hM0
    simp only [Nat.cast_zero] at this
    rw [this] at hdim
    exact Except.ok.inj hdim
  have hO0' := subscript_getElem_some _ _ _ hO0
  simp only [Nat.cast_zero] at hO0'
  have hoth : ∀ r ∈ other.Rows, other.Rows[0].NumCols = (r.Cols.length : Int) := by
    intro r hr
    obtain ⟨i, hi⟩ := List.mem_iff_getElem?.mp hr
    rw [← hr2 i r _ hi hO0]
    exact (horows r hr).1
  generalize hs0 : ({ NumRows := M.NumRows
                      Rows := (List.range M.NumRows.toNat).map
                        fun (_ : Nat) => freshRow other.Rows[0].NumCols
                      NumElements := wrapInt (M.NumRows * other.Rows[0].NumCols) }
                    : mymatrix T) = s0
  have hQ0 : ProductShape M.NumRows other.Rows[0].NumCols
      (wrapInt (M.NumRows * other.Rows[0].NumCols)) s0 := by
    subst hs0
    refine ⟨rfl, ?_, ?_, rfl⟩
    · simp; omega
    · intro row hrow
      simp only [List.mem_map] at hrow
      obtain ⟨_, _, rfl⟩ := hrow
      exact ⟨rfl, freshRow_length _ (by omega)⟩
  obtain ⟨P, hP, hPQ, hPdot⟩ := foldlM_range_inv (operator_mul.outer M other)
    (fun i s => ProductShape M.NumRows other.Rows[0].NumCols
        (wrapInt (M.NumRows * other.Rows[0].NumCols)) s ∧
      ∀ a b : Nat, a < i → (b : Int) < other.Rows[0].NumCols →
        HasDot M other other.NumRows.toNat s a b)
    M.NumRows.toNat s0 ⟨hQ0, fun a b ha _ => absurd ha (Nat.not_lt_zero a)⟩ (by
      intro i s hi ⟨hQ, hdone⟩
      have hilen : i < M.Rows.length := by omega
      have hMi : M.Rows[i]? = some M.Rows[i] := List.getElem?_eq_getElem hilen
      have hrowi := (hrows _ (List.getElem_mem hilen)).1
      have hni : M.Rows[i].NumCols = other.NumRows := by
        rw [hr1 i _ _ hMi hM0]; exact hdim'
      exact operator_mul_outer_ok M other other.NumRows.toNat _ _ _ i s hQ (by omega)
        _ hMi hrowi (by omega) (by omega) hoth hdone)
  refine ⟨P, other.Rows[0].NumCols, ?_, ?_, hp1, hPQ, ?_⟩
  · unfold operator_mul
    have hnc : M.numcols 0 = .ok other.NumRows := hdim
    simp only [IsRectangular_ok M hM', IsRectangular_ok other hO', bind, Except.bind,
      decide_eq_true h2, decide_eq_true h1, hnc, hO0', ctor_ok M.NumRows _ hn1 hp1]
    simp only [Bool.not_true, Bool.false_eq_true, if_false, pure, Except.pure, ne_eq,
      not_true_eq_false]
    rw [hs0]
    exact hP
  · have := numcols_of_getElem_some other hon 0 _ hO0
    simpa using this
  · intro a b ha hb
    exact hPdot a b (by omega) hb

theorem dot_eq_sum [Inhabited T] [AddCommMonoid T] [Mul T] (M other : mymatrix T)
    (i j n : Nat) :
    dot M other i j n = ∑ k in Finset.range n, cell M i k * cell other k j := by
  induction n with
  | zero => rfl
  | succ n ih => rw [dot_succ, Finset.sum_range_succ, ih]

/-- Claim C1: for well-formed rectangular matrices `M1`, `M2` with
`M1.numcols(0) == M2.numrows()`, the product `M1 * M2` returns normally a matrix with
`M1.numrows()` rows of `M2.numcols(0)` columns each, whose element `(i, j)` is the sum over
`k` in `[0, M1.numcols(0))` of `M1(i, k) * M2(k, j)`. -/
theorem operator_mul_spec [Inhabited T] [AddCommMonoid T] [Mul T] (M1 M2 : mymatrix T)
    (h1 : M1.WellFormed) (h2 : M2.WellFormed) (hr1 : M1.rectangular) (hr2 : M2.rectangular)
    (hdim : M1.numcols 0 = .ok M2.numrows) :
    ∃ P p, (M1.operator_mul M2).result = .ok P ∧ M2.numcols 0 = .ok p ∧
      P.numrows = M1.numrows ∧
      (∀ i : Int, 0 ≤ i → i < M1.numrows → P.numcols i = .ok p) ∧
      ∀ i j : Int, 0 ≤ i → i < M1.numrows → 0 ≤ j → j < p →
        ∃ a b : Nat → T,
          (∀ k : Nat, (k : Int) < M2.numrows →
            M1.call_value i k = .ok (a k) ∧ M2.call_value k j = .ok (b k)) ∧
          P.call_value i j = .ok (∑ k in Finset.range M2.numrows.toNat, a k * b k) := by
  obtain ⟨P, p, hP, hp, hp1, ⟨hPN, hPL, hProws, -⟩, hdot⟩ :=
    operator_mul_ok M1 M2 h1 h2 hr1 hr2 hdim
  have hrect1 := (rectangular_iff M1 h1).mp hr1
  have hrect2 := (rectangular_iff M2 h2).mp hr2
  obtain ⟨hn, hn1, hrows⟩ := h1
  obtain ⟨hon, hon1, horows⟩ := h2
  have hM0len : 0 < M1.Rows.length := by omega
  have hM0 : M1.Rows[0]? = some M1.Rows[0] := List.getElem?_eq_getElem hM0len
  have hO0len : 0 < M2.Rows.length := by omega
  have hO0 : M2.Rows[0]? = some M2.Rows[0] := List.getElem?_eq_getElem hO0len
  have hdim' : M1.Rows[0].NumCols = M2.NumRows := by
    have := numcols_of_getElem_some M1 hn 0 _ hM0
    simp only [Nat.cast_zero] at this
    rw [this] at hdim
    exact Except.ok.inj hdim
  have hp' : M2.Rows[0].NumCols = p := by
    have := numcols_of_getElem_some M2 hon 0 _ hO0
    simp only [Nat.cast_zero] at this
    rw [this] at hp
    exact Except.ok.inj hp
  refine ⟨P, p, hP, hp, hPN, ?_, ?_⟩
  · intro i hi0 hi1
    obtain ⟨a, rfl⟩ := Int.eq_ofNat_of_zero_le hi0
    have halen : a < P.Rows.length := by unfold numrows at hi1; omega
    have hPa : P.Rows[a]? = some P.Rows[a] := List.getElem?_eq_getElem halen
    rw [numcols_of_getElem_some P hPL a _ hPa, (hProws _ (List.getElem_mem halen)).1]
  · intro i j hi0 hi1 hj0 hj1
    obtain ⟨a, rfl⟩ := Int.eq_ofNat_of_zero_le hi0
    obtain ⟨b, rfl⟩ := Int.eq_ofNat_of_zero_le hj0
    unfold numrows at hi1
    have halen : a < M1.Rows.length := by omega
    have hMa : M1.Rows[a]? = some M1.Rows[a] := List.getElem?_eq_getElem halen
    have hrowa := (hrows _ (List.getElem_mem halen)).1
    have hna : M1.Rows[a].NumCols = M2.NumRows := by
      rw [hrect1 a _ _ hMa hM0]; exact hdim'
    refine ⟨fun k => cell M1 a k, fun k => cell M2 k b, ?_, ?_⟩
    · intro k hk
      unfold numrows at hk
      have hk1 : k < M1.Rows[a].Cols.length := by omega
      have hk2 : k < M2.Rows.length := by omega
      have hMk : M2.Rows[k]? = some M2.Rows[k] := List.getElem?_eq_getElem hk2
      have hrowk := (horows _ (List.getElem_mem hk2)).1
      have hb : b < M2.Rows[k].Cols.length := by
        have := hrect2 k _ _ hMk hO0
        omega
      constructor
      · show M1.call_value a k = .ok (cell M1 a k)
        rw [cell_of_getElem_some M1 a k _ _ hMa (List.getElem?_eq_getElem hk1)]
        exact call_value_of_getElem_some M1 hn a k _ _ hMa hrowa (List.getElem?_eq_getElem hk1)
      · show M2.call_value k b = .ok (cell M2 k b)
        rw [cell_of_getElem_some M2 k b _ _ hMk (List.getElem?_eq_getElem hb)]
        exact call_value_of_getElem_some M2 hon k b _ _ hMk hrowk (List.getElem?_eq_getElem hb)
    · obtain ⟨row, hrow, hcell⟩ := hdot a b hi1 hj1
      rw [← dot_eq_sum]
      exact call_value_of_getElem_some P hPL a b row _ hrow
        (hProws row (List.getElem?_mem hrow)).2 hcell

theorem operator_mul_spec_witness :
    example_M1.WellFormed ∧ example_M2.WellFormed ∧ example_M1.rectangular ∧
    example_M2.rectangular ∧ example_M1.numcols 0 = .ok example_M2.numrows ∧
    (∃ P p, (example_M1.operator_mul example_M2).result = .ok P ∧
      example_M2.numcols 0 = .ok p ∧ P.numrows = example_M1.numrows ∧
      (∀ i : Int, 0 ≤ i → i < example_M1.numrows → P.numcols i = .ok p) ∧
      ∀ i j : Int, 0 ≤ i → i < example_M1.numrows → 0 ≤ j → j < p →
        ∃ a b : Nat → Int,
          (∀ k : Nat, (k : Int) < example_M2.numrows →
            example_M1.call_value i k = .ok (a k) ∧ example_M2.call_value k j = .ok (b k)) ∧
          P.call_value i j = .ok (∑ k in Finset.range example_M2.numrows.toNat, a k * b k)) ∧
    (example_M1.operator_mul example_M2).result =
      .ok { Rows := [⟨[19, 22], 2⟩, ⟨[43, 50], 2⟩], NumRows := 2, NumElements := 4 } :=
  ⟨by decide, by decide, by decide, by decide, by decide,
    operator_mul_spec example_M1 example_M2 (by decide) (by decide) (by decide) (by decide)
      (by decide), by decide⟩

/-- Claim C2: on well-formed operands, `M1 * M2` throws a `runtime_error` exactly when `M1`
is not rectangular, or `M2` is not rectangular, or `M1.numcols(0) != M2.numrows()`; the
checks are made in that order: "this not rectangular" whenever `M1` is jagged, "other not
rectangular" when `M1` is rectangular and `M2` is jagged, and "size mismatch" exactly when
both are rectangular and the inner dimensions differ. -/
theorem operator_mul_error_spec [Inhabited T] [Zero T] [Add T] [Mul T] (M1 M2 : mymatrix T)
    (h1 : M1.WellFormed) (h2 : M2.WellFormed) :
    ((∃ e, (M1.operator_mul M2).result = .error e ∧ e.isRuntimeError = true) ↔
      (¬ M1.rectangular ∨ ¬ M2.rectangular ∨ M1.numcols 0 ≠ .ok M2.numrows)) ∧
    (¬ M1.rectangular → (M1.operator_mul M2).result =
      .error (.runtime_error "mymatrix::*: this not rectangular")) ∧
    (M1.rectangular → ¬ M2.rectangular → (M1.operator_mul M2).result =
      .error (.runtime_error "mymatrix::*: other not rectangular")) ∧
    ((M1.operator_mul M2).result = .error (.runtime_error "mymatrix::*: size mismatch") ↔
      (M1.rectangular ∧ M2.rectangular ∧ M1.numcols 0 ≠ .ok M2.numrows)) := by
  have hthis := operator_mul_this_error M1 M2 h1
  have hother := operator_mul_other_error M1 M2 h1 h2
  refine ⟨?_, hthis, hother, ?_⟩
  · by_cases hr1 : M1.rectangular
    · by_cases hr2 : M2.rectangular
      · by_cases hdim : M1.numcols 0 = .ok M2.numrows
        · obtain ⟨P, p, hP, -⟩ := operator_mul_ok M1 M2 h1 h2 hr1 hr2 hdim
          rw [hP]
          constructor
          · rintro ⟨e, he, -⟩; cases he
          · rintro (h | h | h)
            · exact absurd hr1 h
            · exact absurd hr2 h
            · exact absurd hdim h
        · have h0 : 0 < M1.Rows.length := by have := h1.1; have := h1.2.1; omega
          have hn := numcols_of_getElem_some M1 h1.1 0 _ (List.getElem?_eq_getElem h0)
          simp only [Nat.cast_zero] at hn
          have hne : M1.Rows[0].NumCols ≠ M2.numrows := by
            intro h; rw [hn, h] at hdim; exact hdim rfl
          rw [operator_mul_size_error M1 M2 h1 h2 hr1 hr2 _ hn hne]
          exact ⟨fun _ => Or.inr (Or.inr hdim), fun _ => ⟨_, rfl, rfl⟩⟩
      · rw [hother hr1 hr2]
        exact ⟨fun _ => Or.inr (Or.inl hr2), fun _ => ⟨_, rfl, rfl⟩⟩
    · rw [hthis hr1]
      exact ⟨fun _ => Or.inl hr1, fun _ => ⟨_, rfl, rfl⟩⟩
  · by_cases hr1 : M1.rectangular
    · by_cases hr2 : M2.rectangular
      · by_cases hdim : M1.numcols 0 = .ok M2.numrows
        · obtain ⟨P, p, hP, -⟩ := operator_mul_ok M1 M2 h1 h2 hr1 hr2 hdim
          rw [hP]
          constructor
          · intro h; cases h
          · rintro ⟨-, -, h⟩; exact absurd hdim h
        · have h0 : 0 < M1.Rows.length := by have := h1.1; have := h1.2.1; omega
          have hn := numcols_of_getElem_some M1 h1.1 0 _ (List.getElem?_eq_getElem h0)
          simp only [Nat.cast_zero] at hn
          have hne : M1.Rows[0].NumCols ≠ M2.numrows := by
            intro h; rw [hn, h] at hdim; exact hdim rfl
          rw [operator_mul_size_error M1 M2 h1 h2 hr1 hr2 _ hn hne]
          exact ⟨fun _ => ⟨hr1, hr2, hdim⟩, fun _ => rfl⟩
      · rw [hother hr1 hr2]
        constructor
        · intro h
          have : "mymatrix::*: other not rectangular" = "mymatrix::*: size mismatch" := by
            injection h with h'; injection h'
          exact absurd this (by decide)
        · rintro ⟨-, h, -⟩; exact absurd h hr2
    · rw [hthis hr1]
      constructor
      · intro h
        have : "mymatrix::*: this not rectangular" = "mymatrix::*: size mismatch" := by
          injection h with h'; injection h'
        exact absurd this (by decide)
      · rintro ⟨h, -⟩; exact absurd h hr1

theorem operator_mul_error_spec_witness :
    example_2x3.WellFormed ∧ example_M2.WellFormed ∧
    (example_2x3.operator_mul example_M2).result =
      .error (.runtime_error "mymatrix::*: size mismatch") ∧
    (example_jagged.operator_mul example_M2).result =
      .error (.runtime_error "mymatrix::*: this not rectangular") ∧
    (example_M2.operator_mul example_jagged).result =
      .error (.runtime_error "mymatrix::*: other not rectangular") :=
  ⟨by decide, by decide,
    (operator_mul_error_spec example_2x3 example_M2 (by decide) (by decide)).2.2.2.mpr
      (by decide),
    (operator_mul_error_spec example_jagged example_M2 (by decide) (by decide)).2.1
      (by decide),
    (operator_mul_error_spec example_M2 example_jagged (by decide) (by decide)).2.2.1
      (by decide) (by decide)⟩

/-! The representation invariant holds for every matrix a program can build -/

theorem sum_NumCols_const (rows : List (ROW T)) (p : Int)
    (h : ∀ row ∈ rows, row.NumCols = p) :
    (rows.map fun r => r.NumCols).sum = rows.length * p := by
  induction rows with
  | nil => simp
  | cons r rest ih =>
    have hr := h r (List.mem_cons_self r rest)
    have := ih (fun row hrow => h row (List.mem_cons_of_mem r hrow))
    simp only [List.map_cons, List.sum_cons, List.length_cons, this, hr]
    push_cast
    ring

theorem ctor_invariant [Inhabited T] (R C : Int) (M : mymatrix T) (h : ctor R C = .ok M) :
    M.WellFormed ∧ M.SizeInvariant := by
  by_cases hR : R < 1
  · rw [ctor_rows_error R C hR] at h; cases h
  by_cases hC : C < 1
  · rw [ctor_cols_error R C (by omega) hC] at h; cases h
  rw [ctor_ok R C (by omega) (by omega)] at h
  cases h
  have hrows : ∀ row ∈ (List.range R.toNat).map (fun (_ : Nat) => (freshRow C : ROW T)),
      row.NumCols = C ∧ row.NumCols = row.Cols.length := by
    intro row hrow
    simp only [List.mem_map] at hrow
    obtain ⟨_, _, rfl⟩ := hrow
    exact ⟨rfl, freshRow_length C (by omega)⟩
  refine ⟨⟨?_, by show 1 ≤ R; omega, ?_⟩, ?_⟩
  · show R = _
    simp; omega
  · intro row hrow
    obtain ⟨h1, h2⟩ := hrows row hrow
    exact ⟨h2, by omega⟩
  · show wrapInt (R * C) = wrapInt _
    rw [sum_NumCols_const _ C (fun row hrow => (hrows row hrow).1)]
    congr 1
    simp; left; omega

theorem growcols_invariant [Inhabited T] (M : mymatrix T) (r C : Int)
    (h : M.WellFormed ∧ M.SizeInvariant) :
    (M.growcols r C).state.WellFormed ∧ (M.growcols r C).state.SizeInvariant := by
  by_cases hr : r < 0 ∨ r ≥ M.NumRows
  · have : M.growcols r C = ⟨.error (.invalid_argument "mymatrix::growcols: row"), M⟩ := by
      unfold growcols; rw [if_pos hr]; rfl
    rw [this]; exact h
  by_cases hC : C < 1
  · have : M.growcols r C = ⟨.error (.invalid_argument "mymatrix::growcols: columns"), M⟩ := by
      unfold growcols; rw [if_neg hr, if_pos hC]; rfl
    rw [this]; exact h
  obtain ⟨⟨hn, hn1, hrows⟩, hS⟩ := h
  have hr0 : 0 ≤ r := by omega
  obtain ⟨k, rfl⟩ := Int.eq_ofNat_of_zero_le hr0
  have hklen : k < M.Rows.length := by omega
  have hk : M.Rows[k]? = some M.Rows[k] := List.getElem?_eq_getElem hklen
  obtain ⟨hrow, hrow1⟩ := hrows _ (List.getElem_mem hklen)
  rw [growcols_ok M hn k _ hk hrow C (by omega)]
  by_cases hlt : M.Rows[k].NumCols < C
  · simp only [if_pos hlt]
    refine ⟨⟨?_, hn1, ?_⟩, ?_⟩
    · show M.NumRows = ((M.Rows.set k _).length : Int)
      rw [List.length_set]; exact hn
    · intro row hmem
      rcases List.mem_or_eq_of_mem_set hmem with h' | h'
      · exact hrows row h'
      · subst h'
        refine ⟨?_, by show 1 ≤ C; omega⟩
        rw [grownRow_length]; show C = _; omega
    · show wrapInt (M.NumElements + (C - M.Rows[k].NumCols)) = wrapInt _
      rw [sum_set_NumCols _ _ _ _ hk, hS, wrapInt_wrapInt_add]
      rfl
  · simp only [if_neg hlt]
    exact ⟨⟨hn, hn1, hrows⟩, hS⟩

theorem grow_invariant [Inhabited T] (M : mymatrix T) (R C : Int)
    (h : M.WellFormed ∧ M.SizeInvariant) :
    (M.grow R C).state.WellFormed ∧ (M.grow R C).state.SizeInvariant := by
  by_cases hR : R < 1
  · have : M.grow R C = ⟨.error (.invalid_argument "mymatrix::grow: # of rows"), M⟩ := by
      unfold grow; rw [if_pos hR]; rfl
    rw [this]; exact h
  by_cases hC : C < 1
  · have : M.grow R C = ⟨.error (.invalid_argument "mymatrix::grow: # of cols"), M⟩ := by
      unfold grow; rw [if_neg hR, if_pos hC]; rfl
    rw [this]; exact h
  obtain ⟨⟨hn, hn1, hrows⟩, hS⟩ := h
  obtain ⟨M', hM', hN, hRows, hD⟩ :=
    grow_ok M hn (fun row h => (hrows row h).1) R C (by omega) (by omega)
  rw [hM']
  refine ⟨⟨?_, ?_, ?_⟩, ?_⟩
  · show M'.NumRows = _
    rw [hN, hRows]; simp; omega
  · show 1 ≤ M'.NumRows
    rw [hN]; exact le_max_of_le_left hn1
  · intro row hmem
    show RowWellFormed row
    rw [show M'.Rows = _ from hRows] at hmem
    rcases List.mem_append.mp hmem with h' | h'
    · simp only [List.mem_map] at h'
      obtain ⟨row0, hrow0, rfl⟩ := h'
      obtain ⟨h1, h2⟩ := hrows row0 hrow0
      refine ⟨growRow_length C row0 h1, ?_⟩
      rw [growRow_NumCols]; exact le_max_of_le_left h2
    · rw [List.eq_of_mem_replicate h']
      exact ⟨freshRow_length C (by omega), by show 1 ≤ C; omega⟩
  · show M'.NumElements = wrapInt (M'.Rows.map fun row => row.NumCols).sum
    rw [hD.1 _ hS]
    congr 1
    ring

theorem write_invariant (M : mymatrix T) (i j : Nat) (v : T)
    (h : M.WellFormed ∧ M.SizeInvariant) (row : ROW T) (hi : M.Rows[i]? = some row) :
    WellFormed ({ M with Rows := M.Rows.set i { row with Cols := row.Cols.set j v } }) ∧
    SizeInvariant ({ M with Rows := M.Rows.set i { row with Cols := row.Cols.set j v } }) := by
  obtain ⟨⟨hn, hn1, hrows⟩, hS⟩ := h
  refine ⟨⟨?_, hn1, ?_⟩, ?_⟩
  · show M.NumRows = ((M.Rows.set i _).length : Int)
    rw [List.length_set]; exact hn
  · intro r hmem
    rcases List.mem_or_eq_of_mem_set hmem with h' | h'
    · exact hrows r h'
    · subst h'
      obtain ⟨h1, h2⟩ := hrows row (List.getElem?_mem hi)
      refine ⟨?_, h2⟩
      show row.NumCols = ((row.Cols.set j v).length : Int)
      rw [List.length_set]; exact h1
  · show M.NumElements = wrapInt _
    rw [sum_set_NumCols _ _ _ _ hi]
    simp only [sub_self, add_zero]
    exact hS

theorem at_assign_invariant (M : mymatrix T) (r c : Int) (v : T)
    (h : M.WellFormed ∧ M.SizeInvariant) :
    (M.at_assign r c v).state.WellFormed ∧ (M.at_assign r c v).state.SizeInvariant := by
  have hn := h.1.1
  by_cases hr : r < 0 ∨ r ≥ M.NumRows
  · have : M.at_assign r c v = ⟨.error (.invalid_argument "mymatrix::at: row"), M⟩ := by
      unfold at_assign; rw [at_row_error M r c hr]
    rw [this]; exact h
  have hr0 : 0 ≤ r := by omega
  obtain ⟨k, rfl⟩ := Int.eq_ofNat_of_zero_le hr0
  have hklen : k < M.Rows.length := by omega
  have hk : M.Rows[k]? = some M.Rows[k] := List.getElem?_eq_getElem hklen
  obtain ⟨hrow, -⟩ := h.1.2.2 _ (List.getElem_mem hklen)
  by_cases hc : c < 0 ∨ c ≥ M.Rows[k].NumCols
  · have : M.at_assign k c v = ⟨.error (.invalid_argument "mymatrix::at: col"), M⟩ := by
      unfold at_assign; rw [at_col_error M hn k c _ hk hc]
    rw [this]; exact h
  have hc0 : 0 ≤ c := by omega
  obtain ⟨j, rfl⟩ := Int.eq_ofNat_of_zero_le hc0
  rw [at_assign_ok M hn k j _ v hk hrow (by omega)]
  exact write_invariant M k j v h _ hk

theorem call_assign_invariant (M : mymatrix T) (r c : Int) (v : T)
    (h : M.WellFormed ∧ M.SizeInvariant) :
    (M.call_assign r c v).state.WellFormed ∧ (M.call_assign r c v).state.SizeInvariant := by
  have hn := h.1.1
  by_cases hr : r < 0 ∨ r ≥ M.NumRows
  · have : M.call_assign r c v = ⟨.error (.invalid_argument "mymatrix::(): row"), M⟩ := by
      unfold call_assign; rw [operator_call_row_error M r c hr]
    rw [this]; exact h
  have hr0 : 0 ≤ r := by omega
  obtain ⟨k, rfl⟩ := Int.eq_ofNat_of_zero_le hr0
  have hklen : k < M.Rows.length := by omega
  have hk : M.Rows[k]? = some M.Rows[k] := List.getElem?_eq_getElem hklen
  obtain ⟨hrow, -⟩ := h.1.2.2 _ (List.getElem_mem hklen)
  by_cases hc : c < 0 ∨ c ≥ M.Rows[k].NumCols
  · have : M.call_assign k c v = ⟨.error (.invalid_argument "mymatrix::(): col"), M⟩ := by
      unfold call_assign; rw [operator_call_col_error M hn k c _ hk hc]
    rw [this]; exact h
  have hc0 : 0 ≤ c := by omega
  obtain ⟨j, rfl⟩ := Int.eq_ofNat_of_zero_le hc0
  rw [call_assign_ok M hn k j _ v hk hrow (by omega)]
  exact write_invariant M k j v h _ hk

theorem operator_mul_scalar_invariant [Inhabited T] [Mul T] (M N : mymatrix T) (s : T)
    (h : M.WellFormed ∧ M.SizeInvariant) (hN : (M.operator_mul_scalar s).result = .ok N) :
    N.WellFormed ∧ N.SizeInvariant := by
  rw [operator_mul_scalar_ok M h.1 s] at hN
  cases hN
  obtain ⟨⟨hn, hn1, hrows⟩, hS⟩ := h
  refine ⟨⟨?_, hn1, ?_⟩, ?_⟩
  · show M.NumRows = (((M.Rows.map (scaledRow s)).length : Nat) : Int)
    rw [List.length_map]; exact hn
  · intro row hmem
    simp only [List.mem_map] at hmem
    obtain ⟨row0, hrow0, rfl⟩ := hmem
    obtain ⟨h1, h2⟩ := hrows row0 hrow0
    refine ⟨?_, h2⟩
    show row0.NumCols = (((row0.Cols.map fun x => x * s).length : Nat) : Int)
    rw [List.length_map]; exact h1
  · show M.NumElements = wrapInt (((M.Rows.map (scaledRow s)).map fun row => row.NumCols)).sum
    rw [List.map_map, hS]
    rfl

theorem operator_mul_invariant [Inhabited T] [Zero T] [Add T] [Mul T] (M1 M2 N : mymatrix T)
    (h1 : M1.WellFormed) (h2 : M2.WellFormed) (hN : (M1.operator_mul M2).result = .ok N) :
    N.WellFormed ∧ N.SizeInvariant := by
  by_cases hr1 : M1.rectangular
  · by_cases hr2 : M2.rectangular
    · by_cases hdim : M1.numcols 0 = .ok M2.numrows
      · obtain ⟨P, p, hP, -, hp1, ⟨hPN, hPL, hProws, hPE⟩, -⟩ :=
          operator_mul_ok M1 M2 h1 h2 hr1 hr2 hdim
        rw [hP] at hN
        cases hN
        refine ⟨⟨hPL, by rw [hPN]; exact h1.2.1, ?_⟩, ?_⟩
        · intro row hrow
          obtain ⟨ha, hb⟩ := hProws row hrow
          exact ⟨hb, by rw [ha]; exact hp1⟩
        · show N.NumElements = wrapInt _
          rw [sum_NumCols_const _ p (fun row hrow => (hProws row hrow).1), hPE, ← hPL, hPN]
      · have h0 : 0 < M1.Rows.length := by have := h1.1; have := h1.2.1; omega
        have hn := numcols_of_getElem_some M1 h1.1 0 _ (List.getElem?_eq_getElem h0)
        simp only [Nat.cast_zero] at hn
        have hne : M1.Rows[0].NumCols ≠ M2.numrows := by
          intro h; rw [hn, h] at hdim; exact hdim rfl
        rw [operator_mul_size_error M1 M2 h1 h2 hr1 hr2 _ hn hne] at hN
        cases hN
    · rw [operator_mul_other_error M1 M2 h1 h2 hr1 hr2] at hN
      cases hN
  · rw [operator_mul_this_error M1 M2 h1 hr1] at hN
    cases hN

theorem Reachable.invariant [Inhabited T] [Zero T] [Add T] [Mul T] (M : mymatrix T)
    (h : Reachable M) : M.WellFormed ∧ M.SizeInvariant := by
  induction h with
  | ctor_default => exact ctor_invariant 4 4 _ rfl
  | ctor R C M h => exact ctor_invariant R C M h
  | ctor_copy M N _ hN ih =>
    rw [ctor_copy_ok M ih.1.1 (fun row h => (ih.1.2.2 row h).1)] at hN
    cases hN
    exact ih
  | growcols M r C _ ih => exact growcols_invariant M r C ih
  | grow M R C _ ih => exact grow_invariant M R C ih
  | at_assign M r c v _ ih => exact at_assign_invariant M r c v ih
  | call_assign M r c v _ ih => exact call_assign_invariant M r c v ih
  | mul_scalar M N s _ hN ih => exact operator_mul_scalar_invariant M N s ih hN
  | mul M1 M2 N _ _ hN ih1 ih2 => exact operator_mul_invariant M1 M2 N ih1.1 ih2.1 hN

theorem sumNumcols_eq (M : mymatrix T) (h : M.WellFormed) :
    sumNumcols M = (M.Rows.map fun row => row.NumCols).sum := by
  obtain ⟨hn, -, -⟩ := h
  unfold sumNumcols
  congr 1
  apply List.ext_getElem?
  intro i
  by_cases hi : i < M.Rows.length
  · have hi' : i < M.numrows.toNat := by unfold numrows; omega
    have hk : M.Rows[i]? = some M.Rows[i] := List.getElem?_eq_getElem hi
    simp only [List.getElem?_map, List.getElem?_range hi', Option.map_some',
      numcols_of_getElem_some M hn i _ hk, hk]
  · have h1 : (List.range M.numrows.toNat).length ≤ i := by
      simp; unfold numrows; omega
    have h2 : M.Rows.length ≤ i := by omega
    simp only [List.getElem?_map, List.getElem?_eq_none h1, List.getElem?_eq_none h2,
      Option.map_none']

theorem sum_NumCols_nonneg (M : mymatrix T) (h : M.WellFormed) :
    0 ≤ (M.Rows.map fun row => row.NumCols).sum := by
  apply List.sum_nonneg
  intro x hx
  simp only [List.mem_map] at hx
  obtain ⟨row, hrow, rfl⟩ := hx
  have := (h.2.2 row hrow).2
  omega

/-- Claim C6: every matrix built by a constructor and any sequence of `growcols`, `grow`,
writes through `at` / `operator()`, scalar multiplication and matrix multiplication has
`size()` equal to the sum of `numcols(r)` over all rows `r` in `[0, numrows())` as an
`int`; so `size()` is that sum whenever the sum fits an `int`. -/
theorem size_eq_sumNumcols [Inhabited T] [Zero T] [Add T] [Mul T] (M : mymatrix T)
    (h : Reachable M) :
    M.size = wrapInt (sumNumcols M) ∧
    (sumNumcols M ≤ 2147483647 → M.size = sumNumcols M) := by
  obtain ⟨hW, hS⟩ := Reachable.invariant M h
  have hpos := sum_NumCols_nonneg M hW
  rw [sumNumcols_eq M hW]
  refine ⟨hS, fun hfit => ?_⟩
  show M.NumElements = _
  rw [hS, wrapInt_of_fits _ (by omega) hfit]

theorem size_eq_sumNumcols_witness :
    sumNumcols ((ctor_default : mymatrix Int).growcols 1 8).state ≤ 2147483647 ∧
    ((ctor_default : mymatrix Int).growcols 1 8).state.size
      = sumNumcols ((ctor_default : mymatrix Int).growcols 1 8).state :=
  ⟨by decide,
   (size_eq_sumNumcols _ (Reachable.growcols _ 1 8 Reachable.ctor_default)).2 (by decide)⟩

theorem ctor_sumNumcols [Inhabited T] (R C : Int) (hR : 1 ≤ R) (hC : 1 ≤ C) :
    ∃ M : mymatrix T, ctor R C = .ok M ∧ M.size = wrapInt (R * C) ∧ sumNumcols M = R * C := by
  have hok := @ctor_ok T _ R C hR hC
  have hW := (ctor_invariant R C _ hok).1
  refine ⟨_, hok, rfl, ?_⟩
  rw [sumNumcols_eq _ hW]
  show (((List.range R.toNat).map fun (_ : Nat) => (freshRow C : ROW T)).map
    fun row => row.NumCols).sum = _
  rw [sum_NumCols_const _ C (by
    intro row hrow
    simp only [List.mem_map] at hrow
    obtain ⟨_, _, rfl⟩ := hrow
    rfl)]
  rw [List.length_map, List.length_range]
  congr 1
  omega

/-- The claim as it was written, `size()` equal to the sum of the column counts, fails for
the matrix `mymatrix(46341, 46341)`: its column counts sum to `2147488281`, which does
not fit an `int`, and `size()` returns `-2147479015`. -/
theorem size_eq_sumNumcols_counterexample :
    ∃ M : mymatrix int, ctor 46341 46341 = .ok M ∧ Reachable M ∧
      M.size = -2147479015 ∧ sumNumcols M = 2147488281 ∧ M.size ≠ sumNumcols M := by
  obtain ⟨M, hM, hsize, hsum⟩ := @ctor_sumNumcols int _ 46341 46341 (by decide) (by decide)
  have hw : wrapInt (46341 * 46341) = -2147479015 := by decide
  have hp : (46341 : Int) * 46341 = 2147488281 := by decide
  rw [hw] at hsize
  rw [hp] at hsum
  refine ⟨M, hM, Reachable.ctor 46341 46341 M hM, hsize, hsum, ?_⟩
  rw [hsize, hsum]
  decide

/-! Repeated growth and argument errors -/

/-- Claim C12: `growcols` is idempotent: for a valid row `r` and `C >= 1`, the first call
returns normally and a second `growcols(r, C)` returns normally and leaves the state
(row count, every row, every element, `size()`) exactly as the first call left it. -/
theorem growcols_idempotent [Inhabited T] (M : mymatrix T) (hM : M.WellFormed) (r C : Int)
    (hr0 : 0 ≤ r) (hr1 : r < M.numrows) (hC : 1 ≤ C) :
    (M.growcols r C).result = .ok () ∧
    (M.growcols r C).state.growcols r C = ⟨.ok (), (M.growcols r C).state⟩ := by
  obtain ⟨hn, _, hrows⟩ := hM
  obtain ⟨k, rfl⟩ := Int.eq_ofNat_of_zero_le hr0
  have hklen : k < M.Rows.length := by unfold numrows at hr1; omega
  have hk : M.Rows[k]? = some M.Rows[k] := List.getElem?_eq_getElem hklen
  obtain ⟨hrow, -⟩ := hrows _ (List.getElem_mem hklen)
  rw [growcols_ok M hn k _ hk hrow C hC]
  refine ⟨rfl, ?_⟩
  by_cases hlt : M.Rows[k].NumCols < C
  · simp only [if_pos hlt]
    generalize hM' : ({ M with Rows := M.Rows.set k (grownRow M.Rows[k] C)
                               NumElements :=
                                 wrapInt (M.NumElements + (C - M.Rows[k].NumCols)) }
                      : mymatrix T) = M'
    have hk' : M'.Rows[k]? = some (grownRow M.Rows[k] C) := by
      subst hM'; simp [List.getElem?_set, hklen]
    have hn' : M'.NumRows = (M'.Rows.length : Int) := by
      subst hM'; simp [hn]
    have hg : (grownRow M.Rows[k] C).NumCols = ((grownRow M.Rows[k] C).Cols.length : Int) := by
      rw [grownRow_length]; show C = _; omega
    rw [growcols_ok M' hn' k _ hk' hg C hC]
    have hnlt : ¬ ((grownRow M.Rows[k] C).NumCols < C) := by
      show ¬ (C < C); omega
    rw [if_neg hnlt]
  · simp only [if_neg hlt]
    rw [growcols_ok M hn k _ hk hrow C hC, if_neg hlt]

theorem growcols_idempotent_witness :
    example_M1.WellFormed ∧ (0 : Int) ≤ 1 ∧ (1 : Int) < example_M1.numrows ∧ (1 : Int) ≤ 4 ∧
    (example_M1.growcols 1 4).result = .ok () ∧
    (example_M1.growcols 1 4).state.growcols 1 4 = ⟨.ok (), (example_M1.growcols 1 4).state⟩ :=
  ⟨by decide, by decide, by decide, by decide,
    growcols_idempotent example_M1 (by decide) 1 4 (by decide) (by decide) (by decide)⟩

theorem growcols_row_error [Inhabited T] (M : mymatrix T) (r C : Int)
    (h : r < 0 ∨ r ≥ M.NumRows) :
    M.growcols r C = ⟨.error (.invalid_argument "mymatrix::growcols: row"), M⟩ := by
  unfold growcols; rw [if_pos h]; rfl

theorem growcols_columns_error [Inhabited T] (M : mymatrix T) (r C : Int)
    (h : ¬ (r < 0 ∨ r ≥ M.NumRows)) (hC : C < 1) :
    M.growcols r C = ⟨.error (.invalid_argument "mymatrix::growcols: columns"), M⟩ := by
  unfold growcols; rw [if_neg h, if_pos hC]; rfl

theorem grow_rows_error [Inhabited T] (M : mymatrix T) (R C : Int) (h : R < 1) :
    M.grow R C = ⟨.error (.invalid_argument "mymatrix::grow: # of rows"), M⟩ := by
  unfold grow; rw [if_pos h]; rfl

theorem grow_cols_error [Inhabited T] (M : mymatrix T) (R C : Int) (h : ¬ (R < 1))
    (hC : C < 1) :
    M.grow R C = ⟨.error (.invalid_argument "mymatrix::grow: # of cols"), M⟩ := by
  unfold grow; rw [if_neg h, if_pos hC]; rfl

/-- Claim C13: on a well-formed matrix, `growcols(r, C)` throws `invalid_argument` exactly
when `r < 0`, `r >= numrows()` or `C < 1`, `grow(R, C)` throws `invalid_argument` exactly
when `R < 1` or `C < 1`, and whenever either call throws, the matrix is exactly as it was
before the call. -/
theorem grow_argument_errors [Inhabited T] (M : mymatrix T) (hM : M.WellFormed)
    (r R C : Int) :
    ((∃ e, (M.growcols r C).result = .error e ∧ e.isInvalidArgument = true) ↔
      (r < 0 ∨ r ≥ M.numrows ∨ C < 1)) ∧
    ((∃ e, (M.grow R C).result = .error e ∧ e.isInvalidArgument = true) ↔
      (R < 1 ∨ C < 1)) ∧
    (∀ e, (M.growcols r C).result = .error e → (M.growcols r C).state = M) ∧
    (∀ e, (M.grow R C).result = .error e → (M.grow R C).state = M) := by
  obtain ⟨hn, hn1, hrows⟩ := hM
  refine ⟨?_, ?_, ?_, ?_⟩
  · by_cases hr : r < 0 ∨ r ≥ M.NumRows
    · rw [growcols_row_error M r C hr]
      refine ⟨fun _ => ?_, fun _ => ⟨_, rfl, rfl⟩⟩
      rcases hr with h | h
      · exact Or.inl h
      · exact Or.inr (Or.inl h)
    by_cases hC : C < 1
    · rw [growcols_columns_error M r C hr hC]
      exact ⟨fun _ => Or.inr (Or.inr hC), fun _ => ⟨_, rfl, rfl⟩⟩
    have hr0 : 0 ≤ r := by omega
    obtain ⟨k, rfl⟩ := Int.eq_ofNat_of_zero_le hr0
    have hklen : k < M.Rows.length := by omega
    have hk : M.Rows[k]? = some M.Rows[k] := List.getElem?_eq_getElem hklen
    rw [growcols_ok M hn k _ hk (hrows _ (List.getElem_mem hklen)).1 C (by omega)]
    constructor
    · rintro ⟨e, he, -⟩; cases he
    · unfold numrows; intro h; omega
  · by_cases hR : R < 1
    · rw [grow_rows_error M R C hR]
      exact ⟨fun _ => Or.inl hR, fun _ => ⟨_, rfl, rfl⟩⟩
    by_cases hC : C < 1
    · rw [grow_cols_error M R C hR hC]
      exact ⟨fun _ => Or.inr hC, fun _ => ⟨_, rfl, rfl⟩⟩
    obtain ⟨M', hM', -⟩ := grow_ok M hn (fun row h => (hrows row h).1) R C (by omega) (by omega)
    rw [hM']
    constructor
    · rintro ⟨e, he, -⟩; cases he
    · intro h; omega
  · intro e he
    by_cases hr : r < 0 ∨ r ≥ M.NumRows
    · rw [growcols_row_error M r C hr]
    by_cases hC : C < 1
    · rw [growcols_columns_error M r C hr hC]
    have hr0 : 0 ≤ r := by omega
    obtain ⟨k, rfl⟩ := Int.eq_ofNat_of_zero_le hr0
    have hklen : k < M.Rows.length := by omega
    have hk : M.Rows[k]? = some M.Rows[k] := List.getElem?_eq_getElem hklen
    rw [growcols_ok M hn k _ hk (hrows _ (List.getElem_mem hklen)).1 C (by omega)] at he
    cases he
  · intro e he
    by_cases hR : R < 1
    · rw [grow_rows_error M R C hR]
    by_cases hC : C < 1
    · rw [grow_cols_error M R C hR hC]
    obtain ⟨M', hM', -⟩ := grow_ok M hn (fun row h => (hrows row h).1) R C (by omega) (by omega)
    rw [hM'] at he
    cases he

theorem grow_argument_errors_witness :
    example_jagged.WellFormed ∧
    (example_jagged.growcols 0 0).result =
      .error (.invalid_argument "mymatrix::growcols: columns") ∧
    (example_jagged.growcols 0 0).state = example_jagged ∧
    (example_jagged.grow 0 5).state = example_jagged :=
  ⟨by decide, by decide,
    (grow_argument_errors example_jagged (by decide) 0 0 0).2.2.1
      (.invalid_argument "mymatrix::growcols: columns") (by decide),
    (grow_argument_errors example_jagged (by decide) 0 0 5).2.2.2
      (.invalid_argument "mymatrix::grow: # of rows") (by decide)⟩

/-! Shape invariant and safety of matrix multiplication -/

/-- Claim C15: every matrix built by a constructor that did not fail and any sequence of
`growcols`, `grow`, element writes, scalar multiplication and matrix multiplication has
`numrows() >= 1` and `numcols(r) >= 1` for every row `r` in `[0, numrows())`. -/
theorem shape_invariant [Inhabited T] [Zero T] [Add T] [Mul T] (M : mymatrix T)
    (h : Reachable M) :
    1 ≤ M.numrows ∧
    ∀ r : Int, 0 ≤ r → r < M.numrows → ∃ n : Int, M.numcols r = .ok n ∧ 1 ≤ n := by
  obtain ⟨⟨hn, hn1, hrows⟩, -⟩ := Reachable.invariant M h
  refine ⟨hn1, ?_⟩
  intro r hr0 hr1
  obtain ⟨k, rfl⟩ := Int.eq_ofNat_of_zero_le hr0
  have hklen : k < M.Rows.length := by unfold numrows at hr1; omega
  have hk : M.Rows[k]? = some M.Rows[k] := List.getElem?_eq_getElem hklen
  exact ⟨_, numcols_of_getElem_some M hn k _ hk, (hrows _ (List.getElem_mem hklen)).2⟩

theorem shape_invariant_witness :
    1 ≤ ((ctor_default : mymatrix Int).grow 6 2).state.numrows ∧
    ∀ r : Int, 0 ≤ r → r < ((ctor_default : mymatrix Int).grow 6 2).state.numrows →
      ∃ n : Int, ((ctor_default : mymatrix Int).grow 6 2).state.numcols r = .ok n ∧ 1 ≤ n :=
  shape_invariant _ (Reachable.grow _ 6 2 Reachable.ctor_default)

/-- Claim C16: for well-formed operands, `M1 * M2` never throws `invalid_argument` and
never indexes out of bounds; when the three checks pass (both rectangular,
`M1.numcols(0) == M2.numrows()`) the result constructor gets `R >= 1` and `C >= 1`, every
row of `M1` has `M2.numrows()` columns and every row of `M2` has `M2.numcols(0)` columns
(so every access of `CalcMatrixElement` and every `result.at(i, j)` is in range), and the
product returns normally.  Hence `M1 * M2` succeeds exactly when the three checks pass. -/
theorem operator_mul_safe [Inhabited T] [Zero T] [Add T] [Mul T] (M1 M2 : mymatrix T)
    (h1 : M1.WellFormed) (h2 : M2.WellFormed) :
    (∀ e, (M1.operator_mul M2).result = .error e →
      e.isInvalidArgument = false ∧ e ≠ .out_of_bounds) ∧
    (M1.rectangular → M2.rectangular → M1.numcols 0 = .ok M2.numrows →
      ∃ P p, (M1.operator_mul M2).result = .ok P ∧
        1 ≤ M1.numrows ∧ M2.numcols 0 = .ok p ∧ 1 ≤ p ∧
        (∀ i : Int, 0 ≤ i → i < M1.numrows → M1.numcols i = .ok M2.numrows) ∧
        (∀ k : Int, 0 ≤ k → k < M2.numrows → M2.numcols k = .ok p) ∧
        P.numrows = M1.numrows ∧
        (∀ i : Int, 0 ≤ i → i < M1.numrows → P.numcols i = .ok p)) ∧
    ((∃ P, (M1.operator_mul M2).result = .ok P) ↔
      (M1.rectangular ∧ M2.rectangular ∧ M1.numcols 0 = .ok M2.numrows)) := by
  have hcase : (M1.rectangular ∧ M2.rectangular ∧ M1.numcols 0 = .ok M2.numrows ∧
        ∃ P, (M1.operator_mul M2).result = .ok P) ∨
      (¬ (M1.rectangular ∧ M2.rectangular ∧ M1.numcols 0 = .ok M2.numrows) ∧
        ∃ msg, (M1.operator_mul M2).result = .error (.runtime_error msg)) := by
    by_cases hr1 : M1.rectangular
    · by_cases hr2 : M2.rectangular
      · by_cases hdim : M1.numcols 0 = .ok M2.numrows
        · obtain ⟨P, p, hP, -⟩ := operator_mul_ok M1 M2 h1 h2 hr1 hr2 hdim
          exact Or.inl ⟨hr1, hr2, hdim, P, hP⟩
        · have h0 : 0 < M1.Rows.length := by have := h1.1; have := h1.2.1; omega
          have hn := numcols_of_getElem_some M1 h1.1 0 _ (List.getElem?_eq_getElem h0)
          simp only [Nat.cast_zero] at hn
          have hne : M1.Rows[0].NumCols ≠ M2.numrows := by
            intro h; rw [hn, h] at hdim; exact hdim rfl
          exact Or.inr ⟨fun h => hdim h.2.2,
            _, operator_mul_size_error M1 M2 h1 h2 hr1 hr2 _ hn hne⟩
      · exact Or.inr ⟨fun h => hr2 h.2.1, _, operator_mul_other_error M1 M2 h1 h2 hr1 hr2⟩
    · exact Or.inr ⟨fun h => hr1 h.1, _, operator_mul_this_error M1 M2 h1 hr1⟩
  refine ⟨?_, ?_, ?_⟩
  · intro e he
    rcases hcase with ⟨-, -, -, P, hP⟩ | ⟨-, msg, hmsg⟩
    · rw [hP] at he; cases he
    · rw [hmsg] at he
      cases he
      exact ⟨rfl, fun h => by cases h⟩
  · intro hr1 hr2 hdim
    obtain ⟨P, p, hP, hp, hp1, ⟨hPN, hPL, hProws, -⟩, -⟩ :=
      operator_mul_ok M1 M2 h1 h2 hr1 hr2 hdim
    have hrect1 := (rectangular_iff M1 h1).mp hr1
    have hrect2 := (rectangular_iff M2 h2).mp hr2
    obtain ⟨hn, hn1, hrows⟩ := h1
    obtain ⟨hon, hon1, horows⟩ := h2
    have hM0len : 0 < M1.Rows.length := by omega
    have hM0 : M1.Rows[0]? = some M1.Rows[0] := List.getElem?_eq_getElem hM0len
    have hO0len : 0 < M2.Rows.length := by omega
    have hO0 : M2.Rows[0]? = some M2.Rows[0] := List.getElem?_eq_getElem hO0len
    have hdim' : M1.Rows[0].NumCols = M2.NumRows := by
      have := numcols_of_getElem_some M1 hn 0 _ hM0
      simp only [Nat.cast_zero] at this
      rw [this] at hdim
      exact Except.ok.inj hdim
    have hp' : M2.Rows[0].NumCols = p := by
      have := numcols_of_getElem_some M2 hon 0 _ hO0
      simp only [Nat.cast_zero] at this
      rw [this] at hp
      exact Except.ok.inj hp
    refine ⟨P, p, hP, hn1, hp, hp1, ?_, ?_, hPN, ?_⟩
    · intro i hi0 hi1
      obtain ⟨a, rfl⟩ := Int.eq_ofNat_of_zero_le hi0
      have halen : a < M1.Rows.length := by unfold numrows at hi1; omega
      have hMa : M1.Rows[a]? = some M1.Rows[a] := List.getElem?_eq_getElem halen
      rw [numcols_of_getElem_some M1 hn a _ hMa, hrect1 a _ _ hMa hM0, hdim']
      rfl
    · intro k hk0 hk1
      obtain ⟨a, rfl⟩ := Int.eq_ofNat_of_zero_le hk0
      have halen : a < M2.Rows.length := by unfold numrows at hk1; omega
      have hMa : M2.Rows[a]? = some M2.Rows[a] := List.getElem?_eq_getElem halen
      rw [numcols_of_getElem_some M2 hon a _ hMa, hrect2 a _ _ hMa hO0, hp']
    · intro i hi0 hi1
      obtain ⟨a, rfl⟩ := Int.eq_ofNat_of_zero_le hi0
      have halen : a < P.Rows.length := by unfold numrows at hi1; omega
      have hPa : P.Rows[a]? = some P.Rows[a] := List.getElem?_eq_getElem halen
      rw [numcols_of_getElem_some P hPL a _ hPa, (hProws _ (List.getElem_mem halen)).1]
  · rcases hcase with ⟨hr1, hr2, hdim, P, hP⟩ | ⟨hnot, msg, hmsg⟩
    · exact ⟨fun _ => ⟨hr1, hr2, hdim⟩, fun _ => ⟨P, hP⟩⟩
    · constructor
      · rintro ⟨P, hP⟩
        rw [hmsg] at hP; cases hP
      · intro h; exact absurd h hnot

theorem operator_mul_safe_witness :
    example_M1.WellFormed ∧ example_M2.WellFormed ∧
    ((∃ P, (example_M1.operator_mul example_M2).result = .ok P) ↔
      (example_M1.rectangular ∧ example_M2.rectangular ∧
        example_M1.numcols 0 = .ok example_M2.numrows)) ∧
    ((∃ P, (example_jagged.operator_mul example_M2).result = .ok P) ↔
      (example_jagged.rectangular ∧ example_M2.rectangular ∧
        example_jagged.numcols 0 = .ok example_M2.numrows)) :=
  ⟨by decide, by decide,
    (operator_mul_safe example_M1 example_M2 (by decide) (by decide)).2.2,
    (operator_mul_safe example_jagged example_M2 (by decide) (by decide)).2.2⟩

/-! Writing one element -/

theorem at_value_row_error (M : mymatrix T) (r c : Int) (h : r < 0 ∨ r ≥ M.NumRows) :
    M.at_value r c = .error (.invalid_argument "mymatrix::at: row") := by
  unfold at_value
  rw [at_row_error M r c h]
  rfl

theorem at_value_col_error (M : mymatrix T) (hn : M.NumRows = M.Rows.length) (k : Nat)
    (c : Int) (row : ROW T) (hk : M.Rows[k]? = some row) (h : c < 0 ∨ c ≥ row.NumCols) :
    M.at_value (k : Int) c = .error (.invalid_argument "mymatrix::at: col") := by
  unfold at_value
  rw [at_col_error M hn k c row hk h]
  rfl

/-- Claim C17: on a well-formed matrix and a valid position `(r, c)`, the statements
`M.at(r, c) = v` and `M(r, c) = v` return normally and have the same effect: afterwards a
read of `at(r, c)` gives `v`, a read at any other position gives what it gave before, and
`numrows()`, every `numcols(r')` and `size()` are unchanged. -/
theorem at_assign_spec (M : mymatrix T) (hM : M.WellFormed) (r c n : Int) (v : T)
    (hr0 : 0 ≤ r) (hr1 : r < M.numrows) (hn : M.numcols r = .ok n) (hc0 : 0 ≤ c)
    (hc1 : c < n) :
    (M.at_assign r c v).result = .ok () ∧
    M.call_assign r c v = M.at_assign r c v ∧
    (M.at_assign r c v).state.at_value r c = .ok v ∧
    (∀ r' c' : Int, (r', c') ≠ (r, c) →
      (M.at_assign r c v).state.at_value r' c' = M.at_value r' c') ∧
    (M.at_assign r c v).state.numrows = M.numrows ∧
    (∀ r' : Int, (M.at_assign r c v).state.numcols r' = M.numcols r') ∧
    (M.at_assign r c v).state.size = M.size := by
  obtain ⟨hN, _, hrows⟩ := hM
  obtain ⟨k, rfl⟩ := Int.eq_ofNat_of_zero_le hr0
  obtain ⟨j, rfl⟩ := Int.eq_ofNat_of_zero_le hc0
  have hklen : k < M.Rows.length := by unfold numrows at hr1; omega
  have hk : M.Rows[k]? = some M.Rows[k] := List.getElem?_eq_getElem hklen
  obtain ⟨hrow, -⟩ := hrows _ (List.getElem_mem hklen)
  have hn' : M.Rows[k].NumCols = n := by
    rw [numcols_of_getElem_some M hN k _ hk] at hn
    exact Except.ok.inj hn
  have hj : j < M.Rows[k].Cols.length := by omega
  rw [call_assign_ok M hN k j _ v hk hrow hj, at_assign_ok M hN k j _ v hk hrow hj]
  generalize hM' : ({ M with
      Rows := M.Rows.set k ⟨M.Rows[k].Cols.set j v, M.Rows[k].NumCols⟩ } : mymatrix T) = M'
  have hN' : M'.NumRows = (M'.Rows.length : Int) := by subst hM'; simp [hN]
  have hNN : M'.NumRows = M.NumRows := by subst hM'; rfl
  have hk' : M'.Rows[k]? = some ⟨M.Rows[k].Cols.set j v, M.Rows[k].NumCols⟩ := by
    subst hM'; simp [List.getElem?_set, hklen]
  have hother : ∀ i : Nat, i ≠ k → M'.Rows[i]? = M.Rows[i]? := by
    intro i hi
    subst hM'
    show (M.Rows.set k _)[i]? = _
    rw [List.getElem?_set, if_neg (Ne.symm hi)]
  refine ⟨rfl, rfl, ?_, ?_, hNN, ?_, by subst hM'; rfl⟩
  · apply at_value_of_getElem_some M' hN' k j _ _ hk'
    · show M.Rows[k].NumCols = ((M.Rows[k].Cols.set j v).length : Int)
      rw [List.length_set]; exact hrow
    · show (M.Rows[k].Cols.set j v)[j]? = _
      simp [List.getElem?_set, hj]
  · intro r' c' hne
    by_cases hr' : r' < 0 ∨ r' ≥ M.NumRows
    · rw [at_value_row_error M r' c' hr', at_value_row_error M' r' c' (by rw [hNN]; exact hr')]
    have hr0' : 0 ≤ r' := by omega
    obtain ⟨k', rfl⟩ := Int.eq_ofNat_of_zero_le hr0'
    have hk'len : k' < M.Rows.length := by omega
    have hMk' : M.Rows[k']? = some M.Rows[k'] := List.getElem?_eq_getElem hk'len
    obtain ⟨hrow', -⟩ := hrows _ (List.getElem_mem hk'len)
    by_cases hc' : c' < 0 ∨ c' ≥ M.Rows[k'].NumCols
    · rw [at_value_col_error M hN k' c' _ hMk' hc']
      by_cases hkk : k' = k
      · subst hkk
        exact at_value_col_error M' hN' k' c' _ hk' hc'
      · exact at_value_col_error M' hN' k' c' _ ((hother k' hkk).trans hMk') hc'
    have hc0' : 0 ≤ c' := by omega
    obtain ⟨j', rfl⟩ := Int.eq_ofNat_of_zero_le hc0'
    have hj' : j' < M.Rows[k'].Cols.length := by omega
    rw [at_value_of_getElem_some M hN k' j' _ _ hMk' hrow' (List.getElem?_eq_getElem hj')]
    by_cases hkk : k' = k
    · subst hkk
      have hjj : j ≠ j' := by
        intro h; subst h; exact hne rfl
      apply at_value_of_getElem_some M' hN' k' j' _ _ hk'
      · show M.Rows[k'].NumCols = ((M.Rows[k'].Cols.set j v).length : Int)
        rw [List.length_set]; exact hrow
      · show (M.Rows[k'].Cols.set j v)[j']? = _
        rw [List.getElem?_set, if_neg hjj, List.getElem?_eq_getElem hj']
    · exact at_value_of_getElem_some M' hN' k' j' _ _ ((hother k' hkk).trans hMk') hrow'
        (List.getElem?_eq_getElem hj')
  · intro r'
    unfold numcols
    rw [hNN]
    by_cases hr' : r' < 0 ∨ r' ≥ M.NumRows
    · rw [if_pos hr', if_pos hr']
    rw [if_neg hr', if_neg hr']
    have hr0' : 0 ≤ r' := by omega
    obtain ⟨k', rfl⟩ := Int.eq_ofNat_of_zero_le hr0'
    have hk'len : k' < M.Rows.length := by omega
    have hMk' : M.Rows[k']? = some M.Rows[k'] := List.getElem?_eq_getElem hk'len
    by_cases hkk : k' = k
    · subst hkk
      rw [subscript_getElem_some _ _ _ hk', subscript_getElem_some _ _ _ hMk']
      rfl
    · rw [subscript_getElem_some _ _ _ ((hother k' hkk).trans hMk'),
        subscript_getElem_some _ _ _ hMk']

theorem at_assign_spec_witness :
    example_jagged.WellFormed ∧ (0 : Int) ≤ 1 ∧ (1 : Int) < example_jagged.numrows ∧
    example_jagged.numcols 1 = .ok 3 ∧ (0 : Int) ≤ 2 ∧ (2 : Int) < 3 ∧
    (example_jagged.at_assign 1 2 9).result = .ok () ∧
    (example_jagged.at_assign 1 2 9).state.at_value 1 2 = .ok 9 ∧
    (example_jagged.at_assign 1 2 9).state =
      { Rows := [⟨[1, 2], 2⟩, ⟨[3, 4, 9], 3⟩], NumRows := 2, NumElements := 5 } :=
  ⟨by decide, by decide, by decide, by decide, by decide, by decide,
    (at_assign_spec example_jagged (by decide) 1 2 3 9 (by decide) (by decide) (by decide)
      (by decide) (by decide)).1,
    (at_assign_spec example_jagged (by decide) 1 2 3 9 (by decide) (by decide) (by decide)
      (by decide) (by decide)).2.2.1, by decide⟩

/-! Growing twice, and growing a jagged matrix into a rectangular one -/

theorem growRow_of_le [Inhabited T] (C : Int) (row : ROW T) (h : C ≤ row.NumCols) :
    growRow C row = row := by
  unfold growRow
  rw [if_neg (by omega)]

theorem grow_noop [Inhabited T] (M : mymatrix T) (hn : M.NumRows = M.Rows.length)
    (hrows : ∀ row ∈ M.Rows, row.NumCols = row.Cols.length) (R C : Int)
    (hR : 1 ≤ R) (hC : 1 ≤ C) (hRM : R ≤ M.NumRows) (hCM : ∀ row ∈ M.Rows, C ≤ row.NumCols) :
    M.grow R C = ⟨.ok (), M⟩ := by
  obtain ⟨M', hM', hN, hRows, hS⟩ := grow_ok M hn hrows R C hR hC
  have hmap : M.Rows.map (growRow C) = M.Rows := by
    conv_rhs => rw [← List.map_id M.Rows]
    apply List.map_congr_left
    intro row hrow
    exact growRow_of_le C row (hCM row hrow)
  have h0 : R.toNat - M.Rows.length = 0 := by omega
  rw [hmap, h0, List.replicate_zero, List.append_nil] at hRows
  rw [max_eq_left hRM] at hN
  have hE : M'.NumElements = M.NumElements := hS.2 hRM hCM
  rw [hM']
  cases M'
  cases M
  simp only at hN hRows hE
  rw [hN, hRows, hE]

/-- Claim C19: for `R >= R' >= 1` and `C >= C' >= 1`, `grow(R, C)` returns normally and a
following `grow(R', C')` returns normally and leaves the matrix (row count, every row,
every element, `size()`) exactly as `grow(R, C)` left it; with `R' = R` and `C' = C` this
says that `grow(R, C)` is idempotent. -/
theorem grow_within_bounds [Inhabited T] (M : mymatrix T) (hM : M.WellFormed)
    (R C R' C' : Int) (hR' : 1 ≤ R') (hRR : R' ≤ R) (hC' : 1 ≤ C') (hCC : C' ≤ C) :
    (M.grow R C).result = .ok () ∧
    (M.grow R C).state.grow R' C' = ⟨.ok (), (M.grow R C).state⟩ ∧
    (M.grow R C).state.grow R C = ⟨.ok (), (M.grow R C).state⟩ := by
  obtain ⟨hn, hn1, hrows⟩ := hM
  obtain ⟨M', hM', hN, hRows, -⟩ :=
    grow_ok M hn (fun row h => (hrows row h).1) R C (by omega) (by omega)
  rw [hM']
  have hn' : M'.NumRows = M'.Rows.length := by
    rw [hN, hRows]; simp; omega
  have hrows' : ∀ row ∈ M'.Rows, row.NumCols = row.Cols.length ∧ C ≤ row.NumCols := by
    intro row hmem
    rw [hRows] at hmem
    rcases List.mem_append.mp hmem with h' | h'
    · simp only [List.mem_map] at h'
      obtain ⟨row0, hrow0, rfl⟩ := h'
      refine ⟨growRow_length C row0 (hrows row0 hrow0).1, ?_⟩
      rw [growRow_NumCols]; exact le_max_right _ _
    · rw [List.eq_of_mem_replicate h']
      exact ⟨freshRow_length C (by omega), le_refl C⟩
  have hRN : R ≤ M'.NumRows := by rw [hN]; exact le_max_right _ _
  refine ⟨rfl, ?_, ?_⟩
  · exact grow_noop M' hn' (fun row h => (hrows' row h).1) R' C' hR' hC'
      (by omega) (fun row h => by have := (hrows' row h).2; omega)
  · exact grow_noop M' hn' (fun row h => (hrows' row h).1) R C (by omega) (by omega)
      hRN (fun row h => (hrows' row h).2)

theorem grow_within_bounds_witness :
    example_jagged.WellFormed ∧ (1 : Int) ≤ 2 ∧ (2 : Int) ≤ 3 ∧ (1 : Int) ≤ 1 ∧
    (1 : Int) ≤ 4 ∧
    (example_jagged.grow 3 4).result = .ok () ∧
    (example_jagged.grow 3 4).state.grow 2 1 = ⟨.ok (), (example_jagged.grow 3 4).state⟩ :=
  ⟨by decide, by decide, by decide, by decide, by decide,
    (grow_within_bounds example_jagged (by decide) 3 4 2 1 (by decide) (by decide)
      (by decide) (by decide)).1,
    (grow_within_bounds example_jagged (by decide) 3 4 2 1 (by decide) (by decide)
      (by decide) (by decide)).2.1⟩

theorem grow_rectangular_ok [Inhabited T] (M : mymatrix T) (hM : M.WellFormed)
    (hS : M.SizeInvariant) (R C : Int) (hR : 1 ≤ R) (hC : 1 ≤ C)
    (hwide : ∀ r n : Int, M.numcols r = .ok n → n ≤ C) :
    (M.grow R C).result = .ok () ∧
    IsRectangular (M.grow R C).state = .ok true ∧
    (M.grow R C).state.rectangular ∧
    (∀ r : Int, 0 ≤ r → r < (M.grow R C).state.numrows →
      (M.grow R C).state.numcols r = .ok C) ∧
    (M.grow R C).state.size = wrapInt (max M.numrows R * C) := by
  obtain ⟨hWF', hS'⟩ := grow_invariant M R C ⟨hM, hS⟩
  obtain ⟨hn, hn1, hrows⟩ := hM
  obtain ⟨M', hM', hN, hRows, -⟩ :=
    grow_ok M hn (fun row h => (hrows row h).1) R C hR hC
  rw [hM'] at hWF' hS' ⊢
  have hcols : ∀ row ∈ M'.Rows, row.NumCols = C := by
    intro row hmem
    rw [hRows] at hmem
    rcases List.mem_append.mp hmem with h' | h'
    · simp only [List.mem_map] at h'
      obtain ⟨row0, hrow0, rfl⟩ := h'
      obtain ⟨i, hi⟩ := List.mem_iff_getElem?.mp hrow0
      have := hwide i _ (numcols_of_getElem_some M hn i _ hi)
      rw [growRow_NumCols, max_eq_right this]
    · rw [List.eq_of_mem_replicate h']
      rfl
  have hrect : M'.rectangular := by
    rw [rectangular_iff M' hWF']
    intro i row first hi hf
    rw [hcols row (List.getElem?_mem hi), hcols first (List.getElem?_mem hf)]
  refine ⟨rfl, ?_, hrect, ?_, ?_⟩
  · show IsRectangular M' = _
    rw [IsRectangular_ok M' hWF', decide_eq_true hrect]
  · intro r hr0 hr1
    obtain ⟨k, rfl⟩ := Int.eq_ofNat_of_zero_le hr0
    have hklen : k < M'.Rows.length := by
      have := hWF'.1
      change (k : Int) < M'.NumRows at hr1
      change M'.NumRows = (M'.Rows.length : Int) at this
      omega
    have hk : M'.Rows[k]? = some M'.Rows[k] := List.getElem?_eq_getElem hklen
    show M'.numcols k = _
    rw [numcols_of_getElem_some M' hWF'.1 k _ hk, hcols _ (List.getElem_mem hklen)]
  · show M'.NumElements = wrapInt (max M.NumRows R * C)
    have h1 : M'.NumElements = wrapInt (M'.Rows.map fun row => row.NumCols).sum := hS'
    have h2 : M'.NumRows = (M'.Rows.length : Int) := hWF'.1
    rw [h1, sum_NumCols_const _ C hcols, ← h2, hN]

/-- Claim C18: if `R >= 1`, `C >= 1` and no row of `M` has more than `C` columns, then
after `grow(R, C)` the matrix is rectangular (`IsRectangular` returns true) and every row
has exactly `C` columns; `size()` is `max(old numrows(), R) * C` as an `int`, so
`size() == max(old numrows(), R) * C` whenever that product fits an `int`. -/
theorem grow_rectangular [Inhabited T] (M : mymatrix T) (hM : M.WellFormed)
    (hS : M.SizeInvariant) (R C : Int) (hR : 1 ≤ R) (hC : 1 ≤ C)
    (hwide : ∀ r n : Int, M.numcols r = .ok n → n ≤ C) :
    (M.grow R C).result = .ok () ∧
    IsRectangular (M.grow R C).state = .ok true ∧
    (M.grow R C).state.rectangular ∧
    (∀ r : Int, 0 ≤ r → r < (M.grow R C).state.numrows →
      (M.grow R C).state.numcols r = .ok C) ∧
    (M.grow R C).state.size = wrapInt (max M.numrows R * C) ∧
    (max M.numrows R * C ≤ 2147483647 →
      (M.grow R C).state.size = max M.numrows R * C) := by
  obtain ⟨h1, h2, h3, h4, h5⟩ := grow_rectangular_ok M hM hS R C hR hC hwide
  refine ⟨h1, h2, h3, h4, h5, fun hfit => ?_⟩
  have hpos : 0 ≤ max M.numrows R * C :=
    Int.mul_nonneg (le_trans (by omega) (le_max_right _ _)) (by omega)
  rw [h5, wrapInt_of_fits _ (by omega) hfit]

theorem grow_rectangular_witness :
    example_jagged.WellFormed ∧ example_jagged.SizeInvariant ∧ (1 : Int) ≤ 3 ∧ (1 : Int) ≤ 3 ∧
    (example_jagged.grow 3 3).result = .ok () ∧
    IsRectangular (example_jagged.grow 3 3).state = .ok true ∧
    (example_jagged.grow 3 3).state.size = max example_jagged.numrows 3 * 3 := by
  have hwide : ∀ r n : Int, example_jagged.numcols r = .ok n → n ≤ 3 := by
    intro r n h
    have hN : example_jagged.NumRows = 2 := rfl
    have hr : ¬ (r < 0 ∨ r ≥ example_jagged.NumRows) := by
      intro hr
      unfold numcols at h
      rw [if_pos hr] at h
      cases h
    have h0 : 0 ≤ r := by omega
    have h2 : r < 2 := by omega
    interval_cases r
    · cases h; decide
    · cases h; decide
  have h := grow_rectangular example_jagged (by decide) (by decide) 3 3 (by decide)
    (by decide) hwide
  exact ⟨by decide, by decide, by decide, by decide, h.1, h.2.1, h.2.2.2.2.2 (by decide)⟩

/-- The claim as it was written, `size() == max(old numrows(), R) * C`, fails for the 1x1
matrix and `grow(46341, 46341)`: the product `2147488281` does not fit an `int`, and
`size()` returns `-2147479015`. -/
theorem grow_rectangular_counterexample :
    (ctor 1 1 : Except Error (mymatrix int)) = .ok example_1x1 ∧
    (∀ r n : Int, example_1x1.numcols r = .ok n → n ≤ 46341) ∧
    (example_1x1.grow 46341 46341).result = .ok () ∧
    (example_1x1.grow 46341 46341).state.size = -2147479015 ∧
    (example_1x1.grow 46341 46341).state.size ≠ max example_1x1.numrows 46341 * 46341 := by
  have hwide : ∀ r n : Int, example_1x1.numcols r = .ok n → n ≤ 46341 := by
    intro r n h
    have hN : example_1x1.NumRows = 1 := rfl
    have hr : ¬ (r < 0 ∨ r ≥ example_1x1.NumRows) := by
      intro hr
      unfold numcols at h
      rw [if_pos hr] at h
      cases h
    have h0 : r = 0 := by omega
    subst h0
    cases h
    decide
  obtain ⟨h1, -, -, -, h5⟩ := grow_rectangular_ok example_1x1 (by decide) (by decide)
    46341 46341 (by decide) (by decide) hwide
  have hw : wrapInt (max example_1x1.numrows 46341 * 46341) = -2147479015 := by decide
  rw [hw] at h5
  refine ⟨by decide, hwide, h1, h5, ?_⟩
  rw [h5]
  decide

/-! Scalar and matrix multiplication commute for `int` elements -/

theorem operator_mul_eq_product [Inhabited T] [Zero T] [Add T] [Mul T] (M other : mymatrix T)
    (hM : M.WellFormed) (hO : other.WellFormed) (h1 : M.rectangular) (h2 : other.rectangular)
    (hdim : M.numcols 0 = .ok other.numrows) :
    ∃ p, other.numcols 0 = .ok p ∧ 1 ≤ p ∧
      (M.operator_mul other).result = .ok (product M other p) := by
  obtain ⟨P, p, hP, hp, hp1, ⟨hPN, hPL, hProws, hPE⟩, hdot⟩ :=
    operator_mul_ok M other hM hO h1 h2 hdim
  refine ⟨p, hp, hp1, ?_⟩
  rw [hP]
  congr 1
  have hRows : P.Rows = (product M other p).Rows := by
    apply List.ext_getElem?
    intro a
    by_cases ha : a < P.Rows.length
    · have haR : (a : Int) < M.NumRows := by omega
      have haR' : a < M.NumRows.toNat := by omega
      obtain ⟨row, hrow, -⟩ := hdot a 0 haR (by omega)
      obtain ⟨hrp, hrl⟩ := hProws row (List.getElem?_mem hrow)
      rw [hrow]
      show _ = (List.map _ (List.range M.NumRows.toNat))[a]?
      rw [List.getElem?_map, List.getElem?_range haR']
      simp only [Option.map_some', Option.some.injEq]
      cases row with
      | mk cols numcols =>
        simp only at hrp hrl
        simp only [ROW.mk.injEq]
        refine ⟨?_, hrp⟩
        apply List.ext_getElem?
        intro b
        by_cases hb : b < cols.length
        · have hbp : (b : Int) < p := by omega
          have hbp' : b < p.toNat := by omega
          obtain ⟨row', hrow', hcell⟩ := hdot a b haR hbp
          rw [hrow] at hrow'
          cases hrow'
          rw [hcell, List.getElem?_map, List.getElem?_range hbp']
          rfl
        · have h1 : cols.length ≤ b := by omega
          have h2 : ((List.range p.toNat).map
              fun (b : Nat) => dot M other a b other.NumRows.toNat).length ≤ b := by
            simp; omega
          rw [List.getElem?_eq_none h1, List.getElem?_eq_none h2]
    · have h1 : P.Rows.length ≤ a := by omega
      have h2 : (product M other p).Rows.length ≤ a := by
        simp [product]; omega
      rw [List.getElem?_eq_none h1, List.getElem?_eq_none h2]
  cases P
  simp only at hRows hPN hPE
  rw [hRows, hPN, hPE]
  rfl

theorem product_wellFormed [Inhabited T] [Zero T] [Add T] [Mul T] (M other : mymatrix T)
    (hM : M.WellFormed) (p : Int) (hp : 1 ≤ p) : (product M other p).WellFormed := by
  obtain ⟨hn, hn1, -⟩ := hM
  refine ⟨?_, hn1, ?_⟩
  · show M.NumRows = _
    simp [product]; omega
  · intro row hrow
    simp only [product, List.mem_map] at hrow
    obtain ⟨a, -, rfl⟩ := hrow
    refine ⟨?_, hp⟩
    show p = _
    simp; omega

theorem scaled_wellFormed [Mul T] (M : mymatrix T) (hM : M.WellFormed) (s : T) :
    WellFormed ({ Rows := M.Rows.map (scaledRow s), NumRows := M.NumRows,
                  NumElements := M.NumElements } : mymatrix T) := by
  obtain ⟨hn, hn1, hrows⟩ := hM
  refine ⟨?_, hn1, ?_⟩
  · show M.NumRows = (((M.Rows.map (scaledRow s)).length : Nat) : Int)
    rw [List.length_map]; exact hn
  · intro row hmem
    simp only [List.mem_map] at hmem
    obtain ⟨row0, hrow0, rfl⟩ := hmem
    obtain ⟨h1, h2⟩ := hrows row0 hrow0
    refine ⟨?_, h2⟩
    show row0.NumCols = (((row0.Cols.map fun x => x * s).length : Nat) : Int)
    rw [List.length_map]; exact h1

theorem scaled_rectangular [Mul T] (M : mymatrix T) (hM : M.WellFormed) (s : T)
    (hr : M.rectangular) :
    rectangular ({ Rows := M.Rows.map (scaledRow s), NumRows := M.NumRows,
                   NumElements := M.NumElements } : mymatrix T) := by
  have hiff := (rectangular_iff M hM).mp hr
  rw [rectangular_iff _ (scaled_wellFormed M hM s)]
  intro i row first hi hf
  simp only [List.getElem?_map] at hi hf
  rcases hMi : M.Rows[i]? with _ | ri
  · rw [hMi] at hi; cases hi
  rcases hM0 : M.Rows[0]? with _ | r0
  · rw [hM0] at hf; cases hf
  rw [hMi] at hi
  rw [hM0] at hf
  cases hi
  cases hf
  exact hiff i ri r0 hMi hM0

theorem scaled_numcols [Mul T] (M : mymatrix T) (s : T) (r : Int) :
    numcols ({ Rows := M.Rows.map (scaledRow s), NumRows := M.NumRows,
               NumElements := M.NumElements } : mymatrix T) r = M.numcols r := by
  unfold numcols
  by_cases hr : r < 0 ∨ r ≥ M.NumRows
  · rw [if_pos hr, if_pos hr]
  rw [if_neg hr, if_neg hr]
  have h0 : ¬ (r < 0) := by omega
  simp only [subscript, h0, if_false, List.getElem?_map]
  cases M.Rows[r.toNat]? <;> rfl


theorem int_zero_mul (s : int) : (0 : int) * s = 0 := by
  show int.ofInt ((int.ofInt 0).val * s.val) = int.ofInt 0
  have h0 : (int.ofInt 0).val = 0 := rfl
  rw [h0, zero_mul]

theorem int_add_mul (a b c : int) : (a + b) * c = a * c + b * c := by
  show int.ofInt ((int.ofInt (a.val + b.val)).val * c.val)
    = int.ofInt ((int.ofInt (a.val * c.val)).val + (int.ofInt (b.val * c.val)).val)
  unfold int.ofInt
  simp only [int.mk.injEq]
  rw [wrapInt_wrapInt_mul, wrapInt_wrapInt_add, wrapInt_add_wrapInt, add_mul]

theorem int_mul_right_comm (a b c : int) : a * b * c = a * c * b := by
  show int.ofInt ((int.ofInt (a.val * b.val)).val * c.val)
    = int.ofInt ((int.ofInt (a.val * c.val)).val * b.val)
  unfold int.ofInt
  simp only [int.mk.injEq]
  rw [wrapInt_wrapInt_mul, wrapInt_wrapInt_mul, mul_right_comm]

theorem cell_scaled [Inhabited T] [Mul T] (M : mymatrix T) (s : T) (a k : Nat) (row : ROW T)
    (ha : M.Rows[a]? = some row) (hk : k < row.Cols.length) :
    cell ({ Rows := M.Rows.map (scaledRow s), NumRows := M.NumRows,
            NumElements := M.NumElements } : mymatrix T) a k = cell M a k * s := by
  rw [cell_of_getElem_some M a k row _ ha (List.getElem?_eq_getElem hk)]
  apply cell_of_getElem_some _ a k (scaledRow s row)
  · simp [List.getElem?_map, ha]
  · simp [scaledRow, List.getElem?_map, List.getElem?_eq_getElem hk]

theorem dot_scaled [Inhabited T] [Zero T] [Add T] [Mul T]
    (hz : ∀ x : T, (0 : T) * x = 0) (hd : ∀ x y z : T, (x + y) * z = x * z + y * z)
    (hm : ∀ x y z : T, x * y * z = x * z * y)
    (M other : mymatrix T) (s : T) (a b : Nat) (row : ROW T)
    (ha : M.Rows[a]? = some row) (n : Nat) (hn : n ≤ row.Cols.length) :
    dot ({ Rows := M.Rows.map (scaledRow s), NumRows := M.NumRows,
           NumElements := M.NumElements } : mymatrix T) other a b n
      = dot M other a b n * s := by
  induction n with
  | zero => exact (hz s).symm
  | succ n ih =>
    rw [dot_succ, dot_succ, ih (by omega), cell_scaled M s a n row ha (by omega), hd, hm]

/-- Scalar and matrix multiplication commute for every element type whose arithmetic
satisfies `0 * x = 0`, `(x + y) * z = x * z + y * z` and `x * y * z = x * z * y`. -/
theorem mul_scalar_comm_of_laws [Inhabited T] [Zero T] [Add T] [Mul T]
    (hz : ∀ x : T, (0 : T) * x = 0) (hd : ∀ x y z : T, (x + y) * z = x * z + y * z)
    (hm : ∀ x y z : T, x * y * z = x * z * y)
    (M1 M2 : mymatrix T) (h1 : M1.WellFormed) (h2 : M2.WellFormed)
    (hr1 : M1.rectangular) (hr2 : M2.rectangular) (hdim : M1.numcols 0 = .ok M2.numrows)
    (s : T) :
    ∃ A B P, (M1.operator_mul_scalar s).result = .ok A ∧
      (A.operator_mul M2).result = .ok P ∧
      (M1.operator_mul M2).result = .ok B ∧
      (B.operator_mul_scalar s).result = .ok P := by
  have hrect1 := (rectangular_iff M1 h1).mp hr1
  obtain ⟨p, hp, hp1, hB⟩ := operator_mul_eq_product M1 M2 h1 h2 hr1 hr2 hdim
  obtain ⟨p', hp', -, hP⟩ := operator_mul_eq_product _ M2 (scaled_wellFormed M1 h1 s) h2
    (scaled_rectangular M1 h1 s hr1) hr2 (by rw [scaled_numcols]; exact hdim)
  have hpp : p' = p := by
    rw [hp] at hp'; exact (Except.ok.inj hp').symm
  subst hpp
  refine ⟨_, _, _, by rw [operator_mul_scalar_ok M1 h1 s], hP, hB, ?_⟩
  rw [operator_mul_scalar_ok _ (product_wellFormed M1 M2 h1 p' hp1) s]
  show Except.ok _ = Except.ok _
  congr 1
  obtain ⟨hn, hn1, hrows⟩ := h1
  have hM0len : 0 < M1.Rows.length := by omega
  have hM0 : M1.Rows[0]? = some M1.Rows[0] := List.getElem?_eq_getElem hM0len
  have hdim' : M1.Rows[0].NumCols = M2.NumRows := by
    have := numcols_of_getElem_some M1 hn 0 _ hM0
    simp only [Nat.cast_zero] at this
    rw [this] at hdim
    exact Except.ok.inj hdim
  unfold product
  simp only [List.map_map, mymatrix.mk.injEq, and_true]
  apply List.map_congr_left
  intro a ha
  rw [List.mem_range] at ha
  have halen : a < M1.Rows.length := by omega
  have hMa : M1.Rows[a]? = some M1.Rows[a] := List.getElem?_eq_getElem halen
  have hlen : M2.NumRows.toNat ≤ M1.Rows[a].Cols.length := by
    have := hrect1 a _ _ hMa hM0
    have := (hrows _ (List.getElem_mem halen)).1
    omega
  simp only [Function.comp, scaledRow, List.map_map, ROW.mk.injEq, and_true]
  apply List.map_congr_left
  intro b _
  exact (dot_scaled hz hd hm M1 M2 s a b _ hMa _ hlen).symm

/-- Claim C20: for well-formed rectangular matrices of `int` elements `M1`, `M2` with
`M1.numcols(0) == M2.numrows()` and every `int` scalar `s`, both `(M1 * s) * M2` and
`(M1 * M2) * s` return normally, and they return the same matrix (same row count, same
rows, same elements, same `size()`); the elements are 32-bit integers with the arithmetic
of the machine, so this holds also where a product or a sum does not fit an `int`. -/
theorem mul_scalar_comm (M1 M2 : mymatrix int) (h1 : M1.WellFormed) (h2 : M2.WellFormed)
    (hr1 : M1.rectangular) (hr2 : M2.rectangular) (hdim : M1.numcols 0 = .ok M2.numrows)
    (s : int) :
    ∃ A B P, (M1.operator_mul_scalar s).result = .ok A ∧
      (A.operator_mul M2).result = .ok P ∧
      (M1.operator_mul M2).result = .ok B ∧
      (B.operator_mul_scalar s).result = .ok P :=
  mul_scalar_comm_of_laws int_zero_mul int_add_mul int_mul_right_comm M1 M2 h1 h2 hr1 hr2
    hdim s

theorem mul_scalar_comm_witness :
    example_wide.WellFormed ∧ example_tall.WellFormed ∧ example_wide.rectangular ∧
    example_tall.rectangular ∧ example_wide.numcols 0 = .ok example_tall.numrows ∧
    (example_wide.operator_mul example_tall).result = .ok ⟨[⟨[int.ofInt 7], 1⟩], 1, 1⟩ ∧
    ∃ A B P, (example_wide.operator_mul_scalar (int.ofInt 3)).result = .ok A ∧
      (A.operator_mul example_tall).result = .ok P ∧
      (example_wide.operator_mul example_tall).result = .ok B ∧
      (B.operator_mul_scalar (int.ofInt 3)).result = .ok P :=
  ⟨by decide, by decide, by decide, by decide, by decide, by decide,
    mul_scalar_comm example_wide example_tall (by decide) (by decide) (by decide) (by decide)
      (by decide) (int.ofInt 3)⟩

end mymatrix

/-! The free store: a copy shares nothing with its source -/

namespace Ptr

open MyMatrix mymatrix.Loops

variable {T : Type}

theorem table_of_allocated (h : Heap T) (M : Obj) (hA : Allocated h M) :
    h.tables[M.Rows]? = some (h.tables.getD M.Rows []) := by
  rw [List.getD_eq_getElem?_getD, List.getElem?_eq_getElem hA.1]
  rfl

theorem elems_of_allocated (h : Heap T) (M : Obj) (hA : Allocated h M) (pr : ROW)
    (hpr : pr ∈ h.tables.getD M.Rows []) :
    h.elems[pr.Cols]? = some (h.elems.getD pr.Cols []) := by
  rw [List.getD_eq_getElem?_getD, List.getElem?_eq_getElem (hA.2 pr hpr)]
  rfl

theorem view_rows_getElem (h : Heap T) (M : Obj) (k : Nat) (pr : ROW)
    (hk : (h.tables.getD M.Rows [])[k]? = some pr) :
    (view h M).Rows[k]? = some ⟨h.elems.getD pr.Cols [], pr.NumCols⟩ := by
  show ((h.tables.getD M.Rows []).map _)[k]? = _
  rw [List.getElem?_map, hk]
  rfl

/-- What well-formedness of the denoted matrix says about the store. -/
theorem wellFormed_store (h : Heap T) (M : Obj) (hW : (view h M).WellFormed) :
    M.NumRows = ((h.tables.getD M.Rows []).length : Int) ∧ 1 ≤ M.NumRows ∧
    ∀ pr ∈ h.tables.getD M.Rows [],
      pr.NumCols = ((h.elems.getD pr.Cols []).length : Int) ∧ 1 ≤ pr.NumCols := by
  obtain ⟨hn, hn1, hrows⟩ := hW
  refine ⟨?_, hn1, ?_⟩
  · have : (view h M).Rows.length = (h.tables.getD M.Rows []).length := by simp [view]
    rw [← this]; exact hn
  · intro pr hpr
    have hmem : (⟨h.elems.getD pr.Cols [], pr.NumCols⟩ : MyMatrix.ROW T) ∈ (view h M).Rows := by
      simp only [view, List.mem_map]
      exact ⟨pr, hpr, rfl⟩
    exact hrows _ hmem

/-- The denoted matrix depends only on the object's table and the arrays it points to. -/
theorem view_congr (h h' : Heap T) (X : Obj)
    (ht : h'.tables.getD X.Rows [] = h.tables.getD X.Rows [])
    (he : ∀ pr ∈ h.tables.getD X.Rows [], h'.elems.getD pr.Cols [] = h.elems.getD pr.Cols []) :
    view h' X = view h X := by
  unfold view
  rw [ht]
  congr 1
  apply List.map_congr_left
  intro pr hpr
  rw [he pr hpr]

theorem at_assign_ok_store (h : Heap T) (M : Obj) (k j : Nat) (table : List ROW) (pr : ROW)
    (arr : List T) (v : T) (ht : h.tables[M.Rows]? = some table)
    (hN : M.NumRows = (table.length : Int)) (hk : table[k]? = some pr)
    (ha : h.elems[pr.Cols]? = some arr) (hc : pr.NumCols = (arr.length : Int))
    (hj : j < arr.length) :
    at_assign h M k j v = .ok { h with elems := h.elems.set pr.Cols (arr.set j v) } := by
  have hklen := lt_length_of_getElem_some _ _ _ hk
  have halen := lt_length_of_getElem_some _ _ _ ha
  have h1 : ¬ ((k : Int) < 0 ∨ (k : Int) ≥ M.NumRows) := by omega
  have h2 : ¬ ((j : Int) < 0 ∨ (j : Int) ≥ pr.NumCols) := by omega
  unfold at_assign
  rw [if_neg h1]
  simp only [subscript_getElem_some _ _ _ ht, subscript_getElem_some _ _ _ hk, bind,
    Except.bind, if_neg h2, subscript_getElem_some _ _ _ ha, assign_natCast _ _ _ hj,
    assign_natCast _ _ _ halen]
  rfl

theorem IncreaseColumnElements_ok_store [Inhabited T] (h : Heap T) (M : Obj) (k : Nat)
    (table : List ROW) (pr : ROW) (arr : List T) (ht : h.tables[M.Rows]? = some table)
    (hk : table[k]? = some pr) (ha : h.elems[pr.Cols]? = some arr)
    (hc : pr.NumCols = (arr.length : Int)) (newSize : Int) :
    IncreaseColumnElements h M k newSize =
      .ok ({ M with NumElements := wrapInt (M.NumElements + wrapInt (newSize - pr.NumCols)) },
           { elems := h.elems ++ [(List.range newSize.toNat).map fun i => arr.getD i default]
             tables := h.tables.set M.Rows (table.set k ⟨h.elems.length, newSize⟩) }) := by
  have hklen := lt_length_of_getElem_some _ _ _ hk
  have htlen := lt_length_of_getElem_some _ _ _ ht
  have hmap : (List.range newSize.toNat).mapM
      (fun i : Nat => if (i : Int) < pr.NumCols then do
          let old ← subscript h.elems (pr.Cols : Int)
          subscript old (i : Int)
        else (pure default : Except Error T))
      = .ok ((List.range newSize.toNat).map fun i => arr.getD i default) := by
    apply mapM_ok
    intro i _
    by_cases hi : (i : Int) < pr.NumCols
    · have hi' : i < arr.length := by omega
      rw [if_pos hi, subscript_getElem_some _ _ _ ha]
      simp only [bind, Except.bind]
      rw [subscript_natCast _ _ hi']
      simp [List.getD_eq_getElem?_getD, List.getElem?_eq_getElem hi']
    · have hi' : arr.length ≤ i := by omega
      rw [if_neg hi]
      simp [List.getD_eq_getElem?_getD, List.getElem?_eq_none hi']
      rfl
  unfold IncreaseColumnElements
  simp only [subscript_getElem_some _ _ _ ht, subscript_getElem_some _ _ _ hk, bind,
    Except.bind] at hmap ⊢
  rw [hmap]
  simp only [assign_natCast _ _ _ hklen, assign_natCast _ _ _ htlen]
  rfl

theorem getD_append_of_lt {α : Type} (xs ys : List α) (i : Nat) (d : α) (hi : i < xs.length) :
    (xs ++ ys).getD i d = xs.getD i d := by
  rw [List.getD_eq_getElem?_getD, List.getD_eq_getElem?_getD, List.getElem?_append_left hi]

theorem getD_set_of_ne {α : Type} (xs : List α) (i j : Nat) (x d : α) (hij : i ≠ j) :
    (xs.set i x).getD j d = xs.getD j d := by
  rw [List.getD_eq_getElem?_getD, List.getD_eq_getElem?_getD, List.getElem?_set, if_neg hij]

theorem getD_set_self {α : Type} (xs : List α) (i : Nat) (x d : α) (hi : i < xs.length) :
    (xs.set i x).getD i d = x := by
  rw [List.getD_eq_getElem?_getD, List.getElem?_set, if_pos rfl]
  simp [hi]

/-- The matrix an object denotes is well formed when the store says so. -/
theorem wellFormed_of_store (h : Heap T) (M : Obj)
    (hN : M.NumRows = ((h.tables.getD M.Rows []).length : Int)) (hN1 : 1 ≤ M.NumRows)
    (hrows : ∀ pr ∈ h.tables.getD M.Rows [],
      pr.NumCols = ((h.elems.getD pr.Cols []).length : Int) ∧ 1 ≤ pr.NumCols) :
    (view h M).WellFormed := by
  refine ⟨?_, hN1, ?_⟩
  · show M.NumRows = ((List.map _ (h.tables.getD M.Rows [])).length : Int)
    rw [List.length_map]; exact hN
  · intro row hrow
    simp only [view, List.mem_map] at hrow
    obtain ⟨pr, hpr, rfl⟩ := hrow
    exact hrows pr hpr

/-- Growing row `k` of `Y` leaves every object that shares no storage with `Y` as it was,
keeps the two separate, and keeps `Y` good. -/
theorem IncreaseColumnElements_frame [Inhabited T] (h : Heap T) (Y : Obj) (hG : Good h Y)
    (k : Nat) (hk : (k : Int) < Y.NumRows) (C : Int) (hC : 1 ≤ C) :
    ∃ Y' h', IncreaseColumnElements h Y k C = .ok (Y', h') ∧ Good h' Y' ∧
      Y'.NumRows = Y.NumRows ∧ Y'.Rows = Y.Rows ∧
      ∀ X, Separate h X Y → Separate h' X Y' ∧ view h' X = view h X := by
  obtain ⟨hA, hW⟩ := hG
  obtain ⟨hN, hN1, hrows⟩ := wellFormed_store h Y hW
  have ht := table_of_allocated h Y hA
  have hklen : k < (h.tables.getD Y.Rows []).length := by omega
  have hpr : (h.tables.getD Y.Rows [])[k]? = some (h.tables.getD Y.Rows [])[k] :=
    List.getElem?_eq_getElem hklen
  have hmem := List.getElem_mem hklen
  have ha := elems_of_allocated h Y hA _ hmem
  have hc := (hrows _ hmem).1
  refine ⟨_, _, IncreaseColumnElements_ok_store h Y k _ _ _ ht hpr ha hc C, ?_⟩
  generalize htab : h.tables.getD Y.Rows [] = table at *
  generalize hnew : ((List.range C.toNat).map fun i =>
    (h.elems.getD table[k].Cols []).getD i default) = newArray
  have hnewlen : newArray.length = C.toNat := by subst hnew; simp
  generalize hh' : ({ elems := h.elems ++ [newArray]
                      tables := h.tables.set Y.Rows (table.set k ⟨h.elems.length, C⟩) }
                    : Heap T) = h'
  generalize hY' : ({ Y with
      NumElements := wrapInt (Y.NumElements + wrapInt (C - table[k].NumCols)) } : Obj)
    = Y'
  have hY'R : Y'.Rows = Y.Rows := by subst hY'; rfl
  have hY'N : Y'.NumRows = Y.NumRows := by subst hY'; rfl
  have hta : h'.tables.getD Y.Rows [] = table.set k ⟨h.elems.length, C⟩ := by
    subst hh'; exact getD_set_self _ _ _ _ hA.1
  have htb : ∀ a : Nat, a ≠ Y.Rows → h'.tables.getD a [] = h.tables.getD a [] := by
    intro a hne; subst hh'; exact getD_set_of_ne _ _ _ _ _ (Ne.symm hne)
  have hea : ∀ a : Nat, a < h.elems.length → h'.elems.getD a [] = h.elems.getD a [] := by
    intro a hlt; subst hh'; exact getD_append_of_lt _ _ _ _ hlt
  have heb : h'.elems.getD h.elems.length [] = newArray := by
    subst hh'
    show (h.elems ++ [newArray]).getD h.elems.length [] = newArray
    rw [List.getD_eq_getElem?_getD, List.getElem?_append_right (le_refl _)]
    simp
  have hel : h'.elems.length = h.elems.length + 1 := by subst hh'; simp
  have htl : h'.tables.length = h.tables.length := by subst hh'; simp
  have hAY' : Allocated h' Y' := by
    refine ⟨by rw [hY'R, htl]; exact hA.1, ?_⟩
    intro pr hprm
    rw [hY'R, hta] at hprm
    rcases List.mem_or_eq_of_mem_set hprm with h1 | h1
    · have := hA.2 pr (by rw [htab]; exact h1); omega
    · subst h1; show h.elems.length < _; omega
  refine ⟨⟨hAY', ?_⟩, hY'N, hY'R, ?_⟩
  · apply wellFormed_of_store
    · rw [hY'R, hta, hY'N, List.length_set]; exact hN
    · rw [hY'N]; exact hN1
    · intro pr hprm
      rw [hY'R, hta] at hprm
      rcases List.mem_or_eq_of_mem_set hprm with h1 | h1
      · rw [hea _ (hA.2 pr (by rw [htab]; exact h1))]
        exact hrows pr h1
      · subst h1
        refine ⟨?_, hC⟩
        show C = _
        rw [heb, hnewlen]; omega
  · rintro X ⟨hAX, -, hne, hdisj⟩
    have hXt : h'.tables.getD X.Rows [] = h.tables.getD X.Rows [] := htb _ hne
    refine ⟨⟨⟨by rw [htl]; exact hAX.1, ?_⟩, hAY', by rw [hY'R]; exact hne, ?_⟩, ?_⟩
    · intro px hpx
      rw [hXt] at hpx
      have := hAX.2 px hpx; omega
    · intro px hpx py hpy
      rw [hXt] at hpx
      rw [hY'R, hta] at hpy
      rcases List.mem_or_eq_of_mem_set hpy with h1 | h1
      · exact hdisj px hpx py (by rw [htab]; exact h1)
      · subst h1
        have := hAX.2 px hpx
        show px.Cols ≠ h.elems.length
        omega
    · apply view_congr _ _ _ hXt
      intro px hpx
      exact hea _ (hAX.2 px hpx)

theorem growcols_frame [Inhabited T] (h : Heap T) (Y : Obj) (hG : Good h Y)
    (k : Nat) (hk : (k : Int) < Y.NumRows) (C : Int) (hC : 1 ≤ C) :
    ∃ Y' h', growcols h Y k C = .ok (Y', h') ∧ Good h' Y' ∧
      Y'.NumRows = Y.NumRows ∧ Y'.Rows = Y.Rows ∧
      ∀ X, Separate h X Y → Separate h' X Y' ∧ view h' X = view h X := by
  obtain ⟨hN, hN1, hrows⟩ := wellFormed_store h Y hG.2
  have ht := table_of_allocated h Y hG.1
  have hklen : k < (h.tables.getD Y.Rows []).length := by omega
  have hpr : (h.tables.getD Y.Rows [])[k]? = some (h.tables.getD Y.Rows [])[k] :=
    List.getElem?_eq_getElem hklen
  have h1 : ¬ ((k : Int) < 0 ∨ (k : Int) ≥ Y.NumRows) := by omega
  have h2 : ¬ (C < 1) := by omega
  by_cases hlt : (h.tables.getD Y.Rows [])[k].NumCols < C
  · obtain ⟨Y', h', hok, hrest⟩ := IncreaseColumnElements_frame h Y hG k hk C hC
    refine ⟨Y', h', ?_, hrest⟩
    unfold growcols
    rw [if_neg h1, if_neg h2]
    simp only [subscript_getElem_some _ _ _ ht, subscript_getElem_some _ _ _ hpr, bind,
      Except.bind, if_pos hlt]
    exact hok
  · refine ⟨Y, h, ?_, hG, rfl, rfl, fun X hS => ⟨hS, rfl⟩⟩
    unfold growcols
    rw [if_neg h1, if_neg h2]
    simp only [subscript_getElem_some _ _ _ ht, subscript_getElem_some _ _ _ hpr, bind,
      Except.bind, if_neg hlt]
    rfl

/-- Writing one element of `Y` leaves every object that shares no storage with `Y` as it
was, keeps the two separate, and keeps `Y` good. -/
theorem at_assign_frame (h : Heap T) (Y : Obj) (hG : Good h Y) (k j : Nat)
    (hk : (k : Int) < Y.NumRows) (n : Int) (hn : (view h Y).numcols k = .ok n)
    (hj : (j : Int) < n) (v : T) :
    ∃ h', at_assign h Y k j v = .ok h' ∧ Good h' Y ∧
      (view h' Y).at_value k j = .ok v ∧
      ∀ X, Separate h X Y → Separate h' X Y ∧ view h' X = view h X := by
  obtain ⟨hA, hW⟩ := hG
  obtain ⟨hN, hN1, hrows⟩ := wellFormed_store h Y hW
  have ht := table_of_allocated h Y hA
  have hklen : k < (h.tables.getD Y.Rows []).length := by omega
  have hpr : (h.tables.getD Y.Rows [])[k]? = some (h.tables.getD Y.Rows [])[k] :=
    List.getElem?_eq_getElem hklen
  have hmem := List.getElem_mem hklen
  have ha := elems_of_allocated h Y hA _ hmem
  have hc := (hrows _ hmem).1
  have hn' : (h.tables.getD Y.Rows [])[k].NumCols = n := by
    have := mymatrix.numcols_of_getElem_some (view h Y) hW.1 k _ (view_rows_getElem h Y k _ hpr)
    rw [this] at hn
    exact Except.ok.inj hn
  have hjlen : j < (h.elems.getD (h.tables.getD Y.Rows [])[k].Cols []).length := by omega
  refine ⟨_, at_assign_ok_store h Y k j _ _ _ v ht hN hpr ha hc hjlen, ?_⟩
  generalize htab : h.tables.getD Y.Rows [] = table at *
  generalize harr : h.elems.getD table[k].Cols [] = arr at *
  generalize hh' : ({ h with elems := h.elems.set table[k].Cols (arr.set j v) } : Heap T) = h'
  have htt : h'.tables = h.tables := by subst hh'; rfl
  have hel : h'.elems.length = h.elems.length := by subst hh'; simp
  have hlen : ∀ a : Nat, (h'.elems.getD a []).length = (h.elems.getD a []).length := by
    intro a
    subst hh'
    by_cases hae : table[k].Cols = a
    · subst hae
      show ((h.elems.set table[k].Cols (arr.set j v)).getD table[k].Cols []).length = _
      rw [getD_set_self _ _ _ _ (lt_length_of_getElem_some _ _ _ ha), harr, List.length_set]
    · show ((h.elems.set table[k].Cols (arr.set j v)).getD a []).length = _
      rw [getD_set_of_ne _ _ _ _ _ hae]
  have hAl : ∀ Z : Obj, Allocated h Z → Allocated h' Z := by
    rintro Z ⟨hZ1, hZ2⟩
    refine ⟨by rw [htt]; exact hZ1, ?_⟩
    intro pz hpz
    rw [htt] at hpz
    rw [hel]; exact hZ2 pz hpz
  have hW' : (view h' Y).WellFormed := by
    apply wellFormed_of_store
    · rw [htt, htab]; exact hN
    · exact hN1
    · intro pr hprm
      rw [htt, htab] at hprm
      rw [hlen]
      exact hrows pr hprm
  refine ⟨⟨hAl Y hA, hW'⟩, ?_, ?_⟩
  · have hrow : (view h' Y).Rows[k]? = some ⟨h'.elems.getD table[k].Cols [], table[k].NumCols⟩ :=
      view_rows_getElem h' Y k _ (by rw [htt, htab]; exact hpr)
    apply mymatrix.at_value_of_getElem_some (view h' Y) hW'.1 k j _ v hrow
    · show table[k].NumCols = ((h'.elems.getD table[k].Cols []).length : Int)
      rw [hlen, harr]; exact hc
    · show (h'.elems.getD table[k].Cols [])[j]? = some v
      subst hh'
      show ((h.elems.set table[k].Cols (arr.set j v)).getD table[k].Cols [])[j]? = some v
      rw [getD_set_self _ _ _ _ (lt_length_of_getElem_some _ _ _ ha)]
      simp [List.getElem?_set, hjlen]
  · rintro X ⟨hAX, hAY, hne, hdisj⟩
    refine ⟨⟨hAl X hAX, hAl Y hAY, hne, by rw [htt]; exact hdisj⟩, ?_⟩
    apply view_congr _ _ _ (by rw [htt])
    intro px hpx
    subst hh'
    have hd := hdisj px hpx table[k] (by rw [htab]; exact hmem)
    exact getD_set_of_ne _ _ _ _ _ (Ne.symm hd)

theorem IncreaseRowElements_frame [Inhabited T] (h : Heap T) (Y : Obj) (hG : Good h Y)
    (R C : Int) (hR : Y.NumRows < R) (hC : 1 ≤ C) :
    ∃ Y' h', IncreaseRowElements h Y R C = .ok (Y', h') ∧ Good h' Y' ∧ Y'.NumRows = R ∧
      ∀ X, Separate h X Y → Separate h' X Y' ∧ view h' X = view h X := by
  obtain ⟨hA, hW⟩ := hG
  obtain ⟨hN, hN1, hrows⟩ := wellFormed_store h Y hW
  have ht := table_of_allocated h Y hA
  have hA2 := hA.2
  generalize htab : h.tables.getD Y.Rows [] = table at *
  obtain ⟨acc, hacc, hlen, ⟨extra, hextra⟩, hent⟩ := foldlM_range_inv
    (IncreaseRowElements.body h Y C)
    (fun k acc => acc.1.length = k ∧ (∃ extra, acc.2 = h.elems ++ extra) ∧
      ∀ pr ∈ acc.1, (pr.Cols < acc.2.length ∧
        pr.NumCols = ((acc.2.getD pr.Cols []).length : Int) ∧ 1 ≤ pr.NumCols) ∧
        (pr ∈ table ∨ h.elems.length ≤ pr.Cols))
    R.toNat ([], h.elems) ⟨rfl, ⟨[], by simp⟩, fun pr hpr => by cases hpr⟩ (by
      rintro k ⟨rows, elems⟩ hk ⟨hlen, ⟨extra, hextra⟩, hent⟩
      simp only at hlen hextra hent
      subst hextra
      unfold IncreaseRowElements.body
      by_cases hlt : (k : Int) < Y.NumRows
      · have hklen : k < table.length := by omega
        have hpr : table[k]? = some table[k] := List.getElem?_eq_getElem hklen
        have hmem := List.getElem_mem hklen
        rw [if_pos hlt]
        simp only [subscript_getElem_some _ _ _ ht, subscript_getElem_some _ _ _ hpr, bind,
          Except.bind]
        refine ⟨_, rfl, by simp [hlen], ⟨extra, rfl⟩, ?_⟩
        intro pr hprm
        simp only [List.mem_append, List.mem_singleton] at hprm
        rcases hprm with h1 | h1
        · exact hent pr h1
        · have hpe : pr = table[k] := h1
          subst hpe
          have hal := hA2 _ hmem
          refine ⟨⟨by simp; omega, ?_, (hrows _ hmem).2⟩, Or.inl hmem⟩
          rw [getD_append_of_lt _ _ _ _ hal]
          exact (hrows _ hmem).1
      · rw [if_neg hlt]
        refine ⟨_, rfl, by simp [hlen],
          ⟨extra ++ [(List.range C.toNat).map fun (_ : Nat) => (default : T)], by simp⟩, ?_⟩
        intro pr hprm
        simp only [List.mem_append, List.mem_singleton] at hprm
        rcases hprm with h1 | h1
        · obtain ⟨⟨ha, hb, hc⟩, hd⟩ := hent pr h1
          refine ⟨⟨by simp at ha ⊢; omega, ?_, hc⟩, hd⟩
          rw [getD_append_of_lt _ _ _ _ ha]
          exact hb
        · subst h1
          refine ⟨⟨by simp, ?_, hC⟩, by simp⟩
          show C = _
          rw [List.getD_eq_getElem?_getD, List.getElem?_append_right (le_refl _)]
          simp
          omega)
  refine ⟨_, _, by unfold IncreaseRowElements; rw [hacc]; rfl, ?_⟩
  generalize hh' : ({ elems := acc.2, tables := h.tables ++ [acc.1] } : Heap T) = h'
  generalize hY' : ({ Rows := h.tables.length, NumRows := R
                      NumElements :=
                        wrapInt (Y.NumElements + wrapInt (wrapInt (R - Y.NumRows) * C)) }
                    : Obj) = Y'
  have hY'R : Y'.Rows = h.tables.length := by subst hY'; rfl
  have hY'N : Y'.NumRows = R := by subst hY'; rfl
  have hta : h'.tables.getD Y'.Rows [] = acc.1 := by
    subst hh'
    rw [hY'R]
    show (h.tables ++ [acc.1]).getD h.tables.length [] = _
    rw [List.getD_eq_getElem?_getD, List.getElem?_append_right (le_refl _)]
    simp
  have htb : ∀ a : Nat, a < h.tables.length → h'.tables.getD a [] = h.tables.getD a [] := by
    intro a hlt; subst hh'; exact getD_append_of_lt _ _ _ _ hlt
  have hea : ∀ a : Nat, a < h.elems.length → h'.elems.getD a [] = h.elems.getD a [] := by
    intro a hlt; subst hh'
    show acc.2.getD a [] = _
    rw [hextra]; exact getD_append_of_lt _ _ _ _ hlt
  have hel : h.elems.length ≤ h'.elems.length := by
    subst hh'; show _ ≤ acc.2.length; rw [hextra]; simp
  have hee : h'.elems = acc.2 := by subst hh'; rfl
  have htl : h'.tables.length = h.tables.length + 1 := by subst hh'; simp
  have hAY' : Allocated h' Y' := by
    refine ⟨by rw [hY'R, htl]; omega, ?_⟩
    intro pr hprm
    rw [hta] at hprm
    rw [hee]; exact (hent pr hprm).1.1
  refine ⟨⟨hAY', ?_⟩, hY'N, ?_⟩
  · apply wellFormed_of_store
    · rw [hta, hY'N, hlen]; omega
    · rw [hY'N]; omega
    · intro pr hprm
      rw [hta] at hprm
      rw [hee]
      exact ⟨(hent pr hprm).1.2.1, (hent pr hprm).1.2.2⟩
  · rintro X ⟨hAX, -, hne, hdisj⟩
    have hXt : h'.tables.getD X.Rows [] = h.tables.getD X.Rows [] := htb _ hAX.1
    refine ⟨⟨⟨by rw [htl]; have := hAX.1; omega, ?_⟩, hAY', ?_, ?_⟩, ?_⟩
    · intro px hpx
      rw [hXt] at hpx
      have := hAX.2 px hpx; omega
    · rw [hY'R]; have := hAX.1; omega
    · intro px hpx py hpy
      rw [hXt] at hpx
      rw [hta] at hpy
      rcases (hent py hpy).2 with h1 | h1
      · exact hdisj px hpx py (by rw [htab]; exact h1)
      · have := hAX.2 px hpx; omega
    · apply view_congr _ _ _ hXt
      intro px hpx
      exact hea _ (hAX.2 px hpx)

theorem grow_body_frame [Inhabited T] (h : Heap T) (Y : Obj) (hG : Good h Y)
    (k : Nat) (hk : (k : Int) < Y.NumRows) (C : Int) (hC : 1 ≤ C) :
    ∃ Y' h', grow.body C (Y, h) k = .ok (Y', h') ∧ Good h' Y' ∧
      Y'.NumRows = Y.NumRows ∧
      ∀ X, Separate h X Y → Separate h' X Y' ∧ view h' X = view h X := by
  obtain ⟨hN, hN1, hrows⟩ := wellFormed_store h Y hG.2
  have ht := table_of_allocated h Y hG.1
  have hklen : k < (h.tables.getD Y.Rows []).length := by omega
  have hpr : (h.tables.getD Y.Rows [])[k]? = some (h.tables.getD Y.Rows [])[k] :=
    List.getElem?_eq_getElem hklen
  by_cases hlt : (h.tables.getD Y.Rows [])[k].NumCols < C
  · obtain ⟨Y', h', hok, hG', hN', -, hX⟩ := IncreaseColumnElements_frame h Y hG k hk C hC
    refine ⟨Y', h', ?_, hG', hN', hX⟩
    unfold grow.body
    simp only [subscript_getElem_some _ _ _ ht, subscript_getElem_some _ _ _ hpr, bind,
      Except.bind, if_pos hlt]
    exact hok
  · refine ⟨Y, h, ?_, hG, rfl, fun X hS => ⟨hS, rfl⟩⟩
    unfold grow.body
    simp only [subscript_getElem_some _ _ _ ht, subscript_getElem_some _ _ _ hpr, bind,
      Except.bind, if_neg hlt]
    rfl

theorem grow_loop_frame [Inhabited T] (h : Heap T) (Y : Obj) (hG : Good h Y) (C : Int)
    (hC : 1 ≤ C) :
    ∃ Y' h', (List.range Y.NumRows.toNat).foldlM (grow.body C) (Y, h) = .ok (Y', h') ∧
      Good h' Y' ∧ Y'.NumRows = Y.NumRows ∧
      ∀ X, Separate h X Y → Separate h' X Y' ∧ view h' X = view h X := by
  obtain ⟨s, hs, hG', hN', hX⟩ := foldlM_range_inv (grow.body C)
    (fun _ s => Good s.2 s.1 ∧ s.1.NumRows = Y.NumRows ∧
      ∀ X, Separate h X Y → Separate s.2 X s.1 ∧ view s.2 X = view h X)
    Y.NumRows.toNat (Y, h) ⟨hG, rfl, fun X hS => ⟨hS, rfl⟩⟩ (by
      rintro k ⟨Y1, h1⟩ hk ⟨hG1, hN1, hX1⟩
      simp only at hG1 hN1 hX1
      obtain ⟨Y2, h2, hok, hG2, hN2, hX2⟩ :=
        grow_body_frame h1 Y1 hG1 k (by omega) C hC
      refine ⟨(Y2, h2), hok, hG2, by rw [hN2, hN1], ?_⟩
      intro X hS
      obtain ⟨hS1, hv1⟩ := hX1 X hS
      obtain ⟨hS2, hv2⟩ := hX2 X hS1
      exact ⟨hS2, hv2.trans hv1⟩)
  exact ⟨s.1, s.2, hs, hG', hN', hX⟩

/-- `grow` on `Y` returns normally, leaves every object that shares no storage with `Y`
as it was, keeps the two separate, and keeps `Y` good. -/
theorem grow_frame [Inhabited T] (h : Heap T) (Y : Obj) (hG : Good h Y) (R C : Int)
    (hR : 1 ≤ R) (hC : 1 ≤ C) :
    ∃ Y' h', grow h Y R C = .ok (Y', h') ∧ Good h' Y' ∧
      ∀ X, Separate h X Y → Separate h' X Y' ∧ view h' X = view h X := by
  have h1 : ¬ (R < 1) := by omega
  have h2 : ¬ (C < 1) := by omega
  by_cases hlt : Y.NumRows < R
  · obtain ⟨Y1, h1', hok1, hG1, -, hX1⟩ := IncreaseRowElements_frame h Y hG R C hlt hC
    obtain ⟨Y2, h2', hok2, hG2, -, hX2⟩ := grow_loop_frame h1' Y1 hG1 C hC
    refine ⟨Y2, h2', ?_, hG2, ?_⟩
    · unfold grow
      rw [if_neg h1, if_neg h2, if_pos hlt, hok1]
      exact hok2
    · intro X hS
      obtain ⟨hS1, hv1⟩ := hX1 X hS
      obtain ⟨hS2, hv2⟩ := hX2 X hS1
      exact ⟨hS2, hv2.trans hv1⟩
  · obtain ⟨Y2, h2', hok2, hG2, -, hX2⟩ := grow_loop_frame h Y hG C hC
    refine ⟨Y2, h2', ?_, hG2, hX2⟩
    unfold grow
    rw [if_neg h1, if_neg h2, if_neg hlt]
    exact hok2

theorem ctor_copy_body_ok (h : Heap T) (M : Obj) (table : List ROW)
    (ht : h.tables[M.Rows]? = some table) (k : Nat) (pr : ROW) (hk : table[k]? = some pr)
    (rows : List ROW) (elems : List (List T)) (arr : List T)
    (ha : elems[pr.Cols]? = some arr) (hc : pr.NumCols = (arr.length : Int)) :
    ctor_copy.body h M (rows, elems) k =
      .ok (rows ++ [⟨elems.length, pr.NumCols⟩], elems ++ [arr]) := by
  have hn : pr.NumCols.toNat = arr.length := by omega
  have hmap : (List.range pr.NumCols.toNat).mapM (fun (col : Nat) => do
      let src ← subscript elems (pr.Cols : Int)
      subscript src (col : Int)) = .ok arr := by
    rw [hn]
    refine mapM_ok_of_map_some _ (fun j => arr[j]?) ?_ _ _ (map_getElem_opt_range arr)
    intro j y hj
    simp only [subscript_getElem_some _ _ _ ha, bind, Except.bind]
    exact subscript_getElem_some arr j y hj
  unfold ctor_copy.body
  simp only [subscript_getElem_some _ _ _ ht, subscript_getElem_some _ _ _ hk, bind,
    Except.bind] at hmap ⊢
  rw [hmap]
  rfl

/-- The copy constructor returns normally; the copy denotes the same matrix as its source,
shares no storage with it, and no object of the store is changed. -/
theorem ctor_copy_separate (h : Heap T) (M : Obj) (hG : Good h M) :
    ∃ N h1, ctor_copy h M = .ok (N, h1) ∧ view h1 N = view h M ∧ Good h1 N ∧
      Separate h1 M N ∧ ∀ X, Allocated h X → Allocated h1 X ∧ view h1 X = view h X := by
  obtain ⟨hA, hW⟩ := hG
  obtain ⟨hN, hN1, hrows⟩ := wellFormed_store h M hW
  have ht := table_of_allocated h M hA
  have hA2 := hA.2
  generalize htab : h.tables.getD M.Rows [] = table at *
  obtain ⟨acc, hacc, hlen1, hlen2, ⟨extra, hextra⟩, hent⟩ := foldlM_range_inv
    (ctor_copy.body h M)
    (fun k acc => acc.1.length = k ∧ acc.2.length = h.elems.length + k ∧
      (∃ extra, acc.2 = h.elems ++ extra) ∧
      ∀ (i : Nat) (pr : ROW), i < k → table[i]? = some pr →
        acc.1[i]? = some ⟨h.elems.length + i, pr.NumCols⟩ ∧
        acc.2.getD (h.elems.length + i) [] = h.elems.getD pr.Cols [])
    M.NumRows.toNat ([], h.elems) ⟨rfl, rfl, ⟨[], by simp⟩, fun i pr hi => by omega⟩ (by
      rintro k ⟨rows, elems⟩ hk ⟨hlen1, hlen2, ⟨extra, hextra⟩, hent⟩
      simp only at hlen1 hlen2 hextra hent
      have hklen : k < table.length := by omega
      have hpr : table[k]? = some table[k] := List.getElem?_eq_getElem hklen
      have hmem := List.getElem_mem hklen
      have hal := hA2 _ hmem
      have ha : elems[table[k].Cols]? = some (h.elems.getD table[k].Cols []) := by
        rw [hextra, List.getElem?_append_left hal, List.getD_eq_getElem?_getD,
          List.getElem?_eq_getElem hal]
        rfl
      refine ⟨_, ctor_copy_body_ok h M table ht k _ hpr rows elems _ ha (hrows _ hmem).1,
        by simp [hlen1], by simp [hlen2]; omega,
        ⟨extra ++ [h.elems.getD table[k].Cols []], by simp [hextra]⟩, ?_⟩
      intro i pr hi hip
      rcases Nat.lt_succ_iff_lt_or_eq.mp hi with hlt | heq
      · obtain ⟨h1, h2⟩ := hent i pr hlt hip
        refine ⟨?_, ?_⟩
        · show (rows ++ _)[i]? = _
          rw [List.getElem?_append_left (by omega)]; exact h1
        · show (elems ++ _).getD _ [] = _
          rw [getD_append_of_lt _ _ _ _ (by omega)]; exact h2
      · subst heq
        rw [hpr] at hip
        cases hip
        refine ⟨?_, ?_⟩
        · show (rows ++ _)[i]? = _
          rw [List.getElem?_append_right (by omega)]
          simp [hlen1, hlen2]
        · show (elems ++ _).getD _ [] = _
          rw [List.getD_eq_getElem?_getD, List.getElem?_append_right (by omega)]
          simp [hlen2])
  refine ⟨_, _, by unfold ctor_copy; rw [hacc]; rfl, ?_⟩
  generalize hh' : ({ elems := acc.2, tables := h.tables ++ [acc.1] } : Heap T) = h'
  generalize hY' : ({ Rows := h.tables.length, NumRows := M.NumRows
                      NumElements := M.NumElements } : Obj) = N
  have hNR : N.Rows = h.tables.length := by subst hY'; rfl
  have hNN : N.NumRows = M.NumRows := by subst hY'; rfl
  have hNE : N.NumElements = M.NumElements := by subst hY'; rfl
  have hta : h'.tables.getD N.Rows [] = acc.1 := by
    subst hh'
    rw [hNR]
    show (h.tables ++ [acc.1]).getD h.tables.length [] = _
    rw [List.getD_eq_getElem?_getD, List.getElem?_append_right (le_refl _)]
    simp
  have htb : ∀ a : Nat, a < h.tables.length → h'.tables.getD a [] = h.tables.getD a [] := by
    intro a hlt; subst hh'; exact getD_append_of_lt _ _ _ _ hlt
  have hea : ∀ a : Nat, a < h.elems.length → h'.elems.getD a [] = h.elems.getD a [] := by
    intro a hlt; subst hh'
    show acc.2.getD a [] = _
    rw [hextra]; exact getD_append_of_lt _ _ _ _ hlt
  have hee : h'.elems = acc.2 := by subst hh'; rfl
  have htl : h'.tables.length = h.tables.length + 1 := by subst hh'; simp
  have hn : M.NumRows.toNat = table.length := by omega
  have hentry : ∀ py ∈ acc.1, ∃ i pr, table[i]? = some pr ∧
      py = ⟨h.elems.length + i, pr.NumCols⟩ ∧
      acc.2.getD (h.elems.length + i) [] = h.elems.getD pr.Cols [] ∧ i < table.length := by
    intro py hpy
    obtain ⟨i, hi⟩ := List.mem_iff_getElem?.mp hpy
    have hilt : i < table.length := by
      have := lt_length_of_getElem_some _ _ _ hi; omega
    obtain ⟨h1, h2⟩ := hent i table[i] (by omega) (List.getElem?_eq_getElem hilt)
    rw [hi] at h1
    exact ⟨i, table[i], List.getElem?_eq_getElem hilt, Option.some.inj h1, h2, hilt⟩
  have hframe : ∀ X, Allocated h X → Allocated h' X ∧ view h' X = view h X := by
    intro X hAX
    have hXt : h'.tables.getD X.Rows [] = h.tables.getD X.Rows [] := htb _ hAX.1
    refine ⟨⟨by rw [htl]; have := hAX.1; omega, ?_⟩, ?_⟩
    · intro px hpx
      rw [hXt] at hpx
      have := hAX.2 px hpx
      rw [hee, hlen2]; omega
    · apply view_congr _ _ _ hXt
      intro px hpx
      exact hea _ (hAX.2 px hpx)
  have hAM : Allocated h M := ⟨hA.1, by rw [htab]; exact hA2⟩
  have hAN : Allocated h' N := by
    refine ⟨by rw [hNR, htl]; omega, ?_⟩
    intro py hpy
    rw [hta] at hpy
    obtain ⟨i, pr, -, rfl, -, hilt⟩ := hentry py hpy
    rw [hee, hlen2]
    show h.elems.length + i < _
    omega
  have hview : view h' N = view h M := by
    unfold view
    rw [hta, htab, hNN, hNE, hee]
    congr 1
    apply List.ext_getElem?
    intro i
    rw [List.getElem?_map, List.getElem?_map]
    by_cases hilt : i < table.length
    · obtain ⟨h1, h2⟩ := hent i table[i] (by omega) (List.getElem?_eq_getElem hilt)
      rw [h1, List.getElem?_eq_getElem hilt]
      simp only [Option.map_some', h2]
    · rw [List.getElem?_eq_none (by omega), List.getElem?_eq_none (by omega)]
      rfl
  refine ⟨hview, ⟨hAN, by rw [hview]; exact hW⟩, ⟨(hframe M hAM).1, hAN, ?_, ?_⟩, hframe⟩
  · rw [hNR]; have := hA.1; omega
  · intro px hpx py hpy
    rw [htb _ hA.1, htab] at hpx
    rw [hta] at hpy
    obtain ⟨i, pr, -, rfl, -, -⟩ := hentry py hpy
    have := hA2 px hpx
    show px.Cols ≠ h.elems.length + i
    omega

theorem Separate.symm (h : Heap T) (X Y : Obj) (hS : Separate h X Y) : Separate h Y X := by
  obtain ⟨hX, hY, hne, hd⟩ := hS
  exact ⟨hY, hX, Ne.symm hne, fun py hpy px hpx => Ne.symm (hd px hpx py hpy)⟩

/-- Claim C11: the copy constructor applied to a matrix `M` of the store returns a copy `N`
that denotes the same matrix and shares no storage with `M`.  Hence a write of any value
at a valid position of one of them (after which a read there gives that value), a
`growcols` on a valid row with `C >= 1`, and a `grow` with `R, C >= 1` all return normally
and leave every element, the shape and the size of the other one unchanged. -/
theorem copy_independence [Inhabited T] (h : Heap T) (M : Obj) (hG : Good h M) :
    ∃ N h1, ctor_copy h M = .ok (N, h1) ∧ view h1 N = view h M ∧ view h1 M = view h M ∧
      (∀ (r c n : Int) (v : T), 0 ≤ r → r < (view h1 N).numrows →
        (view h1 N).numcols r = .ok n → 0 ≤ c → c < n →
        ∃ h2, at_assign h1 N r c v = .ok h2 ∧ (view h2 N).at_value r c = .ok v ∧
          view h2 M = view h1 M) ∧
      (∀ (r c n : Int) (v : T), 0 ≤ r → r < (view h1 M).numrows →
        (view h1 M).numcols r = .ok n → 0 ≤ c → c < n →
        ∃ h2, at_assign h1 M r c v = .ok h2 ∧ (view h2 M).at_value r c = .ok v ∧
          view h2 N = view h1 N) ∧
      (∀ r C : Int, 0 ≤ r → r < (view h1 N).numrows → 1 ≤ C →
        ∃ N' h2, growcols h1 N r C = .ok (N', h2) ∧ view h2 M = view h1 M) ∧
      (∀ r C : Int, 0 ≤ r → r < (view h1 M).numrows → 1 ≤ C →
        ∃ M' h2, growcols h1 M r C = .ok (M', h2) ∧ view h2 N = view h1 N) ∧
      (∀ R C : Int, 1 ≤ R → 1 ≤ C →
        ∃ N' h2, grow h1 N R C = .ok (N', h2) ∧ view h2 M = view h1 M) ∧
      (∀ R C : Int, 1 ≤ R → 1 ≤ C →
        ∃ M' h2, grow h1 M R C = .ok (M', h2) ∧ view h2 N = view h1 N) := by
  obtain ⟨N, h1, hcopy, hview, hGN, hS, hframe⟩ := ctor_copy_separate h M hG
  obtain ⟨hAM1, hvM⟩ := hframe M hG.1
  have hGM : Good h1 M := ⟨hAM1, by rw [hvM]; exact hG.2⟩
  have hS' := Separate.symm h1 M N hS
  refine ⟨N, h1, hcopy, hview, hvM, ?_, ?_, ?_, ?_, ?_, ?_⟩
  · intro r c n v hr0 hr1 hn hc0 hc1
    obtain ⟨k, rfl⟩ := Int.eq_ofNat_of_zero_le hr0
    obtain ⟨j, rfl⟩ := Int.eq_ofNat_of_zero_le hc0
    obtain ⟨h2, hok, -, hval, hX⟩ := at_assign_frame h1 N hGN k j hr1 n hn hc1 v
    exact ⟨h2, hok, hval, (hX M hS).2⟩
  · intro r c n v hr0 hr1 hn hc0 hc1
    obtain ⟨k, rfl⟩ := Int.eq_ofNat_of_zero_le hr0
    obtain ⟨j, rfl⟩ := Int.eq_ofNat_of_zero_le hc0
    obtain ⟨h2, hok, -, hval, hX⟩ := at_assign_frame h1 M hGM k j hr1 n hn hc1 v
    exact ⟨h2, hok, hval, (hX N hS').2⟩
  · intro r C hr0 hr1 hC
    obtain ⟨k, rfl⟩ := Int.eq_ofNat_of_zero_le hr0
    obtain ⟨N', h2, hok, -, -, -, hX⟩ := growcols_frame h1 N hGN k hr1 C hC
    exact ⟨N', h2, hok, (hX M hS).2⟩
  · intro r C hr0 hr1 hC
    obtain ⟨k, rfl⟩ := Int.eq_ofNat_of_zero_le hr0
    obtain ⟨M', h2, hok, -, -, -, hX⟩ := growcols_frame h1 M hGM k hr1 C hC
    exact ⟨M', h2, hok, (hX N hS').2⟩
  · intro R C hR hC
    obtain ⟨N', h2, hok, -, hX⟩ := grow_frame h1 N hGN R C hR hC
    exact ⟨N', h2, hok, (hX M hS).2⟩
  · intro R C hR hC
    obtain ⟨M', h2, hok, -, hX⟩ := grow_frame h1 M hGM R C hR hC
    exact ⟨M', h2, hok, (hX N hS').2⟩

theorem copy_independence_witness :
    Good example_heap example_obj ∧
    ∃ N h1, ctor_copy example_heap example_obj = .ok (N, h1) ∧
      view h1 N = view example_heap example_obj ∧
      view h1 example_obj = view example_heap example_obj ∧
      (∀ (r c n : Int) (v : Int), 0 ≤ r → r < (view h1 N).numrows →
        (view h1 N).numcols r = .ok n → 0 ≤ c → c < n →
        ∃ h2, at_assign h1 N r c v = .ok h2 ∧ (view h2 N).at_value r c = .ok v ∧
          view h2 example_obj = view h1 example_obj) :=
  ⟨by decide,
    (copy_independence example_heap example_obj (by decide)).imp fun _ hN =>
      hN.imp fun _ hh => ⟨hh.1, hh.2.1, hh.2.2.1, hh.2.2.2.1⟩⟩

/-! The free store: neither multiplication writes to storage that existed before -/

theorem allocated_congr (h : Heap T) (Y Y' : Obj) (hR : Y'.Rows = Y.Rows)
    (hA : Allocated h Y) : Allocated h Y' := by
  unfold Allocated at *
  rw [hR]; exact hA

theorem good_congr (h : Heap T) (Y Y' : Obj) (hR : Y'.Rows = Y.Rows)
    (hN : Y'.NumRows = Y.NumRows) (hG : Good h Y) : Good h Y' := by
  obtain ⟨hA, hW⟩ := hG
  obtain ⟨h1, h2, h3⟩ := wellFormed_store h Y hW
  refine ⟨allocated_congr h Y Y' hR hA, wellFormed_of_store h Y' ?_ ?_ ?_⟩
  · rw [hR, hN]; exact h1
  · rw [hN]; exact h2
  · rw [hR]; exact h3

theorem separate_congr (h : Heap T) (X Y Y' : Obj) (hR : Y'.Rows = Y.Rows)
    (hS : Separate h X Y) : Separate h X Y' := by
  obtain ⟨hX, hY, hne, hd⟩ := hS
  refine ⟨hX, allocated_congr h Y Y' hR hY, by rw [hR]; exact hne, ?_⟩
  rw [hR]; exact hd

/-- Pointing row `k` of `Y` to a fresh array leaves every object that shares no storage
with `Y` as it was, keeps the two separate, and keeps `Y` good. -/
theorem set_row_frame (h h' : Heap T) (Y : Obj) (hG : Good h Y) (k : Nat)
    (newArray : List T) (n : Int)
    (hn : n = (newArray.length : Int)) (hn1 : 1 ≤ n)
    (hh' : h' = { elems := h.elems ++ [newArray]
                  tables := h.tables.set Y.Rows
                    ((h.tables.getD Y.Rows []).set k ⟨h.elems.length, n⟩) }) :
    Good h' Y ∧ ∀ X, Separate h X Y → Separate h' X Y ∧ view h' X = view h X := by
  obtain ⟨hA, hW⟩ := hG
  obtain ⟨hN, hN1, hrows⟩ := wellFormed_store h Y hW
  have hA2 := hA.2
  generalize htab : h.tables.getD Y.Rows [] = table at *
  have hta : h'.tables.getD Y.Rows [] = table.set k ⟨h.elems.length, n⟩ := by
    subst hh'; exact getD_set_self _ _ _ _ hA.1
  have htb : ∀ a : Nat, a ≠ Y.Rows → h'.tables.getD a [] = h.tables.getD a [] := by
    intro a hne; subst hh'; exact getD_set_of_ne _ _ _ _ _ (Ne.symm hne)
  have hea : ∀ a : Nat, a < h.elems.length → h'.elems.getD a [] = h.elems.getD a [] := by
    intro a hlt; subst hh'; exact getD_append_of_lt _ _ _ _ hlt
  have heb : h'.elems.getD h.elems.length [] = newArray := by
    subst hh'
    show (h.elems ++ [newArray]).getD h.elems.length [] = newArray
    rw [List.getD_eq_getElem?_getD, List.getElem?_append_right (le_refl _)]
    simp
  have hel : h'.elems.length = h.elems.length + 1 := by subst hh'; simp
  have htl : h'.tables.length = h.tables.length := by subst hh'; simp
  have hAY' : Allocated h' Y := by
    refine ⟨by rw [htl]; exact hA.1, ?_⟩
    intro pr hprm
    rw [hta] at hprm
    rcases List.mem_or_eq_of_mem_set hprm with h1 | h1
    · have := hA2 pr h1; omega
    · subst h1; show h.elems.length < _; omega
  refine ⟨⟨hAY', ?_⟩, ?_⟩
  · apply wellFormed_of_store
    · rw [hta, List.length_set]; exact hN
    · exact hN1
    · intro pr hprm
      rw [hta] at hprm
      rcases List.mem_or_eq_of_mem_set hprm with h1 | h1
      · rw [hea _ (hA2 pr h1)]
        exact hrows pr h1
      · subst h1
        refine ⟨?_, hn1⟩
        show n = _
        rw [heb]; exact hn
  · rintro X ⟨hAX, -, hne, hdisj⟩
    have hXt : h'.tables.getD X.Rows [] = h.tables.getD X.Rows [] := htb _ hne
    refine ⟨⟨⟨by rw [htl]; exact hAX.1, ?_⟩, hAY', hne, ?_⟩, ?_⟩
    · intro px hpx
      rw [hXt] at hpx
      have := hAX.2 px hpx; omega
    · intro px hpx py hpy
      rw [hXt] at hpx
      rw [hta] at hpy
      rcases List.mem_or_eq_of_mem_set hpy with h1 | h1
      · exact hdisj px hpx py (by rw [htab]; exact h1)
      · subst h1
        have := hAX.2 px hpx
        show px.Cols ≠ h.elems.length
        omega
    · apply view_congr _ _ _ hXt
      intro px hpx
      exact hea _ (hAX.2 px hpx)

/-- The parameterized constructor with `R, C >= 1` returns normally a good object whose
rows all have `C` columns, shares no storage with any object of the store, and changes
none of them. -/
theorem ctor_frame [Inhabited T] (h : Heap T) (R C : Int) (hR : 1 ≤ R) (hC : 1 ≤ C) :
    ∃ P h1, ctor h R C = .ok (P, h1) ∧ Good h1 P ∧ P.NumRows = R ∧
      (∀ pr ∈ h1.tables.getD P.Rows [], pr.NumCols = C) ∧
      ∀ X, Allocated h X → Separate h1 X P ∧ view h1 X = view h X := by
  have h1 : ¬ (R < 1) := by omega
  have h2 : ¬ (C < 1) := by omega
  have hinv : ∀ n : Nat,
      ((List.range n).foldl (ctor.body C) (([] : List ROW), h.elems)).1.length = n ∧
      (∃ extra, ((List.range n).foldl (ctor.body C) (([] : List ROW), h.elems)).2
        = h.elems ++ extra) ∧
      ∀ pr ∈ ((List.range n).foldl (ctor.body C) (([] : List ROW), h.elems)).1,
        pr.NumCols = C ∧ h.elems.length ≤ pr.Cols ∧
        pr.Cols < ((List.range n).foldl (ctor.body C) (([] : List ROW), h.elems)).2.length ∧
        C = ((((List.range n).foldl (ctor.body C) (([] : List ROW), h.elems)).2.getD
          pr.Cols []).length : Int) := by
    intro n
    induction n with
    | zero => exact ⟨rfl, ⟨[], by simp⟩, fun pr hpr => by cases hpr⟩
    | succ n ih =>
      rw [List.range_succ, List.foldl_append]
      generalize (List.range n).foldl (ctor.body C) (([] : List ROW), h.elems) = acc at ih
      obtain ⟨hl, ⟨extra, hextra⟩, hent⟩ := ih
      simp only [List.foldl_cons, List.foldl_nil, ctor.body]
      refine ⟨by simp [hl],
        ⟨extra ++ [(List.range C.toNat).map fun (_ : Nat) => (default : T)],
          by simp [hextra]⟩, ?_⟩
      intro pr hprm
      simp only [List.mem_append, List.mem_singleton] at hprm
      rcases hprm with h1 | h1
      · obtain ⟨ha, hb, hc, hd⟩ := hent pr h1
        refine ⟨ha, hb, by simp; omega, ?_⟩
        rw [getD_append_of_lt _ _ _ _ hc]; exact hd
      · subst h1
        refine ⟨rfl, by rw [hextra]; simp, by simp, ?_⟩
        show C = _
        rw [List.getD_eq_getElem?_getD, List.getElem?_append_right (le_refl _)]
        simp
        omega
  have hi := hinv R.toNat
  generalize hacc : (List.range R.toNat).foldl (ctor.body C) (([] : List ROW), h.elems) = acc
    at hi
  obtain ⟨hl, ⟨extra, hextra⟩, hent⟩ := hi
  have hok : ctor h R C = .ok
      (({ Rows := h.tables.length, NumRows := R, NumElements := wrapInt (R * C) } : Obj),
       ({ elems := acc.2, tables := h.tables ++ [acc.1] } : Heap T)) := by
    unfold ctor
    rw [if_neg h1, if_neg h2]
    simp only [hacc]
    rfl
  refine ⟨_, _, hok, ?_⟩
  generalize hh' : ({ elems := acc.2, tables := h.tables ++ [acc.1] } : Heap T) = h'
  generalize hP : ({ Rows := h.tables.length, NumRows := R, NumElements := wrapInt (R * C) }
    : Obj) = P
  have hPR : P.Rows = h.tables.length := by subst hP; rfl
  have hPN : P.NumRows = R := by subst hP; rfl
  have hta : h'.tables.getD P.Rows [] = acc.1 := by
    subst hh'
    rw [hPR]
    show (h.tables ++ [acc.1]).getD h.tables.length [] = _
    rw [List.getD_eq_getElem?_getD, List.getElem?_append_right (le_refl _)]
    simp
  have htb : ∀ a : Nat, a < h.tables.length → h'.tables.getD a [] = h.tables.getD a [] := by
    intro a hlt; subst hh'; exact getD_append_of_lt _ _ _ _ hlt
  have hea : ∀ a : Nat, a < h.elems.length → h'.elems.getD a [] = h.elems.getD a [] := by
    intro a hlt; subst hh'
    show acc.2.getD a [] = _
    rw [hextra]; exact getD_append_of_lt _ _ _ _ hlt
  have hee : h'.elems = acc.2 := by subst hh'; rfl
  have hel : h.elems.length ≤ h'.elems.length := by rw [hee, hextra]; simp
  have htl : h'.tables.length = h.tables.length + 1 := by subst hh'; simp
  have hAP : Allocated h' P := by
    refine ⟨by rw [hPR, htl]; omega, ?_⟩
    intro pr hprm
    rw [hta] at hprm
    rw [hee]; exact (hent pr hprm).2.2.1
  refine ⟨⟨hAP, ?_⟩, hPN, ?_, ?_⟩
  · apply wellFormed_of_store
    · rw [hta, hPN, hl]; omega
    · rw [hPN]; exact hR
    · intro pr hprm
      rw [hta] at hprm
      obtain ⟨ha, -, -, hd⟩ := hent pr hprm
      rw [hee, ha]
      exact ⟨hd, hC⟩
  · intro pr hprm
    rw [hta] at hprm
    exact (hent pr hprm).1
  · intro X hAX
    have hXt : h'.tables.getD X.Rows [] = h.tables.getD X.Rows [] := htb _ hAX.1
    refine ⟨⟨⟨by rw [htl]; have := hAX.1; omega, ?_⟩, hAP, ?_, ?_⟩, ?_⟩
    · intro px hpx
      rw [hXt] at hpx
      have := hAX.2 px hpx; omega
    · rw [hPR]; have := hAX.1; omega
    · intro px hpx py hpy
      rw [hXt] at hpx
      rw [hta] at hpy
      have := hAX.2 px hpx
      have := (hent py hpy).2.1
      omega
    · apply view_congr _ _ _ hXt
      intro px hpx
      exact hea _ (hAX.2 px hpx)

theorem operator_mul_scalar_body_frame [Mul T] (h : Heap T) (M result : Obj) (scalar : T)
    (hGM : Good h M) (hGR : Good h result) (hNR : result.NumRows = M.NumRows) (k : Nat)
    (hk : (k : Int) < M.NumRows) :
    ∃ h', operator_mul_scalar.body M scalar result h k = .ok h' ∧ Good h' result ∧
      ∀ X, Separate h X result → Separate h' X result ∧ view h' X = view h X := by
  obtain ⟨hN, hN1, hrows⟩ := wellFormed_store h M hGM.2
  obtain ⟨hRN, -, -⟩ := wellFormed_store h result hGR.2
  have ht := table_of_allocated h M hGM.1
  have hrt := table_of_allocated h result hGR.1
  have hklen : k < (h.tables.getD M.Rows []).length := by omega
  have hkr : k < (h.tables.getD result.Rows []).length := by omega
  have hpr : (h.tables.getD M.Rows [])[k]? = some (h.tables.getD M.Rows [])[k] :=
    List.getElem?_eq_getElem hklen
  have hmem := List.getElem_mem hklen
  have ha := elems_of_allocated h M hGM.1 _ hmem
  obtain ⟨hc, hc1⟩ := hrows _ hmem
  generalize hsrc : (h.tables.getD M.Rows [])[k] = src at *
  generalize harr : h.elems.getD src.Cols [] = arr at *
  have hn : src.NumCols.toNat = arr.length := by omega
  have hmap : (List.range src.NumCols.toNat).mapM (fun (col : Nat) => do
      let arr ← subscript h.elems (src.Cols : Int)
      let x ← subscript arr (col : Int)
      pure (x * scalar)) = .ok (arr.map fun x => x * scalar) := by
    rw [hn]
    refine mapM_ok_of_map_some _ (fun j => (arr[j]?).map fun x => x * scalar) ?_ _ _ ?_
    · intro j y hj
      dsimp only at hj
      rcases hx : arr[j]? with _ | x
      · rw [hx] at hj; cases hj
      · rw [hx] at hj
        simp only [Option.map_some', Option.some.injEq] at hj
        simp only [subscript_getElem_some _ _ _ ha, subscript_getElem_some _ _ _ hx, bind,
          Except.bind, ← hj]
        rfl
    · have := congrArg (List.map (Option.map fun x => x * scalar)) (map_getElem_opt_range arr)
      simpa [List.map_map, Function.comp_def] using this
  have hres := set_row_frame h
    { elems := h.elems ++ [arr.map fun x => x * scalar]
      tables := h.tables.set result.Rows
        ((h.tables.getD result.Rows []).set k ⟨h.elems.length, src.NumCols⟩) }
    result hGR k (arr.map fun x => x * scalar) src.NumCols (by simp [hc]) hc1 rfl
  refine ⟨_, ?_, hres⟩
  unfold operator_mul_scalar.body
  simp only [subscript_getElem_some _ _ _ ht, subscript_getElem_some _ _ _ hpr, bind,
    Except.bind] at hmap ⊢
  rw [hmap]
  simp only [subscript_getElem_some _ _ _ hrt, assign_natCast _ _ _ hkr,
    assign_natCast _ _ _ hGR.1.1]
  rfl

/-- Scalar multiplication of a good object returns normally a good object that shares no
storage with any object of the store, and changes none of them. -/
theorem operator_mul_scalar_run_frame [Inhabited T] [Mul T] (h : Heap T) (M : Obj)
    (scalar : T) (hG : Good h M) :
    ∃ P h', operator_mul_scalar.run h M scalar = .ok (P, h') ∧ Good h' P ∧
      ∀ X, Allocated h X → Separate h' X P ∧ view h' X = view h X := by
  obtain ⟨hN, hN1, hrows⟩ := wellFormed_store h M hG.2
  obtain ⟨P0, h1, hctor, hG0, hP0N, -, hX0⟩ := ctor_frame h M.NumRows 1 hN1 (le_refl 1)
  generalize hP : ({ P0 with NumRows := M.NumRows, NumElements := M.NumElements } : Obj) = P
  have hPR : P.Rows = P0.Rows := by subst hP; rfl
  have hPN : P.NumRows = M.NumRows := by subst hP; rfl
  have hG1 : Good h1 P := good_congr h1 P0 P hPR (by rw [hPN, hP0N]) hG0
  obtain ⟨h', hloop, hG', hX'⟩ := foldlM_range_inv (operator_mul_scalar.body M scalar P)
    (fun _ h' => Good h' P ∧ ∀ X, Allocated h X → Separate h' X P ∧ view h' X = view h X)
    M.NumRows.toNat h1
    ⟨hG1, fun X hAX => ⟨separate_congr h1 X P0 P hPR (hX0 X hAX).1, (hX0 X hAX).2⟩⟩ (by
      intro k h2 hk ⟨hG2, hX2⟩
      obtain ⟨hSM, hvM⟩ := hX2 M hG.1
      have hGM2 : Good h2 M := ⟨hSM.1, by rw [hvM]; exact hG.2⟩
      obtain ⟨h3, hok, hG3, hX3⟩ :=
        operator_mul_scalar_body_frame h2 M P scalar hGM2 hG2 hPN k (by omega)
      refine ⟨h3, hok, hG3, ?_⟩
      intro X hAX
      obtain ⟨hS2, hv2⟩ := hX2 X hAX
      obtain ⟨hS3, hv3⟩ := hX3 X hS2
      exact ⟨hS3, hv3.trans hv2⟩)
  refine ⟨P, h', ?_, hG', hX'⟩
  unfold operator_mul_scalar.run
  rw [hctor]
  simp only [bind, Except.bind]
  rw [hP, hloop]
  rfl

theorem subscript_map {α β : Type} (g : α → β) (xs : List α) (i : Int) :
    subscript (xs.map g) i = (subscript xs i).map g := by
  unfold subscript
  by_cases hi : i < 0
  · rw [if_pos hi, if_pos hi]; rfl
  · rw [if_neg hi, if_neg hi, List.getElem?_map]
    cases xs[i.toNat]? <;> rfl

theorem view_rows (h : Heap T) (M : Obj) :
    (view h M).Rows = (h.tables.getD M.Rows []).map fun (pr : ROW) =>
      ({ Cols := h.elems.getD pr.Cols [], NumCols := pr.NumCols } : MyMatrix.ROW T) := rfl

/-- Reading a column count through the object is reading it from the denoted matrix. -/
theorem numcols_view (h : Heap T) (M : Obj) (hA : Allocated h M) (r : Int) :
    numcols h M r = (view h M).numcols r := by
  have ht := table_of_allocated h M hA
  unfold numcols mymatrix.numcols
  show _ = if r < 0 ∨ r ≥ M.NumRows then _ else _
  by_cases hr : r < 0 ∨ r ≥ M.NumRows
  · rw [if_pos hr, if_pos hr]
  · rw [if_neg hr, if_neg hr]
    simp only [subscript_getElem_some _ _ _ ht, bind, Except.bind]
    rw [view_rows, subscript_map]
    cases subscript (h.tables.getD M.Rows []) r <;> rfl

theorem IsRectangular_loop_view (h : Heap T) (M : Obj) (hA : Allocated h M) (f : Int)
    (l : List Nat) :
    IsRectangular.loop h M f l = mymatrix.IsRectangular.loop (view h M) f l := by
  have ht := table_of_allocated h M hA
  induction l with
  | nil => rfl
  | cons i rest ih =>
    unfold IsRectangular.loop mymatrix.IsRectangular.loop
    simp only [subscript_getElem_some _ _ _ ht, bind, Except.bind]
    rw [view_rows, subscript_map]
    cases hs : subscript (h.tables.getD M.Rows []) (i : Int) with
    | error e => rfl
    | ok row =>
      simp only [Except.map]
      rw [ih]

/-- The rectangularity test on the object is the test on the denoted matrix. -/
theorem IsRectangular_view (h : Heap T) (M : Obj) (hA : Allocated h M) :
    IsRectangular h M = mymatrix.IsRectangular (view h M) := by
  have ht := table_of_allocated h M hA
  unfold IsRectangular mymatrix.IsRectangular
  simp only [subscript_getElem_some _ _ _ ht, bind, Except.bind]
  rw [view_rows, subscript_map]
  cases hs : subscript (h.tables.getD M.Rows []) 0 with
  | error e => rfl
  | ok row =>
    simp only [Except.map]
    exact IsRectangular_loop_view h M hA _ _

theorem at_assign_tables (h h' : Heap T) (M : Obj) (r c : Int) (v : T)
    (hok : at_assign h M r c v = .ok h') : h'.tables = h.tables := by
  unfold at_assign at hok
  split at hok
  · cases hok
  · simp only [bind, Except.bind] at hok
    split at hok
    · cases hok
    · split at hok
      · cases hok
      · split at hok
        · cases hok
        · split at hok
          · cases hok
          · split at hok
            · cases hok
            · split at hok
              · cases hok
              · cases hok
                rfl

theorem numcols_view_getElem (h : Heap T) (M : Obj) (hW : (view h M).WellFormed) (k : Nat)
    (pr : ROW) (hk : (h.tables.getD M.Rows [])[k]? = some pr) :
    (view h M).numcols (k : Int) = .ok pr.NumCols :=
  mymatrix.numcols_of_getElem_some (view h M) hW.1 k _ (view_rows_getElem h M k _ hk)

/-- In a rectangular matrix every row of the table has the column count of row 0. -/
theorem rectangular_store (h : Heap T) (M : Obj) (hG : Good h M)
    (hr : (view h M).rectangular) (n : Int) (hn : (view h M).numcols 0 = .ok n) :
    ∀ pr ∈ h.tables.getD M.Rows [], pr.NumCols = n := by
  intro pr hpr
  obtain ⟨hN, -, -⟩ := wellFormed_store h M hG.2
  obtain ⟨k, hklen, hk⟩ := List.getElem_of_mem hpr
  have hk' : (h.tables.getD M.Rows [])[k]? = some pr := by
    rw [List.getElem?_eq_getElem hklen, hk]
  have h1 := numcols_view_getElem h M hG.2 k pr hk'
  have h2 := hr k (by
    rw [List.mem_range]
    show k < M.NumRows.toNat
    omega)
  rw [h1, hn] at h2
  exact Except.ok.inj h2

theorem CalcMatrixElement_ok_store [Zero T] [Add T] [Mul T] (h : Heap T) (M2 : Obj)
    (hG2 : Good h M2) (row : ROW) (hc : row.Cols < h.elems.length)
    (hrc : row.NumCols = ((h.elems.getD row.Cols []).length : Int))
    (hdim : row.NumCols = M2.NumRows) (p : Int)
    (hp : ∀ pr ∈ h.tables.getD M2.Rows [], pr.NumCols = p) (j : Nat) (hj : (j : Int) < p) :
    ∃ v, CalcMatrixElement h row M2.Rows (j : Int) = .ok v := by
  obtain ⟨hN, -, hrows⟩ := wellFormed_store h M2 hG2.2
  have ht := table_of_allocated h M2 hG2.1
  have ha : h.elems[row.Cols]? = some (h.elems.getD row.Cols []) := by
    rw [List.getD_eq_getElem?_getD, List.getElem?_eq_getElem hc]
    rfl
  unfold CalcMatrixElement
  obtain ⟨v, hv, -⟩ := foldlM_range_inv
    (fun (result : T) (i : Nat) => do
      let cols1 ← subscript h.elems (row.Cols : Int)
      let a ← subscript cols1 (i : Int)
      let table2 ← subscript h.tables (M2.Rows : Int)
      let row2 ← subscript table2 (i : Int)
      let cols2 ← subscript h.elems (row2.Cols : Int)
      let b ← subscript cols2 (j : Int)
      pure (result + a * b))
    (fun _ _ => True) row.NumCols.toNat (0 : T) trivial (by
      intro k acc hk _
      have hk1 : k < (h.elems.getD row.Cols []).length := by omega
      have hk2 : k < (h.tables.getD M2.Rows []).length := by omega
      have hmem := List.getElem_mem hk2
      have ha2 := elems_of_allocated h M2 hG2.1 _ hmem
      have hj2 : j < (h.elems.getD (h.tables.getD M2.Rows [])[k].Cols []).length := by
        have h1 := (hrows _ hmem).1
        have h2 := hp _ hmem
        omega
      refine ⟨acc + (h.elems.getD row.Cols [])[k] *
        (h.elems.getD (h.tables.getD M2.Rows [])[k].Cols [])[j], ?_, trivial⟩
      simp only [subscript_getElem_some _ _ _ ha, subscript_natCast _ _ hk1,
        subscript_getElem_some _ _ _ ht, subscript_natCast _ _ hk2,
        subscript_getElem_some _ _ _ ha2, subscript_natCast _ _ hj2, bind, Except.bind]
      rfl)
  exact ⟨v, hv⟩

/-- One step of the inner loop of the matrix product writes one element of the result
and leaves everything that shares no storage with the result as it was. -/
theorem operator_mul_inner_frame [Zero T] [Add T] [Mul T] (h : Heap T) (M1 M2 R : Obj)
    (hG1 : Good h M1) (hG2 : Good h M2) (hGR : Good h R)
    (hr1 : (view h M1).rectangular) (hr2 : (view h M2).rectangular)
    (hdim : (view h M1).numcols 0 = .ok M2.NumRows) (p : Int)
    (hp : (view h M2).numcols 0 = .ok p)
    (hRp : ∀ pr ∈ h.tables.getD R.Rows [], pr.NumCols = p)
    (hRN : R.NumRows = M1.NumRows) (i : Nat) (hi : (i : Int) < M1.NumRows) (j : Nat)
    (hj : (j : Int) < p) :
    ∃ h', operator_mul.inner M1 M2 R i h j = .ok h' ∧ Good h' R ∧ h'.tables = h.tables ∧
      ∀ X, Separate h X R → Separate h' X R ∧ view h' X = view h X := by
  obtain ⟨hN, -, hrows⟩ := wellFormed_store h M1 hG1.2
  obtain ⟨hNR, -, -⟩ := wellFormed_store h R hGR.2
  have ht := table_of_allocated h M1 hG1.1
  have hilen : i < (h.tables.getD M1.Rows []).length := by omega
  have hiR : i < (h.tables.getD R.Rows []).length := by omega
  have hmem := List.getElem_mem hilen
  obtain ⟨v, hv⟩ := CalcMatrixElement_ok_store h M2 hG2 (h.tables.getD M1.Rows [])[i]
    (hG1.1.2 _ hmem) (hrows _ hmem).1 (rectangular_store h M1 hG1 hr1 _ hdim _ hmem) p
    (rectangular_store h M2 hG2 hr2 _ hp) j hj
  have hnR : (view h R).numcols (i : Int) = .ok p := by
    have := numcols_view_getElem h R hGR.2 i _ (List.getElem?_eq_getElem hiR)
    rw [this, hRp _ (List.getElem_mem hiR)]
  obtain ⟨h', hok, hG', -, hX⟩ := at_assign_frame h R hGR i j (by omega) p hnR hj v
  refine ⟨h', ?_, hG', at_assign_tables h h' R _ _ v hok, hX⟩
  unfold operator_mul.inner
  simp only [subscript_getElem_some _ _ _ ht, subscript_natCast _ _ hilen, bind, Except.bind]
  rw [hv]
  exact hok

/-- One row of the matrix product. -/
theorem operator_mul_outer_frame [Zero T] [Add T] [Mul T] (h0 h1 h : Heap T) (M1 M2 R : Obj)
    (hG1 : Good h0 M1) (hG2 : Good h0 M2)
    (hr1 : (view h0 M1).rectangular) (hr2 : (view h0 M2).rectangular)
    (hdim : (view h0 M1).numcols 0 = .ok M2.NumRows) (p : Int)
    (hp : (view h0 M2).numcols 0 = .ok p) (hp1 : 1 ≤ p)
    (hRp : ∀ pr ∈ h1.tables.getD R.Rows [], pr.NumCols = p)
    (hRN : R.NumRows = M1.NumRows) (i : Nat) (hi : (i : Int) < M1.NumRows)
    (hGR : Good h R) (htab : h.tables = h1.tables)
    (hX : ∀ X, Allocated h0 X → Separate h X R ∧ view h X = view h0 X) :
    ∃ h', operator_mul.outer M1 M2 R h i = .ok h' ∧ Good h' R ∧ h'.tables = h1.tables ∧
      ∀ X, Allocated h0 X → Separate h' X R ∧ view h' X = view h0 X := by
  obtain ⟨hNR, hNR1, -⟩ := wellFormed_store h R hGR.2
  have h0R : 0 < (h.tables.getD R.Rows []).length := by omega
  have hw : numcols h R 0 = .ok p := by
    rw [numcols_view h R hGR.1]
    have := numcols_view_getElem h R hGR.2 0 _ (List.getElem?_eq_getElem h0R)
    simp only [Nat.cast_zero] at this
    have hRp2 : ∀ pr ∈ h.tables.getD R.Rows [], pr.NumCols = p := by rw [htab]; exact hRp
    rw [this, hRp2 _ (List.getElem_mem h0R)]
  obtain ⟨h', hloop, hG', htab', hX'⟩ := foldlM_range_inv (operator_mul.inner M1 M2 R i)
    (fun _ h' => Good h' R ∧ h'.tables = h1.tables ∧
      ∀ X, Allocated h0 X → Separate h' X R ∧ view h' X = view h0 X)
    p.toNat h ⟨hGR, htab, hX⟩ (by
      intro j h2 hj ⟨hG2R, htab2, hX2⟩
      obtain ⟨hS1, hv1⟩ := hX2 M1 hG1.1
      obtain ⟨hS2, hv2⟩ := hX2 M2 hG2.1
      obtain ⟨h3, hok, hG3, htab3, hX3⟩ := operator_mul_inner_frame h2 M1 M2 R
        ⟨hS1.1, by rw [hv1]; exact hG1.2⟩ ⟨hS2.1, by rw [hv2]; exact hG2.2⟩ hG2R
        (by rw [hv1]; exact hr1) (by rw [hv2]; exact hr2) (by rw [hv1]; exact hdim) p
        (by rw [hv2]; exact hp) (by rw [htab2]; exact hRp) hRN i hi j (by omega)
      refine ⟨h3, hok, hG3, htab3.trans htab2, ?_⟩
      intro X hAX
      obtain ⟨hSX, hvX⟩ := hX2 X hAX
      obtain ⟨hSX3, hvX3⟩ := hX3 X hSX
      exact ⟨hSX3, hvX3.trans hvX⟩)
  refine ⟨h', ?_, hG', htab', hX'⟩
  unfold operator_mul.outer
  rw [hw]
  exact hloop

/-- Once its three checks have passed, the matrix product returns normally a good object
that shares no storage with any object of the store, and changes none of them. -/
theorem operator_mul_run_frame [Inhabited T] [Zero T] [Add T] [Mul T] (h : Heap T)
    (M1 M2 : Obj) (hG1 : Good h M1) (hG2 : Good h M2)
    (hr1 : (view h M1).rectangular) (hr2 : (view h M2).rectangular)
    (hdim : (view h M1).numcols 0 = .ok M2.NumRows) :
    ∃ P h', operator_mul.run h M1 M2 = .ok (P, h') ∧ Good h' P ∧
      ∀ X, Allocated h X → Separate h' X P ∧ view h' X = view h X := by
  obtain ⟨hN1, hN11, -⟩ := wellFormed_store h M1 hG1.2
  obtain ⟨hN2, hN21, hrows2⟩ := wellFormed_store h M2 hG2.2
  have ht2 := table_of_allocated h M2 hG2.1
  have h0len : 0 < (h.tables.getD M2.Rows []).length := by omega
  have hmem := List.getElem_mem h0len
  have hp := numcols_view_getElem h M2 hG2.2 0 _ (List.getElem?_eq_getElem h0len)
  simp only [Nat.cast_zero] at hp
  have hfirst := subscript_natCast _ _ h0len
  simp only [Nat.cast_zero] at hfirst
  generalize hpe : (h.tables.getD M2.Rows [])[0].NumCols = p at *
  have hp1 : 1 ≤ p := by rw [← hpe]; exact (hrows2 _ hmem).2
  obtain ⟨P, h1, hctor, hGP, hPN, hPp, hX1⟩ := ctor_frame h M1.NumRows p hN11 hp1
  obtain ⟨h', hloop, hG', -, hX'⟩ := foldlM_range_inv (operator_mul.outer M1 M2 P)
    (fun _ h' => Good h' P ∧ h'.tables = h1.tables ∧
      ∀ X, Allocated h X → Separate h' X P ∧ view h' X = view h X)
    M1.NumRows.toNat h1 ⟨hGP, rfl, hX1⟩ (by
      intro i h2 hi ⟨hG2P, htab2, hX2⟩
      exact operator_mul_outer_frame h h1 h2 M1 M2 P hG1 hG2 hr1 hr2 hdim p hp hp1 hPp hPN i
        (by omega) hG2P htab2 hX2)
  refine ⟨P, h', ?_, hG', hX'⟩
  unfold operator_mul.run
  simp only [subscript_getElem_some _ _ _ ht2, bind, Except.bind]
  rw [hfirst]
  simp only [hpe, hctor, hPN, hloop]
  rfl

/-- Scalar multiplication returns normally and leaves every object of the store as it
was. -/
theorem operator_mul_scalar_frame [Inhabited T] [Mul T] (h : Heap T) (M : Obj) (scalar : T)
    (hG : Good h M) :
    (∃ P, (operator_mul_scalar h M scalar).result = .ok P ∧
      Good (operator_mul_scalar h M scalar).state P) ∧
    ∀ X, Allocated h X → view (operator_mul_scalar h M scalar).state X = view h X := by
  obtain ⟨P, h', hrun, hG', hX⟩ := operator_mul_scalar_run_frame h M scalar hG
  unfold operator_mul_scalar
  rw [hrun]
  exact ⟨⟨P, rfl, hG'⟩, fun X hAX => (hX X hAX).2⟩

/-- The matrix product returns normally or throws a `runtime_error`, and either way
leaves every object of the store as it was. -/
theorem operator_mul_frame [Inhabited T] [Zero T] [Add T] [Mul T] (h : Heap T) (M1 M2 : Obj)
    (hG1 : Good h M1) (hG2 : Good h M2) :
    ((∃ P, (operator_mul h M1 M2).result = .ok P ∧ Good (operator_mul h M1 M2).state P) ∨
      ∃ msg, (operator_mul h M1 M2).result = .error (.runtime_error msg) ∧
        (operator_mul h M1 M2).state = h) ∧
    ∀ X, Allocated h X → view (operator_mul h M1 M2).state X = view h X := by
  have e1 : IsRectangular h M1 = .ok (decide (view h M1).rectangular) := by
    rw [IsRectangular_view h M1 hG1.1, mymatrix.IsRectangular_ok _ hG1.2]
  have e2 : IsRectangular h M2 = .ok (decide (view h M2).rectangular) := by
    rw [IsRectangular_view h M2 hG2.1, mymatrix.IsRectangular_ok _ hG2.2]
  obtain ⟨hN1, hN11, -⟩ := wellFormed_store h M1 hG1.2
  have h0len : 0 < (h.tables.getD M1.Rows []).length := by omega
  have e3 := numcols_view_getElem h M1 hG1.2 0 _ (List.getElem?_eq_getElem h0len)
  simp only [Nat.cast_zero] at e3
  have e3' := e3
  rw [← numcols_view h M1 hG1.1] at e3'
  have hnt : ¬ ((!true) = true) := by decide
  have hnf : (!false) = true := by decide
  unfold operator_mul
  rw [e1]
  by_cases hr1 : (view h M1).rectangular
  · rw [decide_eq_true hr1]
    dsimp only
    rw [if_neg hnt, e2]
    by_cases hr2 : (view h M2).rectangular
    · rw [decide_eq_true hr2]
      dsimp only
      rw [if_neg hnt, e3']
      dsimp only
      by_cases hd : (h.tables.getD M1.Rows [])[0].NumCols = M2.NumRows
      · obtain ⟨P, h', hrun, hG', hX⟩ := operator_mul_run_frame h M1 M2 hG1 hG2 hr1 hr2
          (by rw [e3, hd])
        rw [if_neg (not_not.mpr hd), hrun]
        exact ⟨Or.inl ⟨P, rfl, hG'⟩, fun X hAX => (hX X hAX).2⟩
      · rw [if_pos hd]
        exact ⟨Or.inr ⟨_, rfl, rfl⟩, fun _ _ => rfl⟩
    · rw [decide_eq_false hr2]
      dsimp only
      rw [if_pos hnf]
      exact ⟨Or.inr ⟨_, rfl, rfl⟩, fun _ _ => rfl⟩
  · rw [decide_eq_false hr1]
    dsimp only
    rw [if_pos hnf]
    exact ⟨Or.inr ⟨_, rfl, rfl⟩, fun _ _ => rfl⟩

/-- Claim C14: neither multiplication mutates its operands.  For every object `M` of the
store and every scalar `s`, `M * s` returns normally and, in the store it leaves, `M`
denotes the same matrix as before: same row count, same column counts, same `size()`, same
elements.  For every pair of objects `M1`, `M2` (which may be one object), `M1 * M2`
returns normally or throws a `runtime_error`, and either way both `M1` and `M2` denote the
same matrices as before; so does every other object of the store. -/
theorem mul_operands_unchanged [Inhabited T] [Zero T] [Add T] [Mul T] (h : Heap T)
    (M M1 M2 : Obj) (s : T) (hG : Good h M) (hG1 : Good h M1) (hG2 : Good h M2) :
    (∃ P, (operator_mul_scalar h M s).result = .ok P) ∧
    view (operator_mul_scalar h M s).state M = view h M ∧
    ((∃ P, (operator_mul h M1 M2).result = .ok P) ∨
      ∃ msg, (operator_mul h M1 M2).result = .error (.runtime_error msg)) ∧
    view (operator_mul h M1 M2).state M1 = view h M1 ∧
    view (operator_mul h M1 M2).state M2 = view h M2 ∧
    (∀ X, Allocated h X →
      view (operator_mul_scalar h M s).state X = view h X ∧
      view (operator_mul h M1 M2).state X = view h X) ∧
    (∀ r c : Int,
      (view (operator_mul_scalar h M s).state M).numrows = (view h M).numrows ∧
      (view (operator_mul_scalar h M s).state M).numcols r = (view h M).numcols r ∧
      (view (operator_mul_scalar h M s).state M).size = (view h M).size ∧
      (view (operator_mul_scalar h M s).state M).at_value r c = (view h M).at_value r c ∧
      (view (operator_mul h M1 M2).state M1).numrows = (view h M1).numrows ∧
      (view (operator_mul h M1 M2).state M1).numcols r = (view h M1).numcols r ∧
      (view (operator_mul h M1 M2).state M1).size = (view h M1).size ∧
      (view (operator_mul h M1 M2).state M1).at_value r c = (view h M1).at_value r c ∧
      (view (operator_mul h M1 M2).state M2).numrows = (view h M2).numrows ∧
      (view (operator_mul h M1 M2).state M2).numcols r = (view h M2).numcols r ∧
      (view (operator_mul h M1 M2).state M2).size = (view h M2).size ∧
      (view (operator_mul h M1 M2).state M2).at_value r c = (view h M2).at_value r c) := by
  obtain ⟨⟨P, hP, -⟩, hXs⟩ := operator_mul_scalar_frame h M s hG
  obtain ⟨hres, hXm⟩ := operator_mul_frame h M1 M2 hG1 hG2
  have hres2 : (∃ P, (operator_mul h M1 M2).result = .ok P) ∨
      ∃ msg, (operator_mul h M1 M2).result = .error (.runtime_error msg) := by
    rcases hres with ⟨P, hP, -⟩ | ⟨msg, hmsg, -⟩
    · exact Or.inl ⟨P, hP⟩
    · exact Or.inr ⟨msg, hmsg⟩
  have e := hXs M hG.1
  have e1 := hXm M1 hG1.1
  have e2 := hXm M2 hG2.1
  refine ⟨⟨P, hP⟩, e, hres2, e1, e2, fun X hAX => ⟨hXs X hAX, hXm X hAX⟩, ?_⟩
  intro r c
  rw [e, e1, e2]
  exact ⟨rfl, rfl, rfl, rfl, rfl, rfl, rfl, rfl, rfl, rfl, rfl, rfl⟩

theorem mul_operands_unchanged_witness :
    Good example_heap2 example_obj ∧ Good example_heap2 example_square ∧
    (∃ P, (operator_mul_scalar example_heap2 example_obj 3).result = .ok P) ∧
    view (operator_mul_scalar example_heap2 example_obj 3).state example_obj =
      view example_heap2 example_obj ∧
    (operator_mul example_heap2 example_square example_square).result =
      .ok ⟨2, 2, 4⟩ ∧
    (operator_mul example_heap2 example_square example_square).state ≠ example_heap2 ∧
    view (operator_mul example_heap2 example_square example_square).state example_square =
      view example_heap2 example_square := by
  have hG : Good example_heap2 example_obj := by decide
  have hS : Good example_heap2 example_square := by decide
  have h := mul_operands_unchanged example_heap2 example_obj example_square example_square 3
    hG hS hS
  exact ⟨hG, hS, h.1, h.2.1, rfl, by decide, h.2.2.2.1⟩

end Ptr
